import Mathlib

/-! # Client-side backup indexer (`urbackupclient/client.cpp`)

A shallow embedding of the parts of `IndexThread` that the specification's
testable properties talk about, followed by the theorems that settle them.

Conventions of the embedding

* bytes are natural numbers below 256, files and buffers are lists of bytes;
* `DWORD`/`ULONG` arithmetic of the Windows build is written with an explicit
  `% 2 ^ 32` wherever the source computes in 32 bits;
* calls into the operating system (opening a volume, an IOCTL, a file write)
  are taken to succeed: the data dependent failure paths of the source
  (wrong magic, wrong checksum, differing sector size) are kept.
-/

set_option autoImplicit false

namespace IndexThread

/-! ## Change block tracking: data -/

/-- The `URBT_MAGIC_SIZE` constant of client.cpp line 4984. -/
def URBT_MAGIC_SIZE : Nat := 13

/-- The bytes of `URBT_MAGIC`, the text `~urbackupcbt!` (client.cpp line 4983). -/
def URBT_MAGIC : List Nat := [126, 117, 114, 98, 97, 99, 107, 117, 112, 99, 98, 116, 33]

/-- The digest size `SHA256_DIGEST_SIZE` of `sha2.h` (the header is not part of
the sources; the value is the 32 bytes of a SHA-256 digest). -/
def SHA256_DIGEST_SIZE : Nat := 32

/-- Number of values of a `DWORD`. -/
def DWORD_MOD : Nat := 2 ^ 32

/-- Subtraction of two `DWORD` values, wrapping as unsigned 32 bit arithmetic does. -/
def subDW (a b : Nat) : Nat := (a % DWORD_MOD + DWORD_MOD - b % DWORD_MOD) % DWORD_MOD

/-- The driver's `URBCT_BITMAP_DATA` record: two 32 bit header fields followed by
the bitmap bytes. -/
structure URBCT_BITMAP_DATA where
  BitmapSize : Nat
  SectorSize : Nat
  Bitmap : List Nat
  deriving DecidableEq, Repr

/-- The byte `Bitmap[j]`; a read past the end of the buffer (undefined in the
source) yields 0. -/
def byteAt (bm : URBCT_BITMAP_DATA) (j : Nat) : Nat := bm.Bitmap.getD j 0

/-- The assignment `dst->Bitmap[j] |= b`; a write past the end of the buffer
(undefined in the source) is dropped. -/
def orByteAt (dst : URBCT_BITMAP_DATA) (j b : Nat) : URBCT_BITMAP_DATA :=
  { dst with Bitmap := dst.Bitmap.set j (dst.Bitmap.getD j 0 ||| b) }

/-- The values taken by `i` in `for (DWORD i = 0; i < size; i += step)`, for
`0 < step` and `size + step ≤ 2 ^ 32` (no wrap of the counter). -/
def sectorStarts (size step : Nat) : List Nat :=
  (List.range ((size + step - 1) / step)).map (fun k => k * step)

/-- The bitmaps for which the sector loops of the source are modelled: sectors
longer than the magic tag and a loop counter that cannot wrap. Outside of it
(a sector size of 0, a counter wrapping past `2 ^ 32`) the loops of the source
need not terminate. -/
def loopsModelled (bm : URBCT_BITMAP_DATA) : Bool :=
  decide (URBT_MAGIC_SIZE < bm.SectorSize) && decide (bm.BitmapSize + bm.SectorSize ≤ DWORD_MOD)

/-- The comparison `memcmp(&bm->Bitmap[i], URBT_MAGIC, URBT_MAGIC_SIZE) == 0`. -/
def magicAt (bm : URBCT_BITMAP_DATA) (i : Nat) : Bool :=
  (List.range URBT_MAGIC_SIZE).all (fun t => byteAt bm (i + t) == URBT_MAGIC.getD t 0)

/-! ## Change block tracking: files -/

/-- Little endian bytes of a 32 bit value. -/
def le32 (n : Nat) : List Nat :=
  [n % 256, n / 256 % 256, n / 65536 % 256, n / 16777216 % 256]

/-- Value of the little endian 32 bit field at offset `off` of `data`. -/
def rd32 (data : List Nat) (off : Nat) : Nat :=
  data.getD off 0 + 256 * data.getD (off + 1) 0 + 65536 * data.getD (off + 2) 0
    + 16777216 * data.getD (off + 3) 0

/-- The `dsize = BitmapSize + sizeof(DWORD) + sizeof(ULONG)` bytes that
`saveMergeBitmap` hashes and writes, starting at the record's address. -/
def bitmapBytes (bm : URBCT_BITMAP_DATA) : List Nat :=
  le32 bm.BitmapSize ++ le32 bm.SectorSize
    ++ (List.range bm.BitmapSize).map (fun j => byteAt bm j)

/-- The 16 byte digest that `MD5::raw_digest_int` returns, for a digest function
`md5` (the MD5 class is not part of the sources). -/
def digest16 (md5 : List Nat → List Nat) (data : List Nat) : List Nat :=
  (md5 data ++ List.replicate 16 0).take 16

/-- Model of `readBitmap` (client.cpp 5017-5067) on the content of an existing
file that is read without error: `none` is the `NULL` result. The file is
shorter than 4 GiB, so that the lengths handed to `Read` and `md.update` as
`_u32` are the length of the data. The header fields of the record are read from
the buffer; bytes that the buffer does not hold read as 0. -/
def readBitmap (md5 : List Nat → List Nat) (content : List Nat) : Option URBCT_BITMAP_DATA :=
  if content.length < 16 then none
  else
    let md5sum := content.take 16
    let data := content.drop 16
    if md5sum ≠ digest16 md5 data then none
    else some { BitmapSize := rd32 data 0, SectorSize := rd32 data 4, Bitmap := data.drop 8 }

/-- Model of `mergeBitmap` (client.cpp 5069-5086): the result flag and the new
value of `dst`. -/
def mergeBitmap (src dst : URBCT_BITMAP_DATA) : Bool × URBCT_BITMAP_DATA :=
  if src.SectorSize ≠ dst.SectorSize then (false, dst)
  else
    (true,
      (sectorStarts (min src.BitmapSize dst.BitmapSize) src.SectorSize).foldl
        (fun d i =>
          (List.range' (i + URBT_MAGIC_SIZE) (src.SectorSize - URBT_MAGIC_SIZE)).foldl
            (fun d j => orByteAt d j (byteAt src j)) d)
        dst)

/-- Model of `readMergeBitmap` (client.cpp 5088-5107): `file` is the content of
`fn` when it exists. -/
def readMergeBitmap (md5 : List Nat → List Nat) (file : Option (List Nat))
    (bitmap : URBCT_BITMAP_DATA) : Bool × URBCT_BITMAP_DATA :=
  match file with
  | none => (true, bitmap)
  | some content =>
    match readBitmap md5 content with
    | none => (false, bitmap)
    | some old_bitmap => mergeBitmap old_bitmap bitmap

/-- Model of `saveMergeBitmap` (client.cpp 5109-5181): the result flag and the
new state of the file `fn` (the staging file `fn.new` is not tracked). -/
def saveMergeBitmap (md5 : List Nat → List Nat) (file : Option (List Nat))
    (bitmap : URBCT_BITMAP_DATA) : Bool × Option (List Nat) :=
  let written (b : URBCT_BITMAP_DATA) : List Nat :=
    digest16 md5 (bitmapBytes b) ++ bitmapBytes b
  match file with
  | none => (true, some (written bitmap))
  | some content =>
    match readBitmap md5 content with
    | none => (false, file)
    | some old_bitmap =>
      match mergeBitmap bitmap old_bitmap with
      | (false, _) => (false, file)
      | (true, merged) => (true, some (written merged))

/-- The call `f->Resize(n)`: the file is cut or extended with zero bytes. -/
def resizeFile (f : List Nat) (n : Nat) : List Nat :=
  (f ++ List.replicate (n - f.length) 0).take n

/-- The call `f->Write(pos, data, size)` of a positioned write: a gap between the
end of the file and `pos` reads as zero bytes. -/
def writeAt (f : List Nat) (pos : Nat) (data : List Nat) : List Nat :=
  (f ++ List.replicate (pos - f.length) 0).take pos ++ data ++ f.drop (pos + data.length)

/-- The persisted files of one volume that `finishCbt` touches. -/
structure CbtFiles where
  /-- The content of `hdat_file_<vol>.cbt`, when the file exists. -/
  hdat_file_cbt : Option (List Nat)
  /-- The content of `hdat_img_<vol>.cbt`, when the file exists. -/
  hdat_img_cbt : Option (List Nat)
  /-- The content of the image hash sidecar `hdat_img_<vol>.dat` (empty when new). -/
  hdat_img : List Nat
  /-- The content of the file hash sidecar `hdat_file_<vol>.dat` (empty when new). -/
  hdat_file : List Nat
  deriving DecidableEq, Repr

/-! ## Change block tracking: `finishCbt` -/

/-- The bitmap being validated and the running `RealBitmapSize` of the loop at
client.cpp 5420-5458. -/
structure ValidateState where
  bitmap_data : URBCT_BITMAP_DATA
  RealBitmapSize : Nat
  deriving DecidableEq, Repr

/-- Body of the magic validation loop of `finishCbt` for the sector starting at
`i` (client.cpp 5422-5457); `none` is the `return false` of a wrong magic. The
byte count `changed_bytes_sc` is only logged and is left out. -/
def validateSector (snap : Option URBCT_BITMAP_DATA) (st : ValidateState) (i : Nat) :
    Option ValidateState :=
  if !magicAt st.bitmap_data i then none
  else
    let tr := min (subDW (subDW st.bitmap_data.BitmapSize i) URBT_MAGIC_SIZE)
      (subDW st.bitmap_data.SectorSize URBT_MAGIC_SIZE)
    let real := (st.RealBitmapSize + tr) % DWORD_MOD
    match snap with
    | none => some { st with RealBitmapSize := real }
    | some s =>
      if i + URBT_MAGIC_SIZE < s.BitmapSize then
        if !magicAt s i then none
        else
          let tr_snap := min tr (subDW (subDW s.BitmapSize i) URBT_MAGIC_SIZE)
          some
            { bitmap_data :=
                (List.range' (i + URBT_MAGIC_SIZE) tr_snap).foldl
                  (fun d j => orByteAt d j (byteAt s j)) st.bitmap_data
              RealBitmapSize := real }
      else some { st with RealBitmapSize := real }

/-- The validation loop of `finishCbt` over all sectors of the volume bitmap. -/
def validateBitmap (bitmap_data : URBCT_BITMAP_DATA) (snap : Option URBCT_BITMAP_DATA) :
    Option ValidateState :=
  (sectorStarts bitmap_data.BitmapSize bitmap_data.SectorSize).foldlM (validateSector snap)
    { bitmap_data := bitmap_data, RealBitmapSize := 0 }

/-- The innermost statement of the image pass (client.cpp 5552-5563) for one bit
of the byte `ch`: the offset `sizeof(shadow_id) + (curr_byte * 8 + bit) *
SHA256_DIGEST_SIZE` has its product computed in `DWORD` arithmetic. -/
def zeroImgBit (curr_byte ch : Nat) (f : List Nat) (bit : Nat) : List Nat :=
  if (ch &&& (1 <<< bit)) > 0 then
    writeAt f (4 + (curr_byte * 8 + bit) * SHA256_DIGEST_SIZE % DWORD_MOD)
      (List.replicate SHA256_DIGEST_SIZE 0)
  else f

/-- The body of the inner loop of the image pass (client.cpp 5542-5566) for the
bitmap byte `ch`; the state is `curr_byte` and the sidecar. -/
def zeroImgByte (st : Nat × List Nat) (ch : Nat) : Nat × List Nat :=
  if ch = 0 then (st.1 + 1, st.2)
  else (st.1 + 1, (List.range 8).foldl (zeroImgBit st.1 ch) st.2)

/-- The image pass of `finishCbt` (client.cpp 5537-5568): the sidecar after the
hash slots of the set bits have been overwritten. -/
def zeroImgHashes (bm : URBCT_BITMAP_DATA) (f : List Nat) : List Nat :=
  ((sectorStarts bm.BitmapSize bm.SectorSize).foldl
    (fun st i =>
      (List.range' (i + URBT_MAGIC_SIZE) (bm.SectorSize - URBT_MAGIC_SIZE)).foldl
        (fun st j => zeroImgByte st (byteAt bm j)) st)
    (0, f)).2

/-- State of the file pass: `curr_byte`, `last_bit_set`, `last_zeroed` and the
file hash sidecar. -/
structure FilePass where
  curr_byte : Nat
  last_bit_set : Bool
  last_zeroed : Bool
  file : List Nat
  deriving DecidableEq, Repr

/-- The body of the bit loop of the file pass (client.cpp 5640-5674); `slot` is
`sizeof(zero_chunk)`. The offsets are computed in `int64`. -/
def zeroFileBit (slot ch : Nat) (st : FilePass) (bit : Nat) : FilePass :=
  let has_bit : Bool := decide ((ch &&& (1 <<< bit)) > 0)
  if has_bit || st.last_bit_set then
    let f1 :=
      if !st.last_bit_set && !st.last_zeroed then
        let last_pos := st.curr_byte * 8 + bit
        if last_pos > 0 then writeAt st.file ((last_pos - 1) * slot) (List.replicate slot 0)
        else st.file
      else st.file
    let f2 := writeAt f1 ((st.curr_byte * 8 + bit) * slot) (List.replicate slot 0)
    { st with file := f2, last_zeroed := true, last_bit_set := has_bit }
  else { st with last_zeroed := false, last_bit_set := has_bit }

/-- The body of the inner loop of the file pass (client.cpp 5616-5676). -/
def zeroFileByte (slot : Nat) (st : FilePass) (ch : Nat) : FilePass :=
  if ch = 0 then
    { curr_byte := st.curr_byte + 1
      last_bit_set := false
      last_zeroed := false
      file :=
        if st.last_bit_set then writeAt st.file (st.curr_byte * 8 * slot) (List.replicate slot 0)
        else st.file }
  else
    let st1 := (List.range 8).foldl (zeroFileBit slot ch) st
    { st1 with curr_byte := st1.curr_byte + 1 }

/-- The file pass of `finishCbt` (client.cpp 5609-5678). -/
def zeroFileHashes (slot : Nat) (bm : URBCT_BITMAP_DATA) (f : List Nat) : List Nat :=
  ((sectorStarts bm.BitmapSize bm.SectorSize).foldl
    (fun st i =>
      (List.range' (i + URBT_MAGIC_SIZE) (bm.SectorSize - URBT_MAGIC_SIZE)).foldl
        (fun st j => zeroFileByte slot st (byteAt bm j)) st)
    { curr_byte := 0, last_bit_set := false, last_zeroed := false, file := f }).file

/-- Model of `IndexThread::finishCbt` (client.cpp 5279-5701, Windows build) from
the point where both bitmaps have been retrieved: `bitmap_data` is the bitmap of
the volume, `snap` the bitmap of the snapshot when `snap_volume` is given, `md5`
the digest function and `chunkhash_single_size` the constant of
`chunk_hasher.h`. The result is `none` for a bitmap outside `loopsModelled`;
otherwise the returned flag and the files afterwards. The two sequence maps
guarded by `cbt_shadow_id_mutex` are not tracked. -/
def finishCbt (md5 : List Nat → List Nat) (chunkhash_single_size : Nat)
    (bitmap_data : URBCT_BITMAP_DATA) (snap : Option URBCT_BITMAP_DATA) (shadow_id : Int)
    (for_image_backup : Bool) (fs : CbtFiles) : Option (Bool × CbtFiles) :=
  if !loopsModelled bitmap_data then none
  else
    match validateBitmap bitmap_data snap with
    | none => some (false, fs)
    | some v =>
      if for_image_backup then
        match saveMergeBitmap md5 fs.hdat_file_cbt v.bitmap_data with
        | (false, file_cbt) => some (false, { fs with hdat_file_cbt := file_cbt })
        | (true, file_cbt) =>
          match readMergeBitmap md5 fs.hdat_img_cbt v.bitmap_data with
          | (false, _) => some (false, { fs with hdat_file_cbt := file_cbt })
          | (true, merged) =>
            let img0 := resizeFile fs.hdat_img
              (4 + v.RealBitmapSize * 8 * SHA256_DIGEST_SIZE % DWORD_MOD)
            let img1 := writeAt img0 0 (le32 (shadow_id % 4294967296).toNat)
            some (true,
              { fs with
                hdat_file_cbt := file_cbt
                hdat_img := zeroImgHashes merged img1
                hdat_img_cbt := none })
      else
        match saveMergeBitmap md5 fs.hdat_img_cbt v.bitmap_data with
        | (false, img_cbt) => some (false, { fs with hdat_img_cbt := img_cbt })
        | (true, img_cbt) =>
          match readMergeBitmap md5 fs.hdat_file_cbt v.bitmap_data with
          | (false, _) => some (false, { fs with hdat_img_cbt := img_cbt })
          | (true, merged) =>
            let slot := 2 + chunkhash_single_size
            let dat0 := resizeFile fs.hdat_file (merged.BitmapSize * 8 % DWORD_MOD * slot)
            some (true,
              { fs with
                hdat_img_cbt := img_cbt
                hdat_file := zeroFileHashes slot merged dat0
                hdat_file_cbt := none })

/-- The merged bitmap that the passes of `finishCbt` scan: the volume bitmap
with the snapshot bitmap and the stored bitmap of the same kind merged in. -/
def mergedBitmap (md5 : List Nat → List Nat) (bitmap_data : URBCT_BITMAP_DATA)
    (snap : Option URBCT_BITMAP_DATA) (stored : Option (List Nat)) : Option URBCT_BITMAP_DATA :=
  match validateBitmap bitmap_data snap with
  | none => none
  | some v => some (readMergeBitmap md5 stored v.bitmap_data).2

/-- Index in `Bitmap` of the `c`-th byte that is not part of a magic tag, for
sectors of `sectorSize` bytes. -/
def payloadIndex (sectorSize c : Nat) : Nat :=
  c / (sectorSize - URBT_MAGIC_SIZE) * sectorSize + URBT_MAGIC_SIZE
    + c % (sectorSize - URBT_MAGIC_SIZE)

/-- Whether the bit of block `k` is set: bit `k % 8` of the non-magic byte `k / 8`. -/
def blockBit (bm : URBCT_BITMAP_DATA) (k : Nat) : Bool :=
  (byteAt bm (payloadIndex bm.SectorSize (k / 8))).testBit (k % 8)

/-- The hash slot of block `k` in the image hash sidecar: the bytes at offsets
`4 + 32 * k` to `4 + 32 * k + 31` that the file holds. -/
def imgSlot (f : List Nat) (k : Nat) : List Nat :=
  (f.drop (4 + SHA256_DIGEST_SIZE * k)).take SHA256_DIGEST_SIZE

/-- The bytes of `f` at offsets `o` to `o + n - 1` exist and are all zero. -/
def AllZero (f : List Nat) (o n : Nat) : Prop :=
  ∀ i, o ≤ i → i < o + n → f[i]? = some 0

/-- The bitmap bytes outside of the magic tags, in the order in which the passes
of `finishCbt` visit them. -/
def payloadBytes (bm : URBCT_BITMAP_DATA) : List Nat :=
  (List.range ((bm.BitmapSize + bm.SectorSize - 1) / bm.SectorSize
      * (bm.SectorSize - URBT_MAGIC_SIZE))).map
    (fun c => byteAt bm (payloadIndex bm.SectorSize c))

/-! ## A volume of more than 64 TiB

`wideBitmap` is the bitmap of a volume with 33622 sectors of 512 bytes (499
bitmap bytes each, more than `2 ^ 27` blocks of 512 KiB): every magic tag is in
place and the only set bit is the one of block `2 ^ 27`, bit 0 of the non-magic
byte `2 ^ 24`, which is byte 350 of sector 33621. -/

/-- The byte at index `j` of `wideBitmap`. -/
def wideByte (j : Nat) : Nat :=
  if j % 512 < 13 then URBT_MAGIC.getD (j % 512) 0 else if j = 17214302 then 1 else 0

/-- A bitmap with whole sectors whose single set bit is the one of block `2 ^ 27`. -/
def wideBitmap : URBCT_BITMAP_DATA :=
  { BitmapSize := 17214464
    SectorSize := 512
    Bitmap := (List.range 17214464).map wideByte }

/-- The files before the call: no stored bitmap, and an image hash sidecar that
holds a shadow id and a hash of 32 bytes `0xff` for block 0. -/
def wideFiles : CbtFiles :=
  { hdat_file_cbt := none
    hdat_img_cbt := none
    hdat_img := List.replicate 36 255
    hdat_file := [] }

/-- The image hash sidecar that `finishCbt(..., for_image_backup = true)` with
shadow id 7 leaves for `wideBitmap` and `wideFiles`: resized, the shadow id
written, then the image pass run. -/
@[irreducible] def wideSidecarAfter : List Nat :=
  zeroImgHashes wideBitmap
    (writeAt (resizeFile wideFiles.hdat_img (4 + 16777378 * 8 * SHA256_DIGEST_SIZE % DWORD_MOD)) 0
      (le32 ((7 : Int) % 4294967296).toNat))

/-- The files that the same call leaves. -/
def wideFilesAfter (md5 : List Nat → List Nat) : CbtFiles :=
  { hdat_file_cbt := some (digest16 md5 (bitmapBytes wideBitmap) ++ bitmapBytes wideBitmap)
    hdat_img_cbt := none
    hdat_img := wideSidecarAfter
    hdat_file := [] }

/-! ## A small volume

One sector of 16 bytes: the magic tag and three bitmap bytes, with the bits of
blocks 0 and 17 set. -/

/-- A bitmap of one sector of 16 bytes with blocks 0 and 17 set. -/
def tinyBitmap : URBCT_BITMAP_DATA :=
  { BitmapSize := 16
    SectorSize := 16
    Bitmap := URBT_MAGIC ++ [1, 0, 2] }

/-- A stand-in for the MD5 digest in evaluations: every digest is 16 zero bytes. -/
def zeroDigest : List Nat → List Nat := fun _ => []

/-- No stored bitmap and empty hash sidecars. -/
def noFiles : CbtFiles :=
  { hdat_file_cbt := none, hdat_img_cbt := none, hdat_img := [], hdat_file := [] }

/-- The files after `finishCbt(vol, 7, "", true)` on `tinyBitmap`, starting from
`noFiles`. -/
def tinyAfterImage : CbtFiles :=
  ((finishCbt zeroDigest 2 tinyBitmap none 7 true noFiles).getD (false, noFiles)).2

/-- The files after the following `finishCbt(vol, -1, "", false)`. -/
def tinyAfterFile : CbtFiles :=
  ((finishCbt zeroDigest 2 tinyBitmap none (-1) false tinyAfterImage).getD (false, noFiles)).2

/-! ## Snapshot references

The build without `_WIN32` is modelled (there is no `backupcom` member). Times
are seconds as returned by `Server->getTimeSeconds()`. -/

/-- The constant `shadowcopy_timeout` of client.cpp line 94, in milliseconds. -/
def shadowcopy_timeout : Int := 7 * 24 * 60 * 60 * 1000

/-- The constant `shadowcopy_startnew_timeout` of client.cpp line 95, in milliseconds. -/
def shadowcopy_startnew_timeout : Int := 55 * 60 * 1000

/-- The members of `SCRef` that the snapshot manager of client.cpp reads or writes. -/
structure SCRef where
  ssetid : Nat
  volpath : String
  target : String
  starttokens : List String
  starttime : Int
  ok : Bool
  for_imagebackup : Bool
  clientsubname : String
  cbt : Bool
  save_id : Int
  dontincrement : Bool
  deriving DecidableEq, Repr

/-- The `SCRef` that `start_shadowcopy` allocates when no existing snapshot is
reused (client.cpp 2806-2812), before the platform backend fills in the rest. -/
def newSCRef (starttoken : String) (now : Int) (wpath clientsubname : String)
    (for_imagebackup : Bool) : SCRef :=
  { ssetid := 0, volpath := "", target := wpath, starttokens := [starttoken], starttime := now,
    ok := false, for_imagebackup := for_imagebackup, clientsubname := clientsubname,
    cbt := false, save_id := -1, dontincrement := false }

/-- The update of the reference to which `find_existing_shadowcopy` attaches a
`ScopedDir` (client.cpp 2688-2696). -/
def attachToken (starttoken : String) (r : SCRef) : SCRef :=
  if !r.dontincrement then { r with starttokens := r.starttokens ++ [starttoken] }
  else { r with dontincrement := false }

/-- The condition of client.cpp 2927-2930 under which `release_shadowcopy` calls
`deleteShadowcopy(dir)`. -/
def deleteDue (starttoken : String) (now : Int) (r : SCRef) : Bool :=
  r.starttokens.isEmpty
    || (r.starttokens.length == 1 && r.starttokens.head? == some starttoken)
    || decide (now - r.starttime > shadowcopy_timeout / 1000)

/-- What one call of `release_shadowcopy` does to the reference of its
`ScopedDir`. -/
structure ReleaseResult where
  /-- Whether `deleteShadowcopy(dir)` was invoked. -/
  platform_delete : Bool
  /-- The row passed to `cd->deleteShadowcopy`, when one was. -/
  db_delete : Option Int
  /-- The reference afterwards; `none` when the loop at client.cpp 2960-3005
  found its token list empty and erased it from `sc_refs`. -/
  ref : Option SCRef
  deriving DecidableEq, Repr

/-- Model of `IndexThread::release_shadowcopy` (client.cpp 2919-3005) for a
`ScopedDir` whose `ref` is `r`, called while the current start token is
`starttoken` at time `now`: the delete decision, the removal of one occurrence of
the token, and the garbage collection of the reference. The reference count of
the database row (client.cpp 2907-2917) and `cleanup_saved_shadowcopies`, which
acts on persisted rows that match no `SCRef`, are not part of it. -/
def release_shadowcopy (starttoken : String) (now : Int) (r : SCRef) : ReleaseResult :=
  let del := deleteDue starttoken now r
  let r1 := { r with starttokens := r.starttokens.erase starttoken }
  { platform_delete := del
    db_delete := if del && decide (r.save_id ≠ -1) then some r.save_id else none
    ref := if r1.starttokens.isEmpty then none else some r1 }

/-- An operation of the controller on one snapshot: a create or reference request
that attaches to it under a start token, or a release under a start token at a
time. -/
inductive SnapOp where
  | reference (starttoken : String)
  | release (starttoken : String) (now : Int)
  deriving DecidableEq, Repr

/-- One invocation of the platform delete: the start token of the release that
made it and the token list of the reference before that release. -/
structure DeleteEvent where
  starttoken : String
  tokens_before : List String
  deriving DecidableEq, Repr

/-- The life of one snapshot reference under a sequence of operations: the
reference at the end (`none` once it has been erased from `sc_refs`; later
operations then act on other snapshots) and the platform deletes made for it. -/
def runSnapOps : Option SCRef → List SnapOp → List DeleteEvent → Option SCRef × List DeleteEvent
  | none, _, acc => (none, acc)
  | some r, [], acc => (some r, acc)
  | some r, SnapOp.reference tok :: ops, acc => runSnapOps (some (attachToken tok r)) ops acc
  | some r, SnapOp.release tok now :: ops, acc =>
    let res := release_shadowcopy tok now r
    runSnapOps res.ref ops
      (if res.platform_delete then acc ++ [{ starttoken := tok, tokens_before := r.starttokens }]
       else acc)

/-! ## Include and exclude patterns

The build without `_WIN32` is modelled: `os_file_sep()` is `/` and paths are not
upper-cased before matching. A `std::string` is a list of characters. The glob
matcher `amatch` (`urbackupcommon/glob.h`) is not part of the sources; the
functions below take it as the parameter `am`, called as `am str pattern`. -/

/-- A `std::string`. -/
abbrev Str := List Char

/-- The result of `os_file_sep()` in the build without `_WIN32`. -/
def os_file_sep : Str := ['/']

/-- The record `SIndexInclude`: a pattern, its depth and its stored prefix (the
member `prefix` of the source). -/
structure SIndexInclude where
  spec : Str
  depth : Int
  prefix_ : Str
  deriving DecidableEq, Repr

/-- The result of `s.find_first_of(c, pos)` for a one-character set: the first
index at or after `pos` that holds `c`; `none` is `std::string::npos`. -/
def find_first_of (s : Str) (c : Char) (pos : Nat) : Option Nat :=
  ((List.range s.length).drop pos).find? (fun i => s.getD i ' ' == c)

/-- Modelled from the spec: the function `Tokenize` of `stringtools.h`, which is
not part of the sources. The specification says only that a setting holds
several patterns; the call `Tokenize(val, toks, ";")` is taken to yield the
non-empty pieces of `val` between occurrences of the separator character. -/
def Tokenize (str : Str) (sep : Char) : List Str :=
  (str.splitOn sep).filter (fun t => !t.isEmpty)

/-- Modelled from the spec: the function `trim` of `stringtools.h`, which is not
part of the sources; it is taken to return `str` without its leading and
trailing blanks. -/
def trim (str : Str) : Str :=
  let blank : Char → Bool := fun c => c == ' ' || c == '\t' || c == '\n' || c == '\r'
  ((str.dropWhile blank).reverse.dropWhile blank).reverse

/-- The loop of `sanitizePattern` (client.cpp 3240-3277) from index `j` on;
`fuel` bounds the number of iterations. -/
def sanitizeLoop (ep : Str) : Nat → Nat → Str → Str
  | 0, _, nep => nep
  | fuel + 1, j, nep =>
    if j < ep.length then
      let ch := ep.getD j ' '
      if ch = '/' then
        sanitizeLoop ep fuel (j + 1)
          (if os_file_sep = ['\\'] then nep ++ ['\\', '\\'] else nep ++ os_file_sep)
      else if ch = '\\' ∧ j + 1 < ep.length ∧ ep.getD (j + 1) ' ' = '\\' then
        sanitizeLoop ep fuel (j + 2)
          (if os_file_sep = ['\\'] then nep ++ ['\\', '\\'] else nep ++ os_file_sep)
      else if ch = '\\' ∧ (j + 1 ≥ ep.length ∨ ep.getD (j + 1) ' ' ≠ '[') then
        sanitizeLoop ep fuel (j + 1)
          (if os_file_sep = ['\\'] then nep ++ ['\\', '\\'] else nep ++ os_file_sep)
      else sanitizeLoop ep fuel (j + 1) (nep ++ [ch])
    else nep

/-- Model of `IndexThread::sanitizePattern` (client.cpp 3235-3279). -/
def sanitizePattern (p : Str) : Str :=
  let ep := trim p
  sanitizeLoop ep ep.length 0 []

/-- The loop of `parseIncludePatterns` that counts the separators of a pattern
(client.cpp 3399-3408), from index `j` on. -/
def depthLoop (ip : Str) : Nat → Nat → Int → Int
  | 0, _, depth => depth
  | fuel + 1, j, depth =>
    if j < ip.length then
      if ip.getD j ' ' = '/' then depthLoop ip fuel (j + 1) (depth + 1)
      else if ip.getD j ' ' = '\\' ∧ j + 1 < ip.length ∧ ip.getD (j + 1) ' ' = '\\' then
        depthLoop ip fuel (j + 2) (depth + 1)
      else depthLoop ip fuel (j + 1) depth
    else depth

/-- The depth that `parseIncludePatterns` gives a pattern (client.cpp 3395-3414):
the number of separators when the pattern has no `*` or its first `*` is its last
character, and -1 otherwise. -/
def patternDepth (ip : Str) : Int :=
  if find_first_of ip '*' 0 = some (ip.length - 1) ∨ find_first_of ip '*' 0 = none then
    depthLoop ip ip.length 0 0
  else -1

/-- The loop `while (f2 > 0 && f2 != npos && spec[f2 - 1] == '\\') f2 =
spec.find_first_of("[", f2)` of client.cpp 3422-3423; `none` when `fuel`
iterations did not end it, otherwise the final `f2`. -/
def bracketLoop (spec : Str) : Nat → Option Nat → Option (Option Nat)
  | 0, _ => none
  | fuel + 1, f2 =>
    match f2 with
    | none => some none
    | some p =>
      if p > 0 ∧ spec.getD (p - 1) ' ' = '\\' then bracketLoop spec fuel (find_first_of spec '[' p)
      else some (some p)

/-- The minimum of two positions, `none` being `npos`, the largest value. -/
def minPos : Option Nat → Option Nat → Option Nat
  | none, b => b
  | a, none => a
  | some a, some b => some (min a b)

/-- The loop that canonicalizes the separators of the stored prefix (client.cpp
3439-3454), from index `j` on. -/
def prefixSepLoop (p : Str) : Nat → Nat → Str → Str
  | 0, _, nep => nep
  | fuel + 1, j, nep =>
    if j < p.length then
      let ch := p.getD j ' '
      if ch = '/' then prefixSepLoop p fuel (j + 1) (nep ++ os_file_sep)
      else if ch = '\\' ∧ j + 1 < p.length ∧ p.getD (j + 1) ' ' = '\\' then
        prefixSepLoop p fuel (j + 2) (nep ++ os_file_sep)
      else prefixSepLoop p fuel (j + 1) (nep ++ [ch])
    else nep

/-- The stored prefix that the last loop of `parseIncludePatterns` computes for
an entry with pattern `spec` whose member `prefix` holds `old` (client.cpp
3419-3456); `none` when the `while` loop does not end within `fuel` iterations. -/
def storedPrefix (fuel : Nat) (spec old : Str) : Option Str :=
  let f1 := find_first_of spec ':' 0
  let f3 := find_first_of spec '*' 0
  match bracketLoop spec fuel (find_first_of spec '[' 0) with
  | none => none
  | some f2 =>
    let f := minPos (minPos f1 f2) f3
    let p :=
      match f with
      | some n => if n > 0 then old.take n else old
      | none => old
    some (prefixSepLoop p p.length 0 [])

/-- Model of `IndexThread::parseIncludePatterns` (client.cpp 3376-3460); the
entries are value-initialised, so the member `prefix` is empty when the last
loop reads it. `none` when a `while` loop of client.cpp 3422 does not end within
`fuel` iterations. -/
def parseIncludePatterns (fuel : Nat) (val : Str) : Option (List SIndexInclude) :=
  ((Tokenize val ';').map sanitizePattern).mapM
    (fun spec =>
      (storedPrefix fuel spec []).map
        (fun p => { spec := spec, depth := patternDepth spec, prefix_ := p }))

/-- Model of `IndexThread::isExcluded` (client.cpp 3462-3480). -/
def isExcluded (am : Str → Str → Bool) (exclude_dirs : List Str) (path : Str) : Bool :=
  exclude_dirs.any (fun e => !e.isEmpty && am path e)

/-- The level that `isIncluded` computes for the path (client.cpp 3488-3499). -/
def wpath_level (wpath : Str) : Int :=
  (List.range wpath.length).foldl
    (fun lvl i =>
      if wpath.getD i ' ' = '/' then lvl + 1
      else if wpath.getD i ' ' = '\\' then lvl + 1
      else if i = wpath.length - 1 then lvl + 1
      else lvl)
    0

/-- The loop of `isIncluded` over the include entries (client.cpp 3503-3533):
`level` is `some wpath_level` when `adding_worthless` is not `NULL`. The result
is the returned flag and the value of `*adding_worthless` at the return. -/
def isIncludedLoop (am : Str → Str → Bool) (wpath : Str) (level : Option Int) :
    List SIndexInclude → Bool → Bool → Bool × Bool
  | [], has_pattern, worthless => (!has_pattern, worthless)
  | inc :: rest, has_pattern, worthless =>
    if !inc.spec.isEmpty then
      if am wpath inc.spec then (true, worthless)
      else
        match level with
        | none => isIncludedLoop am wpath level rest true worthless
        | some lvl =>
          if inc.depth = -1 then isIncludedLoop am wpath level rest true false
          else if inc.prefix_.isPrefixOf wpath && decide (lvl ≤ inc.depth) then
            isIncludedLoop am wpath level rest true false
          else isIncludedLoop am wpath level rest true worthless
    else isIncludedLoop am wpath level rest has_pattern worthless

/-- Model of `IndexThread::isIncluded` (client.cpp 3482-3534): `track` says
whether `adding_worthless` is not `NULL`; the second component is the value
written to `*adding_worthless` (meaningless when `track` is false). The test
`wpath.find(prefix) == 0` is the test that `prefix` is a prefix of `wpath`. -/
def isIncluded (am : Str → Str → Bool) (include_dirs : List SIndexInclude) (path : Str)
    (track : Bool) : Bool × Bool :=
  isIncludedLoop am path (if track then some (wpath_level path) else none) include_dirs false true

/-- Model of `IndexThread::skipFile` (client.cpp 1715-1730). -/
def skipFile (am : Str → Str → Bool) (filepath namedpath : Str) (exclude_dirs : List Str)
    (include_dirs : List SIndexInclude) : Bool :=
  if isExcluded am exclude_dirs filepath || isExcluded am exclude_dirs namedpath then true
  else if !(isIncluded am include_dirs filepath false).1
      && !(isIncluded am include_dirs namedpath false).1 then true
  else false

/-- Matching with a bound on the number of steps, see `amatch`. -/
def amatchFuel : Nat → Str → Str → Bool
  | 0, _, _ => false
  | _ + 1, s, [] => s.isEmpty
  | fuel + 1, s, '*' :: p =>
    amatchFuel fuel s p ||
      (match s with
       | [] => false
       | _ :: s1 => amatchFuel fuel s1 ('*' :: p))
  | _ + 1, [], _ :: _ => false
  | fuel + 1, _ :: s, '?' :: p => amatchFuel fuel s p
  | fuel + 1, c :: s, '[' :: p =>
    p.contains ']' && (p.takeWhile (fun x => x != ']')).contains c
      && amatchFuel fuel s ((p.dropWhile (fun x => x != ']')).drop 1)
  | fuel + 1, c :: s, x :: p => c == x && amatchFuel fuel s p

/-- Modelled from the spec: the glob matcher `amatch(str, pattern)` of
`urbackupcommon/glob.h`, which is not part of the sources. The specification
says that patterns are shell-style globs with `*`, `?` and `[set]`: `*` matches
any run of characters, `?` any single character, `[set]` any single character
that occurs in the set, and every other character matches itself. -/
def amatch (str pattern : Str) : Bool :=
  amatchFuel (str.length + pattern.length + 1) str pattern

/-- Whether a character is a directory separator for `isIncluded`. -/
def isSeparator (c : Char) : Bool := c == '/' || c == '\\'

/-- The depth of a path in the words of the claim about `adding_worthless`: the
number of separators, plus one when the path does not end in a separator (an
empty path has depth 0). -/
def pathDepth (path : Str) : Int :=
  (path.countP isSeparator : Nat) +
    (match path.getLast? with
     | some c => if isSeparator c then 0 else 1
     | none => 0)

/-- The include setting `/r/a?b`: one pattern without `*`, with two separators. -/
def questionInclude : List SIndexInclude :=
  [{ spec := ['/', 'r', '/', 'a', '?', 'b'], depth := 2, prefix_ := [] }]

/-! ## Directory listings and the file cache -/

/-- The record `SFileAndHash`; a hash is a string of bytes. -/
structure SFileAndHash where
  name : Str
  size : Int
  change_indicator : Int
  hash : List Nat
  isdir : Bool
  issym : Bool
  isspecialf : Bool
  nlinks : Nat
  symlink_target : Str
  output_symlink_target : Str
  deriving DecidableEq, Repr

/-- The call `std::lower_bound(dbfiles->begin(), dbfiles->end(), fsfile)` on a
row sorted by name: the first entry whose name is not less than the name sought
(`SFileAndHash::operator<`, declared outside the sources, orders entries by
name); `none` is `dbfiles->end()`. -/
def lower_bound (dbfiles : List SFileAndHash) (fsfile : SFileAndHash) : Option SFileAndHash :=
  dbfiles.find? (fun e => !decide (e.name < fsfile.name))

/-- The test of client.cpp 2289-2294 on the entry `it` found in the cache row. -/
def cacheHit (it fsfile : SFileAndHash) : Bool :=
  it.name == fsfile.name && it.isdir == false
    && it.change_indicator == fsfile.change_indicator && it.size == fsfile.size
    && !it.hash.isEmpty

/-- The body of the first loop of `addMissingHashes` (client.cpp 2271-2306) for
one listing entry: whether a hash was calculated, and the entry afterwards.
`getShaBinary` maps a file path to the hash of the file. -/
def addMissingHashFs (am : Str → Str → Bool) (getShaBinary : Str → List Nat)
    (dbfiles : Option (List SFileAndHash)) (orig_path filepath namedpath : Str)
    (exclude_dirs : List Str) (include_dirs : List SIndexInclude) (calc_hashes : Bool)
    (fsfile : SFileAndHash) : Bool × SFileAndHash :=
  if fsfile.isdir || fsfile.isspecialf then (false, fsfile)
  else if !fsfile.hash.isEmpty then (false, fsfile)
  else if skipFile am (orig_path ++ os_file_sep ++ fsfile.name)
      (namedpath ++ os_file_sep ++ fsfile.name) exclude_dirs include_dirs then (false, fsfile)
  else
    let hit : Option SFileAndHash :=
      match dbfiles with
      | none => none
      | some db => (lower_bound db fsfile).filter (fun it => cacheHit it fsfile)
    match hit with
    | some it => (false, { fsfile with hash := it.hash })
    | none =>
      if calc_hashes then
        (true, { fsfile with hash := getShaBinary (filepath ++ os_file_sep ++ fsfile.name) })
      else (false, fsfile)

/-- The body of the second loop of `addMissingHashes` (client.cpp 2314-2327). -/
def addMissingHashDb (am : Str → Str → Bool) (getShaBinary : Str → List Nat)
    (orig_path filepath namedpath : Str) (exclude_dirs : List Str)
    (include_dirs : List SIndexInclude) (dbfile : SFileAndHash) : Bool × SFileAndHash :=
  if dbfile.isdir || dbfile.isspecialf then (false, dbfile)
  else if !dbfile.hash.isEmpty then (false, dbfile)
  else if skipFile am (orig_path ++ os_file_sep ++ dbfile.name)
      (namedpath ++ os_file_sep ++ dbfile.name) exclude_dirs include_dirs then (false, dbfile)
  else (true, { dbfile with hash := getShaBinary (filepath ++ os_file_sep ++ dbfile.name) })

/-- Model of `IndexThread::addMissingHashes` (client.cpp 2261-2332): `none` is a
`NULL` argument; the result is `calculated_hash` and the two vectors afterwards. -/
def addMissingHashes (am : Str → Str → Bool) (getShaBinary : Str → List Nat)
    (dbfiles fsfiles : Option (List SFileAndHash)) (orig_path filepath namedpath : Str)
    (exclude_dirs : List Str) (include_dirs : List SIndexInclude) (calc_hashes : Bool) :
    Bool × Option (List SFileAndHash) × Option (List SFileAndHash) :=
  match fsfiles with
  | some fs =>
    let r := fs.map (addMissingHashFs am getShaBinary dbfiles orig_path filepath namedpath
      exclude_dirs include_dirs calc_hashes)
    (r.any (fun x => x.1), dbfiles, some (r.map (fun x => x.2)))
  | none =>
    match dbfiles with
    | some db =>
      if calc_hashes then
        let r := db.map (addMissingHashDb am getShaBinary orig_path filepath namedpath
          exclude_dirs include_dirs)
        (r.any (fun x => x.1), some (r.map (fun x => x.2)), none)
      else (false, dbfiles, none)
    | none => (false, none, none)

/-- The condition of the claim on a cache entry `e` for the listing entry `f`:
same name, not a directory, same change indicator, same size, a hash. -/
def CacheEntryFor (e f : SFileAndHash) : Prop :=
  e.name = f.name ∧ e.isdir = false ∧ e.change_indicator = f.change_indicator
    ∧ e.size = f.size ∧ e.hash ≠ []

/-- A plain file entry with the given name, size, change indicator and hash. -/
def plainFile (name : Str) (size change_indicator : Int) (hash : List Nat) : SFileAndHash :=
  { name := name, size := size, change_indicator := change_indicator, hash := hash,
    isdir := false, issym := false, isspecialf := false, nlinks := 1,
    symlink_target := [], output_symlink_target := [] }

/-- A cache row with the files `a` (size 10, change indicator 100) and `b` (size
20, change indicator 200), both hashed. -/
def cacheRowAB : List SFileAndHash :=
  [plainFile ['a'] 10 100 [7], plainFile ['b'] 20 200 [8]]

/-- The listing of the same directory after `b` was modified: no hashes yet. -/
def listingAB : List SFileAndHash :=
  [plainFile ['a'] 10 100 [], plainFile ['b'] 25 250 []]

/-! ## The file list emitter

The output stream is the list of the lines written so far (each line without its
final newline); `outfile.seekp(pos)` back to the start of a line drops the lines
after it, which is what the final truncation of `indexDirs` leaves of them. The
previous file list is the sequence of entries that its parser yields; the close
lines `d".."` and `u` are directory entries named `..`. -/

/-- Model of `IndexThread::escapeListName` (client.cpp 4355-4375). -/
def escapeListName (listname : Str) : Str :=
  listname.foldl
    (fun ret c =>
      if c = '"' then ret ++ ['\\', '"']
      else if c = '\\' then ret ++ ['\\', '\\']
      else ret ++ [c])
    []

/-- The decimal text that `operator<<` and `convert` give an integer. -/
def decimal (n : Int) : Str :=
  if n < 0 then '-' :: Nat.toDigits 10 n.natAbs else Nat.toDigits 10 n.toNat

/-- The members of `SFile` that the emitter reads from an entry of the previous
file list. -/
structure SFile where
  name : Str
  size : Int
  last_modified : Int
  isdir : Bool
  deriving DecidableEq, Repr

/-- One parsed entry of the previous file list: the item and its extra values in
the iteration order of the `str_map`. -/
structure LastEntry where
  item : SFile
  extra : List (Str × Str)
  deriving DecidableEq, Repr

/-- The cursor `SLastFileList` over the previous file list: the entries not yet
read, the current item with its extras, and the two depth counters. -/
structure SLastFileList where
  unread : List LastEntry
  item : SFile
  extra : List (Str × Str)
  depth : Nat
  depth_next : Nat
  deriving DecidableEq, Repr

/-- A message to the parallel hashing queue. -/
inductive PhashMsg where
  | set_curr_dirs (orig_dir dir : Str)
  | hash_file (file_id : Nat) (name : Str)
  | finish_curr_dir (target_generation : Int)
  deriving DecidableEq, Repr

/-- The members of `IndexThread` that the walker and the emitter change. -/
structure IndexState where
  outfile : List Str
  file_id : Nat
  last_filelist : Option SLastFileList
  index_follow_last : Bool
  index_keep_files : Bool
  index_error : Bool
  phash_queue : List PhashMsg
  /-- The number of calls of `Server->getRandomNumber()` made so far. -/
  rnd_calls : Nat
  deriving DecidableEq, Repr

/-- The settings of `IndexThread` that stay fixed during one run; `phash` says
whether `phash_queue` is not `NULL`. -/
structure IndexSettings where
  with_proper_symlinks : Bool
  with_orig_path : Bool
  calculate_filehashes_on_client : Bool
  phash : Bool
  sha_version : Nat
  end_to_end_file_backup_verification : Bool
  stop_index : Bool
  deriving DecidableEq, Repr

/-- The functions that the walker calls and that are not part of the sources
(string helpers, hashing) or are the operating system (directory listings). -/
structure IndexEnv where
  /-- The glob matcher `amatch`. -/
  am : Str → Str → Bool
  EscapeParamString : Str → Str
  base64_encode_dash : List Nat → Str
  getSHA256 : Str → Str
  getShaBinary : Str → List Nat
  ExtractFileName : Str → Str
  ExtractFilePath : Str → Str
  /-- Whether `os_get_file_type` reports a file, for the path and for the path
  with a trailing separator. -/
  isFile : Str → Bool
  /-- Whether `os_get_file_type` reports a directory. -/
  isDirectory : Str → Bool
  /-- The change indicator that `getFileMetadataWin` yields for a root directory
  (`usn`, or `last_modified` when `usn` is 0). -/
  rootChange : Str → Int
  /-- The result of `convertToFileAndHash` on the listing of `path`, for
  `orig_path`, `path` and `fn_filter`. -/
  listFiles : Str → Str → Str → List SFileAndHash
  /-- Whether listing `path` reported an error. -/
  listError : Str → Bool
  /-- The cache row of `path_lower`, when there is one, with its generation. -/
  cacheRow : Str → Option (Int × List SFileAndHash)
  /-- Whether the build is the one with `_WIN32`, for the branches of
  `getFilesProxy`. -/
  win32 : Bool
  /-- Whether `changed_dirs` holds the path (Windows build). -/
  dirChanged : Str → Bool
  /-- The sorted vector `open_files` (filled in the Windows build only). -/
  open_files : List Str
  /-- The function `strlower`. -/
  strlower : Str → Str
  /-- The effect of `handleSymlinks` on a cache row. -/
  handleSymlinks : Str → Str → List SFileAndHash → List SFileAndHash
  /-- Whether `path_lower` is the `urbackup` directory below the working
  directory of the server (Windows build). -/
  isDataDir : Str → Bool
  /-- Whether the root of the walk still exists when a listing fails. -/
  rootExists : Bool

/-- The text `&key=value` for every extra value of an entry of the previous
list. -/
def lastExtras (env : IndexEnv) (extra : List (Str × Str)) : Str :=
  extra.foldl (fun s kv => s ++ ['&'] ++ kv.1 ++ ['='] ++ env.EscapeParamString kv.2) []

/-- Model of `IndexThread::writeDir` (client.cpp 4569-4591). -/
def writeDir (st : IndexState) (name : Str) (with_change : Bool) (change_indicator : Int)
    (extra : Str) : IndexState :=
  let head := ['d', '"'] ++ escapeListName name ++ ['"']
  let chg := if with_change then [' ', '0', ' '] ++ decimal change_indicator else []
  let ext :=
    match extra with
    | [] => []
    | c :: rest => if c = '&' then '#' :: rest else c :: rest
  { st with outfile := st.outfile ++ [head ++ chg ++ ext], file_id := st.file_id + 1 }

/-- Model of `IndexThread::addFileFromLast` (client.cpp 4858-4876). -/
def addFileFromLast (env : IndexEnv) (st : IndexState) : IndexState :=
  match st.last_filelist with
  | none => st
  | some l =>
    let str_extra := lastExtras env l.extra
    let ext :=
      match str_extra with
      | [] => []
      | _ :: rest => '#' :: rest
    { st with
      outfile := st.outfile ++
        [['f', '"'] ++ escapeListName l.item.name ++ ['"', ' '] ++ decimal l.item.size ++ [' ']
          ++ decimal l.item.last_modified ++ ext]
      file_id := st.file_id + 1 }

/-- Model of `IndexThread::handleLastFilelistDepth` (client.cpp 4878-4900). -/
def handleLastFilelistDepth (l : SLastFileList) (data : SFile) : SLastFileList :=
  let l1 := { l with depth := l.depth_next }
  if data.isdir then
    if data.name = ['.', '.'] then
      if l1.depth_next = 0 then l1 else { l1 with depth_next := l1.depth_next - 1 }
    else { l1 with depth_next := l1.depth_next + 1 }
  else l1

/-- The reading loop of `nextLastFilelistItem` over the unread entries. -/
def nextLastEntry (with_up : Bool) (st : IndexState) : List LastEntry → SLastFileList →
    Bool × IndexState
  | [], _ => (false, { st with last_filelist := none, index_follow_last := false })
  | e :: rest, l =>
    let l1 := handleLastFilelistDepth { l with unread := rest, item := e.item, extra := e.extra }
      e.item
    if !with_up && e.item.isdir && e.item.name == ['.', '.'] then nextLastEntry with_up st rest l1
    else (true, { st with last_filelist := some l1 })

/-- Model of `IndexThread::nextLastFilelistItem` (client.cpp 4681-4746), called
with the current item and extras of the cursor as at every call site: the end
of the previous list (or a read error) resets the cursor and clears
`index_follow_last`. -/
def nextLastFilelistItem (with_up : Bool) (st : IndexState) : Bool × IndexState :=
  match st.last_filelist with
  | none => (false, st)
  | some l => nextLastEntry with_up st l.unread l

/-- The `do ... while` loop of `addDirFromLast` (client.cpp 4838-4855). -/
def addDirFromLastLoop (env : IndexEnv) (set : IndexSettings) (curr_depth : Nat) :
    Nat → IndexState → IndexState
  | 0, st => st
  | fuel + 1, st =>
    match st.last_filelist with
    | none => st
    | some l =>
      let st1 :=
        if l.item.isdir then
          writeDir st l.item.name set.with_orig_path l.item.last_modified (lastExtras env l.extra)
        else addFileFromLast env st
      if l.depth_next > curr_depth then
        match nextLastFilelistItem true st1 with
        | (true, st2) => addDirFromLastLoop env set curr_depth fuel st2
        | (false, st2) => st2
      else st1

/-- Model of `IndexThread::addDirFromLast` (client.cpp 4835-4856). -/
def addDirFromLast (env : IndexEnv) (set : IndexSettings) (st : IndexState) : IndexState :=
  match st.last_filelist with
  | none => st
  | some l => addDirFromLastLoop env set l.depth (l.unread.length + 1) st

/-- The copy of the current item of the cursor that `addFromLastUpto` and
`addFromLastLiftDepth` make when `index_keep_files` is set. -/
def keepFromLast (env : IndexEnv) (set : IndexSettings) (st : IndexState) : IndexState :=
  if st.index_keep_files then
    match st.last_filelist with
    | none => st
    | some l => if l.item.isdir then addDirFromLast env set st else addFileFromLast env st
  else st

/-- The `do ... while` loop of `addFromLastUpto` (client.cpp 4765-4796); the
`assert` before it is compiled out. -/
def addFromLastUptoLoop (env : IndexEnv) (set : IndexSettings) (fname : Str) (isdir : Bool)
    (depth : Nat) (finish : Bool) : Nat → IndexState → IndexState
  | 0, st => st
  | fuel + 1, st =>
    match st.last_filelist with
    | none => st
    | some l =>
      if !finish && ((decide (fname < l.item.name) && l.item.isdir == isdir
          && decide (depth = l.depth)) || decide (depth > l.depth)) then st
      else if !finish && l.item.name == fname && l.item.isdir == isdir
          && decide (depth = l.depth) then (nextLastFilelistItem false st).2
      else
        match nextLastFilelistItem false (keepFromLast env set st) with
        | (true, st2) => addFromLastUptoLoop env set fname isdir depth finish fuel st2
        | (false, st2) => st2

/-- The start of `addFromLastUpto` and `addFromLastLiftDepth`: nothing is done
without a cursor, and the first item is read when there is none yet. The flag
says whether the function goes on. -/
def lastListReady (st : IndexState) : Bool × IndexState :=
  if !st.index_follow_last then (false, st)
  else
    match st.last_filelist with
    | none => (false, st)
    | some l => if l.item.name.isEmpty then nextLastFilelistItem false st else (true, st)

/-- Model of `IndexThread::addFromLastUpto` (client.cpp 4748-4797). -/
def addFromLastUpto (env : IndexEnv) (set : IndexSettings) (fname : Str) (isdir : Bool)
    (depth : Nat) (finish : Bool) (st : IndexState) : IndexState :=
  match lastListReady st with
  | (false, st1) => st1
  | (true, st1) =>
    match st1.last_filelist with
    | none => st1
    | some l => addFromLastUptoLoop env set fname isdir depth finish (l.unread.length + 1) st1

/-- The `while` loop of `addFromLastLiftDepth` (client.cpp 4814-4832). -/
def addFromLastLiftDepthLoop (env : IndexEnv) (set : IndexSettings) (depth : Nat) :
    Nat → IndexState → IndexState
  | 0, st => st
  | fuel + 1, st =>
    match st.last_filelist with
    | none => st
    | some l =>
      if l.depth > depth then
        match nextLastFilelistItem false (keepFromLast env set st) with
        | (true, st2) => addFromLastLiftDepthLoop env set depth fuel st2
        | (false, st2) => st2
      else st

/-- Model of `IndexThread::addFromLastLiftDepth` (client.cpp 4799-4833). -/
def addFromLastLiftDepth (env : IndexEnv) (set : IndexSettings) (depth : Nat)
    (st : IndexState) : IndexState :=
  match lastListReady st with
  | (false, st1) => st1
  | (true, st1) =>
    match st1.last_filelist with
    | none => st1
    | some l => addFromLastLiftDepthLoop env set depth (l.unread.length + 1) st1

/-! ## The directory walker -/

/-- The flags of a backup root (`EBackupDirFlag_...`). -/
structure DirFlags where
  FollowSymlinks : Bool
  SymlinksOptional : Bool
  Optional : Bool
  RequireSnapshot : Bool
  ShareHashes : Bool
  OneFilesystem : Bool
  KeepFiles : Bool
  deriving DecidableEq, Repr

/-- A value brought into the range of `int64`, as two's complement arithmetic
does. -/
def wrap64 (x : Int) : Int := (x + 9223372036854775808) % 18446744073709551616 - 9223372036854775808

/-- The result of the `n`-th call of `Server->getRandomNumber()`, an `unsigned
int`, for the source of random numbers `rng`. -/
def getRandomNumber (rng : Nat → Nat) (n : Nat) : Nat := rng n % 4294967296

/-- The statements of client.cpp 2433-2437 on a file that is open. -/
def perturbOpenFile (rng : Nat → Nat) (st : IndexState) (f : SFileAndHash) :
    SFileAndHash × IndexState :=
  let c0 := st.rnd_calls
  let ci0 := f.change_indicator
  let ci1 := if ci0 = 0 then wrap64 (ci0 + getRandomNumber rng c0) else ci0
  let c1 := if ci0 = 0 then c0 + 1 else c0
  let ci2 := wrap64 (ci1 * max 2 (getRandomNumber rng c1))
  let ci3 := wrap64 (ci2 * max 2 (getRandomNumber rng (c1 + 1)))
  ({ f with change_indicator := ci3 }, { st with rnd_calls := c1 + 2 })

/-- The loop of client.cpp 2425-2440 over the listing of a changed directory
(Windows build). -/
def perturbOpenFiles (env : IndexEnv) (rng : Nat → Nat) (path_lower : Str) :
    List SFileAndHash → IndexState → List SFileAndHash × IndexState
  | [], st => ([], st)
  | f :: rest, st =>
    let r :=
      if !f.isdir && env.open_files.contains (path_lower ++ env.strlower f.name) then
        perturbOpenFile rng st f
      else (f, st)
    let rs := perturbOpenFiles env rng path_lower rest r.2
    (r.1 :: rs.1, rs.2)

/-- Model of `IndexThread::getFilesProxy` (client.cpp 2334-2532): the listing,
`target_generation` and the state afterwards. The writes to the file cache
(`addFilesInt`, `modifyFilesInt`) and the counters are not tracked. -/
def getFilesProxy (env : IndexEnv) (set : IndexSettings) (rng : Nat → Nat)
    (orig_path path named_path : Str) (use_db : Bool) (fn_filter : Str) (use_db_hashes : Bool)
    (exclude_dirs : List Str) (include_dirs : List SIndexInclude) (st : IndexState) :
    List SFileAndHash × Int × IndexState :=
  let path := if !env.win32 && path.isEmpty then os_file_sep else path
  let path_lower :=
    if env.win32 then env.strlower (orig_path ++ os_file_sep) else orig_path ++ os_file_sep
  let dir_changed := if env.win32 then env.dirChanged path_lower else true
  let use_db := if env.win32 then (if env.isDataDir path_lower then false else use_db) else false
  if !use_db || dir_changed then
    let fs_files := env.listFiles orig_path path fn_filter
    let st1 :=
      if env.listError path then
        (if env.win32 then (if env.rootExists then st else { st with index_error := true })
         else { st with index_error := true })
      else st
    let row : Option (Int × List SFileAndHash) :=
      if use_db_hashes && (env.win32 || set.calculate_filehashes_on_client) then
        env.cacheRow path_lower
      else none
    let target_generation : Int := (row.map (fun r => r.1)).getD 0
    let p := if env.win32 && dir_changed then perturbOpenFiles env rng path_lower fs_files st1
      else (fs_files, st1)
    let fs_files2 :=
      if set.calculate_filehashes_on_client && (!set.phash || row.isSome) then
        ((addMissingHashes env.am env.getShaBinary (row.map (fun r => r.2)) (some p.1) orig_path
          path named_path exclude_dirs include_dirs (!set.phash)).2.2).getD p.1
      else p.1
    (fs_files2, target_generation, p.2)
  else
    match env.cacheRow path_lower with
    | some row =>
      let fs_files := env.handleSymlinks orig_path named_path row.2
      let fs_files2 :=
        if set.calculate_filehashes_on_client then
          ((addMissingHashes env.am env.getShaBinary (some fs_files) none orig_path path
            named_path exclude_dirs include_dirs (!set.phash)).2.1).getD fs_files
        else fs_files
      (fs_files2, row.1, st)
    | none =>
      let fs_files := env.listFiles orig_path path fn_filter
      let st1 :=
        if env.listError path then (if env.rootExists then st else { st with index_error := true })
        else st
      let fs_files2 :=
        if set.calculate_filehashes_on_client && !set.phash then
          ((addMissingHashes env.am env.getShaBinary none (some fs_files) orig_path path
            named_path exclude_dirs include_dirs true).2.2).getD fs_files
        else fs_files
      (fs_files2, 0, st1)

/-- The running variables of the loop over the files of one directory. -/
structure FileLoop where
  st : IndexState
  has_include : Bool
  extra : Str
  finish_phash_path : Bool

/-- The body of the first loop of `initialCheck` (client.cpp 1853-1953) for the
entry `file` at index `i`. The enumeration of hard links is not tracked. -/
def emitFile (env : IndexEnv) (set : IndexSettings) (flags : DirFlags)
    (orig_dir dir named_path : Str) (first : Bool) (fn_filter : Str) (depth : Nat)
    (exclude_dirs : List Str) (include_dirs : List SIndexInclude) (acc : FileLoop)
    (i : Nat) (file : SFileAndHash) : FileLoop :=
  if file.isdir then acc
  else if (file.issym && !set.with_proper_symlinks && !flags.FollowSymlinks)
      || (file.isspecialf && !set.with_proper_symlinks) then acc
  else if skipFile env.am (orig_dir ++ os_file_sep ++ file.name)
      (named_path ++ os_file_sep ++ file.name) exclude_dirs include_dirs then acc
  else
    let listname := if first && !fn_filter.isEmpty && i == 0 then named_path else file.name
    let st1 := addFromLastUpto env set listname false depth false acc.st
    let line := ['f', '"'] ++ escapeListName listname ++ ['"', ' '] ++ decimal file.size ++ [' ']
      ++ decimal file.change_indicator
    let hashed := set.calculate_filehashes_on_client && !file.hash.isEmpty
    let queued := !hashed && set.calculate_filehashes_on_client && set.phash && !file.isspecialf
    let extra1 :=
      if hashed then
        (if set.sha_version = 256 then acc.extra ++ "&sha256=".toList
         else if set.sha_version = 528 then acc.extra ++ "&thash=".toList
         else acc.extra ++ "&sha512=".toList) ++ env.base64_encode_dash file.hash
      else acc.extra
    let queue1 :=
      if queued then
        (if !acc.finish_phash_path then st1.phash_queue ++ [PhashMsg.set_curr_dirs orig_dir dir]
         else st1.phash_queue) ++ [PhashMsg.hash_file st1.file_id file.name]
      else st1.phash_queue
    let extra2 :=
      if set.end_to_end_file_backup_verification && !file.isspecialf then
        extra1 ++ "&sha256_verify=".toList ++ env.getSHA256 (dir ++ os_file_sep ++ file.name)
      else extra1
    let extra3 :=
      if file.issym && set.with_proper_symlinks then
        extra2 ++ "&sym_target=".toList ++ env.EscapeParamString file.output_symlink_target
      else extra2
    let extra4 :=
      if file.isspecialf && set.with_proper_symlinks then extra3 ++ "&special=1".toList
      else extra3
    let line2 :=
      match extra4 with
      | [] => line
      | _ :: rest => line ++ '#' :: rest
    { st := { st1 with
              outfile := st1.outfile ++ [line2]
              file_id := st1.file_id + 1
              phash_queue := queue1 }
      has_include := true
      extra := []
      finish_phash_path := acc.finish_phash_path || queued }

/-- The first loop of `initialCheck` over the listing, from index `i` on. -/
def emitFiles (env : IndexEnv) (set : IndexSettings) (flags : DirFlags)
    (orig_dir dir named_path : Str) (first : Bool) (fn_filter : Str) (depth : Nat)
    (exclude_dirs : List Str) (include_dirs : List SIndexInclude) :
    List SFileAndHash → Nat → FileLoop → FileLoop
  | [], _, acc => acc
  | file :: rest, i, acc =>
    emitFiles env set flags orig_dir dir named_path first fn_filter depth exclude_dirs
      include_dirs rest (i + 1)
      (emitFile env set flags orig_dir dir named_path first fn_filter depth exclude_dirs
        include_dirs acc i file)

/-- The line that closes a directory: `d".."`, or `u` with proper symlinks. -/
def closeLine (set : IndexSettings) : Str :=
  if !set.with_proper_symlinks then ['d', '"', '.', '.', '"'] else ['u']

/-- The running variables of the loop over the directories of one directory;
`returned` holds the value of an early `return`. -/
structure DirLoop where
  st : IndexState
  has_include : Bool
  returned : Option Bool

/-- The second loop of `initialCheck` over the listing (client.cpp 1963-2075),
from index `i` on; `recurse orig_dir dir named_path` stands for the recursive
call of `initialCheck` on a subdirectory (`first = false`, `depth + 1`, the other
arguments as in the caller); `none` when that call ran out of fuel. -/
def walkDirs (env : IndexEnv) (set : IndexSettings)
    (recurse : Str → Str → Str → IndexState → Option (Bool × IndexState))
    (orig_dir dir named_path : Str) (first : Bool) (flags : DirFlags)
    (depth : Nat) (include_exclude_dirs : Bool)
    (exclude_dirs : List Str) (include_dirs : List SIndexInclude) (fn_filter : Str) :
    List SFileAndHash → Nat → DirLoop → Option DirLoop
  | [], _, acc => some acc
  | file :: rest, i, acc =>
    let next (a : DirLoop) : Option DirLoop :=
      walkDirs env set recurse orig_dir dir named_path first flags depth
        include_exclude_dirs exclude_dirs include_dirs fn_filter rest (i + 1) a
    if acc.returned.isSome then some acc
    else if !file.isdir then next acc
    else if (file.issym && !set.with_proper_symlinks && !flags.FollowSymlinks)
        || (file.isspecialf && !set.with_proper_symlinks) then next acc
    else if include_exclude_dirs
        && (isExcluded env.am exclude_dirs (orig_dir ++ os_file_sep ++ file.name)
          || isExcluded env.am exclude_dirs (named_path ++ os_file_sep ++ file.name)) then
      next acc
    else
      let inc1 := isIncluded env.am include_dirs (orig_dir ++ os_file_sep ++ file.name) true
      let inc2 := isIncluded env.am include_dirs (named_path ++ os_file_sep ++ file.name) true
      let curr_included := !include_exclude_dirs || inc1.1 || inc2.1
      let adding_worthless1 := include_exclude_dirs && inc1.2
      let adding_worthless2 := include_exclude_dirs && inc2.2
      let has_include1 := acc.has_include || (include_exclude_dirs && (inc1.1 || inc2.1))
      if curr_included || !adding_worthless1 || !adding_worthless2 then
        let pos := acc.st.outfile.length
        let backup := if acc.st.index_follow_last then acc.st.last_filelist else none
        let extra1 : Str :=
          if file.issym && set.with_proper_symlinks then
            "&sym_target=".toList ++ env.EscapeParamString file.output_symlink_target
          else []
        let extra2 :=
          if file.isspecialf && set.with_proper_symlinks then extra1 ++ "&special=1".toList
          else extra1
        let listname := if first && !fn_filter.isEmpty && i == 0 then named_path else file.name
        let st1 := writeDir (addFromLastUpto env set listname true depth false acc.st) listname
          set.with_orig_path file.change_indicator extra2
        match
          (if !file.issym || !set.with_proper_symlinks then
            recurse (orig_dir ++ os_file_sep ++ file.name) (dir ++ os_file_sep ++ file.name)
              (named_path ++ os_file_sep ++ file.name) st1
          else some (true, st1)) with
        | none => none
        | some (b, st2) =>
          let st3 := addFromLastLiftDepth env set depth st2
          let st4 :=
            { st3 with outfile := st3.outfile ++ [closeLine set], file_id := st3.file_id + 1 }
          let st5 :=
            if !b && !curr_included then
              { st4 with
                last_filelist := if st4.index_follow_last then backup else st4.last_filelist
                outfile := st4.outfile.take pos }
            else st4
          let has_include2 := if b then true else has_include1
          if st5.index_error then
            some { st := st5, has_include := has_include2, returned := some false }
          else next { st := st5, has_include := has_include2, returned := none }
      else next { acc with has_include := has_include1 }

/-- The body of `IndexThread::initialCheck` (client.cpp 1732-2093) with the call
of `getFilesProxy` as the parameter `listing` and the recursive call on a
subdirectory as the parameter `recurse` (which takes the three paths and the
depth; its other arguments are those of the caller). The waits for idleness,
the hints that are logged and the Windows sequence numbers are left out. -/
def initialCheckStep (env : IndexEnv) (set : IndexSettings)
    (listing : Str → Str → Str → Bool → Str → Bool → List Str → List SIndexInclude →
      IndexState → List SFileAndHash × Int × IndexState)
    (recurse : Str → Str → Str → Nat → IndexState → Option (Bool × IndexState))
    (orig_dir dir named_path : Str) (first : Bool) (flags : DirFlags) (use_db : Bool)
    (symlinked : Bool) (depth : Nat) (dir_recurse include_exclude_dirs : Bool)
    (exclude_dirs : List Str) (include_dirs : List SIndexInclude) (orig_path : Str)
    (st : IndexState) : Option (Bool × IndexState) :=
  if set.stop_index then some (false, st)
  else if first && !env.isFile dir && !env.isDirectory dir then
    if !flags.Optional && (!symlinked || !flags.SymlinksOptional) then
      some (false, { st with index_error := true })
    else some (false, st)
  else
    let extra0 : Str :=
      if first && set.with_orig_path then
        "&orig_path=".toList
          ++ env.EscapeParamString
            (if orig_path.isEmpty then (if orig_dir.isEmpty then os_file_sep else orig_dir)
             else orig_path)
          ++ "&orig_sep=".toList ++ env.EscapeParamString os_file_sep
      else []
    let is_file := first && env.isFile dir
    let is_dir := first && !env.isFile dir && env.isDirectory dir
    let fn_filter := if is_file then env.ExtractFileName dir else []
    let orig_dir1 := if is_file then env.ExtractFilePath orig_dir else orig_dir
    let dir1 := if is_file then env.ExtractFilePath dir else dir
    let close_dir := is_dir
    let st1 :=
      if is_dir then
        writeDir (addFromLastUpto env set named_path true depth false st) named_path
          set.with_orig_path (env.rootChange dir) extra0
      else st
    let extra1 := if is_dir then [] else extra0
    let depth1 := if is_dir then depth + 1 else depth
    let files_gen := listing orig_dir1 dir1 named_path (!first && use_db) fn_filter use_db
      exclude_dirs include_dirs st1
    let files := files_gen.1
    let target_generation := files_gen.2.1
    let st2 := files_gen.2.2
    if st2.index_error then some (false, st2)
    else
      let fl := emitFiles env set flags orig_dir1 dir1 named_path first fn_filter depth1
        exclude_dirs include_dirs files 0
        { st := st2, has_include := false, extra := extra1, finish_phash_path := false }
      let st3 :=
        if fl.finish_phash_path then
          { fl.st with
            phash_queue := fl.st.phash_queue ++ [PhashMsg.finish_curr_dir target_generation] }
        else fl.st
      match
        (if dir_recurse then
          walkDirs env set (fun od d np s => recurse od d np (depth1 + 1) s)
            orig_dir1 dir1 named_path first flags depth1 include_exclude_dirs exclude_dirs
            include_dirs fn_filter files 0
            { st := st3, has_include := fl.has_include, returned := none }
        else some { st := st3, has_include := fl.has_include, returned := none }) with
      | none => none
      | some dl =>
        match dl.returned with
        | some r => some (r, dl.st)
        | none =>
          if close_dir then
            let st4 := addFromLastLiftDepth env set (depth1 - 1) dl.st
            some (dl.has_include,
              { st4 with
                outfile := st4.outfile ++ [closeLine set]
                file_id := st4.file_id + 1 })
          else some (dl.has_include, dl.st)

/-- Model of `IndexThread::initialCheck` (client.cpp 1732-2093): the returned
flag and the state afterwards; `none` when the directory tree is deeper than
`fuel`. -/
def initialCheck (env : IndexEnv) (set : IndexSettings) (rng : Nat → Nat) : Nat →
    (orig_dir dir named_path : Str) → (first : Bool) → (flags : DirFlags) → (use_db : Bool) →
    (symlinked : Bool) → (depth : Nat) → (dir_recurse include_exclude_dirs : Bool) →
    (exclude_dirs : List Str) → (include_dirs : List SIndexInclude) → (orig_path : Str) →
    IndexState → Option (Bool × IndexState)
  | 0, _, _, _, _, _, _, _, _, _, _, _, _, _, _ => none
  | fuel + 1, orig_dir, dir, named_path, first, flags, use_db, symlinked, depth, dir_recurse,
      include_exclude_dirs, exclude_dirs, include_dirs, orig_path, st =>
    initialCheckStep env set (getFilesProxy env set rng)
      (fun od d np dp s =>
        initialCheck env set rng fuel od d np false flags use_db false dp dir_recurse
          include_exclude_dirs exclude_dirs include_dirs [] s)
      orig_dir dir named_path first flags use_db symlinked depth dir_recurse
      include_exclude_dirs exclude_dirs include_dirs orig_path st

/-! ## Backup scripts and `indexDirs` -/

/-- The record `SBackupScript`. -/
structure SBackupScript where
  scriptname : Str
  outputname : Str
  size : Int
  orig_path : Str
  deriving DecidableEq, Repr

/-- The members of a backup root (`SBackupDir`) that `indexDirs` reads; `mod_path`
is the path of the root below its snapshot (`scd->target`), or `path` itself when
the root is backed up without a snapshot. -/
structure SBackupDir where
  tname : Str
  path : Str
  mod_path : Str
  group : Int
  flags : DirFlags
  symlinked : Bool
  symlinked_confirmed : Bool
  reset_keep : Bool
  deriving DecidableEq, Repr

/-- The loop of `addBackupScripts` over the scripts (client.cpp 4626-4643). -/
def addScriptLines (env : IndexEnv) (rng : Nat → Nat) : List SBackupScript → IndexState →
    IndexState
  | [], st => st
  | script :: rest, st =>
    let rndnum : Int :=
      ((getRandomNumber rng st.rnd_calls <<< 30) % 4294967296
        ||| getRandomNumber rng (st.rnd_calls + 1) : Nat)
    let line := ['f', '"'] ++ escapeListName script.outputname ++ ['"', ' ']
      ++ decimal script.size ++ [' '] ++ decimal rndnum
    let orig :=
      if !script.orig_path.isEmpty then
        let orig_path :=
          if script.orig_path.length > 1 && script.orig_path.getLast? == os_file_sep.head? then
            script.orig_path.dropLast
          else script.orig_path
        "#orig_path=".toList ++ env.EscapeParamString orig_path ++ "&orig_sep=".toList
          ++ env.EscapeParamString os_file_sep
      else []
    addScriptLines env rng rest
      { st with
        outfile := st.outfile ++ [line ++ orig]
        file_id := st.file_id + 1
        rnd_calls := st.rnd_calls + 2 }

/-- Model of `IndexThread::addBackupScripts` (client.cpp 4619-4654): the returned
flag and the state afterwards. -/
def addBackupScripts (env : IndexEnv) (rng : Nat → Nat) (scripts : List SBackupScript)
    (st : IndexState) : Bool × IndexState :=
  if !scripts.isEmpty then
    let st1 :=
      { st with
        outfile := st.outfile ++ ["d\"urbackup_backup_scripts\"".toList]
        file_id := st.file_id + 1 }
    let st2 := addScriptLines env rng scripts st1
    (true, { st2 with outfile := st2.outfile ++ [['u']], file_id := st2.file_id + 1 })
  else (false, st)

/-- The loop of `indexDirs` over the backup roots (client.cpp 1350-1558). Every
root is taken to have its snapshot (or to be backed up without one); the roots
found by following symlinks are not added. The result is `none` when a tree is
deeper than `fuel`; when indexing fails or is stopped the output file is
removed, which leaves the empty list. -/
def indexRoots (env : IndexEnv) (set : IndexSettings) (rng : Nat → Nat) (fuel : Nat)
    (full_backup : Bool) (index_group : Int) (exclude_dirs : List Str)
    (include_dirs : List SIndexInclude) : List SBackupDir → IndexState → Option IndexState
  | [], st => some st
  | root :: rest, st =>
    if root.group ≠ index_group then
      indexRoots env set rng fuel full_backup index_group exclude_dirs include_dirs rest st
    else if root.symlinked && !root.symlinked_confirmed then
      indexRoots env set rng fuel full_backup index_group exclude_dirs include_dirs rest st
    else
      let st1 := { st with index_keep_files := root.flags.KeepFiles && !root.reset_keep }
      match
        (if !st.index_error && !set.stop_index then
          (initialCheck env set rng fuel root.path root.mod_path root.tname true root.flags
            (!full_backup) root.symlinked 0 true true exclude_dirs include_dirs [] st1).map
            (fun r => r.2)
        else some st) with
      | none => none
      | some st2 =>
        if set.stop_index || st2.index_error then some { st2 with outfile := [] }
        else indexRoots env set rng fuel full_backup index_group exclude_dirs include_dirs rest st2

/-- Model of the part of `IndexThread::indexDirs` (client.cpp 1168-1586) that
produces the file list: `last` is the previous file list when it can be opened.
The final state holds the new list in `outfile`. -/
def indexDirs (env : IndexEnv) (set : IndexSettings) (rng : Nat → Nat) (fuel : Nat)
    (full_backup : Bool) (index_group : Int) (backup_dirs : List SBackupDir)
    (scripts : List SBackupScript) (last : Option (List LastEntry)) (exclude_dirs : List Str)
    (include_dirs : List SIndexInclude) : Option IndexState :=
  let follow := backup_dirs.any
    (fun d => decide (d.group = index_group) && d.flags.KeepFiles && !full_backup && !d.reset_keep)
  let st0 : IndexState :=
    { outfile := []
      file_id := 0
      last_filelist :=
        if follow then
          last.map (fun entries =>
            { unread := entries
              item := { name := [], size := 0, last_modified := 0, isdir := false }
              extra := []
              depth := 0
              depth_next := 0 })
        else none
      index_follow_last := follow && last.isSome
      index_keep_files := false
      index_error := false
      phash_queue := []
      rnd_calls := 0 }
  match indexRoots env set rng fuel full_backup index_group exclude_dirs include_dirs
      backup_dirs st0 with
  | none => none
  | some st1 =>
    if set.stop_index || st1.index_error then some st1
    else some (addBackupScripts env rng scripts st1).2

/-- The file list of a `StartIncrFileBackup`: the output of `indexDirs(false)`. -/
def incrFileList (env : IndexEnv) (set : IndexSettings) (rng : Nat → Nat) (fuel : Nat)
    (index_group : Int) (backup_dirs : List SBackupDir) (scripts : List SBackupScript)
    (last : Option (List LastEntry)) (exclude_dirs : List Str)
    (include_dirs : List SIndexInclude) : Option (List Str) :=
  (indexDirs env set rng fuel false index_group backup_dirs scripts last exclude_dirs
    include_dirs).map (fun st => st.outfile)

/-! ## A small directory tree -/

/-- The settings of a plain run: classic close lines, no hashes on the client. -/
def plainSettings : IndexSettings :=
  { with_proper_symlinks := false, with_orig_path := false,
    calculate_filehashes_on_client := false, phash := false, sha_version := 256,
    end_to_end_file_backup_verification := false, stop_index := false }

/-- An environment in which the directory `/a` holds the files `x` (size 10,
change indicator 100) and `y` (size 20, change indicator 200), every other
directory is empty, and no file cache exists. -/
def treeA : IndexEnv :=
  { am := amatch
    EscapeParamString := fun s => s
    base64_encode_dash := fun _ => []
    getSHA256 := fun _ => []
    getShaBinary := fun _ => []
    ExtractFileName := fun s => s
    ExtractFilePath := fun s => s
    isFile := fun _ => false
    isDirectory := fun _ => true
    rootChange := fun _ => 0
    listFiles := fun _ path _ =>
      if path = ['/', 'a'] then [plainFile ['x'] 10 100 [], plainFile ['y'] 20 200 []] else []
    listError := fun _ => false
    cacheRow := fun _ => none
    win32 := false
    dirChanged := fun _ => true
    open_files := []
    strlower := fun s => s
    handleSymlinks := fun _ _ l => l
    isDataDir := fun _ => false
    rootExists := true }

/-- No flag set, or only `KeepFiles`. -/
def rootFlags (keep : Bool) : DirFlags :=
  { FollowSymlinks := false, SymlinksOptional := false, Optional := false,
    RequireSnapshot := false, ShareHashes := false, OneFilesystem := false, KeepFiles := keep }

/-- The backup root `a` at `/a` in the default group. -/
def rootA (keep : Bool) : SBackupDir :=
  { tname := ['a'], path := ['/', 'a'], mod_path := ['/', 'a'], group := 0,
    flags := rootFlags keep, symlinked := false, symlinked_confirmed := false,
    reset_keep := false }

/-- A plain file entry of a previous file list. -/
def lastFile (name : Str) (size last_modified : Int) : LastEntry :=
  { item := { name := name, size := size, last_modified := last_modified, isdir := false }
    extra := [] }

/-- A directory entry of a previous file list; the name `..` is a close line. -/
def lastDir (name : Str) : LastEntry :=
  { item := { name := name, size := 0, last_modified := 0, isdir := true }, extra := [] }

/-- The previous file list of a run that backed up the roots `a` (with the files
`w` and `z`) and `b` (with the file `q`). -/
def previousAB : List LastEntry :=
  [lastDir ['a'], lastFile ['w'] 1 2, lastFile ['z'] 1 2, lastDir ['.', '.'],
   lastDir ['b'], lastFile ['q'] 3 4, lastDir ['.', '.']]

/-- One backup script `s` with output of size 5. -/
def scriptS : SBackupScript :=
  { scriptname := ['s'], outputname := ['s'], size := 5, orig_path := [] }

/-- The environment `treeA` in the Windows build, with the file `x` of `/a` in
the set of open files (the model writes the separator as `/` in both builds). -/
def treeW : IndexEnv :=
  { treeA with win32 := true, open_files := [['/', 'a', '/', 'x']] }

/-! ## Stored bitmaps for the merge of `finishCbt` -/

/-- The content of a `.cbt` file that holds the bitmap `bm`, as `saveMergeBitmap`
writes it (client.cpp 5150-5162): the 16 digest bytes, then the record. -/
def cbtFileOf (md5 : List Nat → List Nat) (bm : URBCT_BITMAP_DATA) : List Nat :=
  digest16 md5 (bitmapBytes bm) ++ bitmapBytes bm

/-- A bitmap of two sectors of 16 bytes with the bits of blocks 0 and 26 set. -/
def pairBitmap : URBCT_BITMAP_DATA :=
  { BitmapSize := 32
    SectorSize := 16
    Bitmap := URBT_MAGIC ++ [1, 0, 0] ++ URBT_MAGIC ++ [4, 0, 0] }

/-- A bitmap of one sector of 16 bytes with the bit of block 1 set. -/
def tinyStored : URBCT_BITMAP_DATA :=
  { BitmapSize := 16
    SectorSize := 16
    Bitmap := URBT_MAGIC ++ [2, 0, 0] }

/-- The files of a volume whose `hdat_img_<vol>.cbt` holds `tinyStored`. -/
def tinyImgCbt : CbtFiles :=
  { hdat_file_cbt := none
    hdat_img_cbt := some (cbtFileOf zeroDigest tinyStored)
    hdat_img := []
    hdat_file := [] }


/-- The files of a volume whose `hdat_img_<vol>.cbt` holds 20 bytes `0xff`, which
is not a digest followed by the data it was computed from. -/
def brokenImgCbt : CbtFiles :=
  { hdat_file_cbt := none
    hdat_img_cbt := some (List.replicate 20 255)
    hdat_img := []
    hdat_file := [] }


/-! ## Snapshot references in either build -/

/-- Model of `IndexThread::release_shadowcopy` (client.cpp 2919-3005) for either
build: in the Windows build (`win32`) the delete is guarded by
`dir->ref->backupcom != NULL` as well (client.cpp 2922-2924), which `backupcom`
stands for; the build without `_WIN32` has no such conjunct. -/
def release_shadowcopy_build (win32 backupcom : Bool) (starttoken : String) (now : Int)
    (r : SCRef) : ReleaseResult :=
  let del := (!win32 || backupcom) && deleteDue starttoken now r
  let r1 := { r with starttokens := r.starttokens.erase starttoken }
  { platform_delete := del
    db_delete := if del && decide (r.save_id ≠ -1) then some r.save_id else none
    ref := if r1.starttokens.isEmpty then none else some r1 }


/-- The flag `token_timeout` of client.cpp 2570-2575 for one start token;
`getLastTokenTime` is `ClientConnector::getLastTokenTime`, which is not part of
the sources. -/
def token_timeout (getLastTokenTime : String → Int) (curr_time : Int) (token : String) : Bool :=
  !(decide (curr_time ≥ getLastTokenTime token)
    && decide (curr_time - getLastTokenTime token < 10 * 60 * 1000))

/-- The flag `only_own_tokens` that the loop of client.cpp 2566-2581 computes:
no start token of the candidate is both foreign and not timed out. -/
def only_own_tokens (getLastTokenTime : String → Int) (curr_time : Int) (starttoken : String)
    (starttokens : List String) : Bool :=
  starttokens.all (fun t => !(t != starttoken && !token_timeout getLastTokenTime curr_time t))

/-- What the body of the scan of `find_existing_shadowcopy` does with one
candidate. -/
inductive CandidateOutcome where
  /-- The test of client.cpp 2560-2561 fails: other path, not `ok`, or other
  `clientsubname`. -/
  | no_match
  /-- The scan goes on to the next candidate; nothing is released or attached. -/
  | skipped
  /-- The branch of client.cpp 2631-2677: the `ScopedDir`s of this server that
  resolve through the candidate are released, then the scan goes on. -/
  | released
  /-- The branch of client.cpp 2685-2741: `dir->ref` is the candidate, updated as
  given; `onlyref_set` says whether `*onlyref = true` was executed, `stale` is
  the value written to `*stale_shadowcopy` if any; the function returns true. -/
  | attached (ref : SCRef) (onlyref_set : Bool) (stale : Option Bool)
  deriving DecidableEq, Repr

/-- The body of the reverse scan of `IndexThread::find_existing_shadowcopy`
(client.cpp 2548-2743) for the candidate `r` (build without `_WIN32`: the paths
are compared as they are): `openable` says whether the snapshot mount at
`volpath` can be opened, `in_no_restart_refs` whether `no_restart_refs` holds the
candidate, `onlyref_given` and `stale_given` whether the two out-parameters are
not `NULL`. The target path of the `ScopedDir`, the share and the reference count
of the database row are not tracked. -/
def find_existing_candidate (getLastTokenTime : String → Int) (openable : String → Bool)
    (now : Int) (starttoken index_clientsubname wpath : String)
    (in_no_restart_refs allow_restart simultaneous_other for_imagebackup
      consider_only_own_tokens onlyref_given stale_given : Bool)
    (r : SCRef) : CandidateOutcome :=
  if r.target == wpath && r.ok && r.clientsubname == index_clientsubname then
    let do_restart := !in_no_restart_refs
    let only_own := only_own_tokens getLastTokenTime now starttoken r.starttokens
    if consider_only_own_tokens && !only_own then CandidateOutcome.skipped
    else
      let cannot_open_shadowcopy := !openable r.volpath
      if cannot_open_shadowcopy && !do_restart then CandidateOutcome.skipped
      else if do_restart && allow_restart
          && (decide (now - r.starttime > shadowcopy_startnew_timeout / 1000) || only_own
            || cannot_open_shadowcopy) then
        if r.for_imagebackup == for_imagebackup || !simultaneous_other then
          CandidateOutcome.released
        else CandidateOutcome.skipped
      else if !cannot_open_shadowcopy then
        CandidateOutcome.attached (attachToken starttoken r) onlyref_given
          (if stale_given then
            (if !do_restart then some false
             else if !only_own || !allow_restart then some true
             else none)
           else none)
      else CandidateOutcome.skipped
  else CandidateOutcome.no_match

/-- A snapshot of `/` for file backups, mounted at `/snap`, created at time
`starttime` and held by the given start tokens. -/
def snapRef (starttime : Int) (starttokens : List String) : SCRef :=
  { newSCRef "" starttime "/" "" false with
    ok := true, volpath := "/snap", starttokens := starttokens }


/-! ## The controller: file backup requests -/

/-- The two actions of the message loop that start a file backup. -/
inductive IndexThreadAction where
  | StartIncrFileBackup
  | StartFullFileBackup
  deriving DecidableEq, Repr

/-- What the handling of one file backup message (client.cpp 455-691) reads: the
message, the state of the thread, and the results of the calls it makes. The two
hooks take the flag `incr`; `stop_index` is volatile and is read once before
indexing (incremental branch) and once after the post-index hook. -/
structure BackupRequest where
  action : IndexThreadAction
  last_index : String
  async_ticket : String
  /-- The result of `readBackupDirs()`. -/
  has_dirs : Bool
  /-- The result of `readBackupScripts(...)`. -/
  has_scripts : Bool
  /-- The return code of `execute_prebackup_hook(incr, ...)`. -/
  prebackup_hook : Bool → Int
  /-- The value of `stop_index` read at client.cpp 566. -/
  stop_index_before : Bool
  /-- The value of `stop_index` read after the post-index hook. -/
  stop_index_after : Bool
  /-- The value of `index_error` after `indexDirs`. -/
  index_error_after : Bool
  /-- The return code of `execute_postindex_hook(incr, ...)`. -/
  postindex_hook : Bool → Int

/-- What the handling of one file backup message does: the messages written to
the contractor pipe in order, the argument `full_backup` of the call of
`indexDirs` when it was called, the value of `last_index` afterwards, the
return codes of the hooks that were run, and whether `resetFileEntries()` was
called (client.cpp 653, its only call in the two branches). -/
structure BackupReply where
  writes : List Str
  indexDirs_called : Option Bool
  last_index : String
  pre_hook : Option Int
  post_hook : Option Int
  resetFileEntries_called : Bool := false
  deriving DecidableEq, Repr

/-- The reply written after `indexDirs` has returned (client.cpp 579-594 and
669-684); `stopped` is the text of the branch for `stop_index`. -/
def replyAfterIndex (stopped : Str) (post : Int) (stop_index index_error : Bool) : Str :=
  if post ≠ 0 then "error - postfileindex script failed with error code ".toList ++ decimal post
  else if stop_index then stopped
  else if index_error then "error - index error".toList
  else "done".toList

/-- Model of the two branches of `IndexThread::operator()` that handle
`StartIncrFileBackup` and `StartFullFileBackup` (client.cpp 455-691). The
deletion of the file index on a gap (Windows build) and the monitoring of disk
failures are not tracked. -/
def handleFileBackup (rq : BackupRequest) : BackupReply :=
  let phash : List Str := if rq.async_ticket ≠ "" then ["phash".toList] else []
  let incr_branch : Bool :=
    decide (rq.action = IndexThreadAction.StartIncrFileBackup)
      || (decide (rq.last_index = "full" ∨ rq.last_index = "vfull")
        && decide (rq.action = IndexThreadAction.StartFullFileBackup))
  if !rq.has_dirs && !rq.has_scripts then
    { writes := phash ++ ["no backup dirs".toList], indexDirs_called := none,
      last_index := rq.last_index, pre_hook := none, post_hook := none }
  else if incr_branch then
    let e_rc := rq.prebackup_hook true
    if e_rc ≠ 0 then
      { writes := phash
          ++ ["error - prefilebackup script failed with error code ".toList ++ decimal e_rc],
        indexDirs_called := none, last_index := rq.last_index, pre_hook := some e_rc,
        post_hook := none }
    else if !rq.stop_index_before then
      { writes := phash
          ++ [replyAfterIndex "error - stopped indexing 2".toList (rq.postindex_hook true)
                rq.stop_index_after rq.index_error_after],
        indexDirs_called := some false,
        last_index :=
          if rq.action = IndexThreadAction.StartIncrFileBackup then "incr" else "vfull",
        pre_hook := some e_rc, post_hook := some (rq.postindex_hook true) }
    else
      { writes := phash ++ ["error - stop_index 1".toList], indexDirs_called := none,
        last_index := rq.last_index, pre_hook := some e_rc, post_hook := none }
  else
    let e_rc := rq.prebackup_hook false
    if e_rc ≠ 0 then
      { writes := phash
          ++ ["error - prefilebackup script failed with error code ".toList ++ decimal e_rc],
        indexDirs_called := none, last_index := rq.last_index, pre_hook := some e_rc,
        post_hook := none, resetFileEntries_called := true }
    else
      { writes := phash
          ++ [replyAfterIndex "error - stopped indexing".toList (rq.postindex_hook false)
                rq.stop_index_after rq.index_error_after],
        indexDirs_called := some true, last_index := "full", pre_hook := some e_rc,
        post_hook := some (rq.postindex_hook false), resetFileEntries_called := true }

/-- The text `phash` when the message carries an asynchronous ticket. -/
def phashReply (rq : BackupRequest) : List Str :=
  if rq.async_ticket ≠ "" then ["phash".toList] else []

/-- An incremental file backup request with backup directories whose pre-backup
hook returns `pre` and whose post-index hook returns `post`. -/
def incrRequest (pre post : Int) : BackupRequest :=
  { action := IndexThreadAction.StartIncrFileBackup, last_index := "", async_ticket := "",
    has_dirs := true, has_scripts := false, prebackup_hook := fun _ => pre,
    stop_index_before := false, stop_index_after := false, index_error_after := false,
    postindex_hook := fun _ => post }


/-! ## The buffers of file cache updates -/

/-- The constant `max_file_buffer_size` of client.cpp line 96. -/
def max_file_buffer_size : Nat := 4 * 1024 * 1024

/-- The constant `file_buffer_commit_interval` of client.cpp line 97, in
milliseconds. -/
def file_buffer_commit_interval : Int := 120 * 1000

/-- The values of `sizeof` that `calcBufferSize` adds up; they depend on the
platform. -/
structure TypeSizes where
  sizeof_string : Nat
  sizeof_int : Nat
  sizeof_int64 : Nat
  sizeof_SFileAndHash : Nat
  sizeof_vector : Nat
  deriving DecidableEq, Repr

/-- Model of `IndexThread::calcBufferSize` (client.cpp 3668-3680). -/
def calcBufferSize (sz : TypeSizes) (path : Str) (data : List SFileAndHash) : Nat :=
  data.foldl (fun add_size f => add_size + f.name.length + sz.sizeof_SFileAndHash + f.hash.length)
      (path.length + sz.sizeof_string + sz.sizeof_int + sz.sizeof_int64)
    + sz.sizeof_vector

/-- The record `SBufferItem`. -/
structure SBufferItem where
  path : Str
  tgroup : Int
  files : List SFileAndHash
  target_generation : Int
  deriving DecidableEq, Repr

/-- The two buffers of `IndexThread` with their byte counters and the time of the
last commit, and the items handed to the database so far (`cd->modifyFiles`,
`cd->addFiles`). -/
structure FileBuffers where
  modify_file_buffer : List SBufferItem
  modify_file_buffer_size : Nat
  add_file_buffer : List SBufferItem
  add_file_buffer_size : Nat
  last_file_buffer_commit_time : Int
  db_modified : List SBufferItem
  db_added : List SBufferItem
  deriving DecidableEq, Repr

/-- Model of `IndexThread::commitModifyFilesBuffer` (client.cpp 3704-3717) at
time `now`. -/
def commitModifyFilesBuffer (now : Int) (st : FileBuffers) : FileBuffers :=
  { st with
    db_modified := st.db_modified ++ st.modify_file_buffer
    modify_file_buffer := []
    modify_file_buffer_size := 0
    last_file_buffer_commit_time := now }

/-- Model of `IndexThread::commitAddFilesBuffer` (client.cpp 3739-3752) at time
`now`. -/
def commitAddFilesBuffer (now : Int) (st : FileBuffers) : FileBuffers :=
  { st with
    db_added := st.db_added ++ st.add_file_buffer
    add_file_buffer := []
    add_file_buffer_size := 0
    last_file_buffer_commit_time := now }

/-- Model of `IndexThread::modifyFilesInt` (client.cpp 3683-3702); `now` is the
value of `Server->getTimeMS()` during the call. The commit of the queue for
parallel hashing is not tracked. -/
def modifyFilesInt (sz : TypeSizes) (now : Int) (path : Str) (tgroup : Int)
    (data : List SFileAndHash) (target_generation : Int) (st : FileBuffers) : FileBuffers :=
  let st1 :=
    { st with
      modify_file_buffer_size := st.modify_file_buffer_size + calcBufferSize sz path data
      modify_file_buffer := st.modify_file_buffer ++
        [{ path := path, tgroup := tgroup, files := data, target_generation := target_generation }] }
  let st2 :=
    if st1.last_file_buffer_commit_time = 0 then { st1 with last_file_buffer_commit_time := now }
    else st1
  if st2.modify_file_buffer_size + st2.add_file_buffer_size > max_file_buffer_size
      ∨ now - st2.last_file_buffer_commit_time > file_buffer_commit_interval then
    commitAddFilesBuffer now (commitModifyFilesBuffer now st2)
  else st2

/-- Model of `IndexThread::addFilesInt` (client.cpp 3719-3737); the size test
adds `add_file_buffer_size` to itself, as the source does. -/
def addFilesInt (sz : TypeSizes) (now : Int) (path : Str) (tgroup : Int)
    (data : List SFileAndHash) (st : FileBuffers) : FileBuffers :=
  let st1 :=
    { st with
      add_file_buffer_size := st.add_file_buffer_size + calcBufferSize sz path data
      add_file_buffer := st.add_file_buffer ++
        [{ path := path, tgroup := tgroup, files := data, target_generation := 0 }] }
  let st2 :=
    if st1.last_file_buffer_commit_time = 0 then { st1 with last_file_buffer_commit_time := now }
    else st1
  if st2.add_file_buffer_size + st2.add_file_buffer_size > max_file_buffer_size
      ∨ now - st2.last_file_buffer_commit_time > file_buffer_commit_interval then
    commitModifyFilesBuffer now (commitAddFilesBuffer now st2)
  else st2

/-- Sizes of a 64 bit build, for evaluations. -/
def sizes64 : TypeSizes :=
  { sizeof_string := 32, sizeof_int := 4, sizeof_int64 := 8, sizeof_SFileAndHash := 144,
    sizeof_vector := 24 }

/-- Buffers whose byte counters stand at the given values, last committed at
time 1000. -/
def buffersAt (modify_size add_size : Nat) : FileBuffers :=
  { modify_file_buffer := [], modify_file_buffer_size := modify_size,
    add_file_buffer := [], add_file_buffer_size := add_size,
    last_file_buffer_commit_time := 1000, db_modified := [], db_added := [] }


/-! ## Escaped names, in the words of the specification -/

/-- The escape of one character in the words of the specification: a double
quote becomes backslash and quote, a backslash becomes two backslashes, every
other character stays. -/
def escapedChar (c : Char) : Str :=
  if c = '"' then ['\\', '"'] else if c = '\\' then ['\\', '\\'] else [c]

/-- The escaped name in the words of the specification: every character replaced
by its escape, in order. -/
def escapedName (name : Str) : Str := name.flatMap escapedChar

/-- The reading of an escaped name: a backslash makes the character after it
literal. -/
def unescapeListName : Str → Str
  | [] => []
  | [c] => [c]
  | c :: d :: rest => if c = '\\' then d :: unescapeListName rest else c :: unescapeListName (d :: rest)

/-- Whether no double quote of the string is bare: read from the left, a
backslash escapes the character after it, and no other character met is a double
quote. -/
def quotesEscaped : Str → Bool
  | [] => true
  | [c] => c != '"'
  | c :: d :: rest =>
    if c = '\\' then quotesEscaped rest else (c != '"' && quotesEscaped (d :: rest))


/-! ## The file pass of `finishCbt`: bits and invariant -/

/-- The bit at position `q` of a sequence of bytes: bit `q % 8` of byte `q / 8`. -/
def bitAt (bs : List Nat) (q : Nat) : Bool := (bs.getD (q / 8) 0).testBit (q % 8)

/-- What the flags of the file pass say when the bit at position `pos` is about
to be visited and `prev` tells whether the bit before it is set: `last_bit_set`
only if that bit is set, `last_zeroed` only if the slot before `pos` is zero. -/
def FilePassInv (slot : Nat) (st : FilePass) (pos : Nat) (prev : Bool) : Prop :=
  (st.last_bit_set = true → prev = true) ∧
    (st.last_zeroed = true → 0 < pos ∧ AllZero st.file ((pos - 1) * slot) slot)


/-- No stored bitmap and a file hash sidecar of 80 bytes `0xff` (20 slots of 4
bytes for `chunkhash_single_size = 2`). -/
def filledSidecar : CbtFiles :=
  { hdat_file_cbt := none, hdat_img_cbt := none, hdat_img := [],
    hdat_file := List.replicate 80 255 }

/-- The file hash sidecar that a file backup of `tinyBitmap` leaves of
`filledSidecar`: 512 bytes, with the slots 0, 1, 16, 17 and 18 zeroed. -/
def filledSidecarAfter : List Nat :=
  List.replicate 8 0 ++ List.replicate 56 255 ++ List.replicate 12 0 ++ List.replicate 4 255
    ++ List.replicate 432 0


/-! ## A tree with a directory that is rolled back -/

/-- A plain directory entry with the given name. -/
def plainDir (name : Str) : SFileAndHash :=
  { plainFile name 0 0 [] with isdir := true }

/-- An environment in which `/r` holds the empty directory `p` and the directory
`q`, and `/r/q` holds the file `f` (size 10, change indicator 100, not hashed). -/
def treeR : IndexEnv :=
  { treeA with
    listFiles := fun _ path _ =>
      if path = ['/', 'r'] then [plainDir ['p'], plainDir ['q']]
      else if path = ['/', 'r', '/', 'q'] then [plainFile ['f'] 10 100 []]
      else [] }

/-- The settings of a run with hashes on the client that are computed in
parallel (`phash_queue` is not `NULL`). -/
def phashSettings : IndexSettings :=
  { plainSettings with calculate_filehashes_on_client := true, phash := true }

/-- The backup root `r` at `/r` in the default group. -/
def rootR : SBackupDir :=
  { rootA false with tname := ['r'], path := ['/', 'r'], mod_path := ['/', 'r'] }

/-- The include setting `/r/q/*`: one pattern that ends in `*`, with three
separators. -/
def includeQ : List SIndexInclude :=
  [{ spec := ['/', 'r', '/', 'q', '/', '*'], depth := 3, prefix_ := [] }]


/-! ## The bitmap indexes that the loops visit -/

/-- The values of `j` for which the two passes of `finishCbt` read
`bitmap_data->Bitmap[j]` (client.cpp 5538-5542 and 5612-5616): for every sector
start `i` below `BitmapSize`, the indexes from `i + URBT_MAGIC_SIZE` up to
`i + SectorSize`. -/
def passIndexes (bm : URBCT_BITMAP_DATA) : List Nat :=
  (sectorStarts bm.BitmapSize bm.SectorSize).flatMap
    (fun i => List.range' (i + URBT_MAGIC_SIZE) (bm.SectorSize - URBT_MAGIC_SIZE))

/-- The values of `j` for which `mergeBitmap` reads `src->Bitmap[j]` and writes
`dst->Bitmap[j]` (client.cpp 5077-5082), when the sector sizes agree. -/
def mergeIndexes (src dst : URBCT_BITMAP_DATA) : List Nat :=
  (sectorStarts (min src.BitmapSize dst.BitmapSize) src.SectorSize).flatMap
    (fun i => List.range' (i + URBT_MAGIC_SIZE) (src.SectorSize - URBT_MAGIC_SIZE))

/-- The bitmap of a volume of 2000 MiB with sectors of 512 bytes, as the size
formula of `finishCbt` gives it: 4000 blocks, 500 bitmap bytes, one whole sector
and a last sector of 14 bytes (the magic tag and one bitmap byte). Only the bit
of block 3992 is set. -/
def partialBitmap : URBCT_BITMAP_DATA :=
  { BitmapSize := 526
    SectorSize := 512
    Bitmap := URBT_MAGIC ++ List.replicate 499 0 ++ URBT_MAGIC ++ [1] }


/-- The previous file list of a run that backed up the root `a` with the file `w`
and the directory `m`, which held the file `q`. -/
def previousWithDir : List LastEntry :=
  [lastDir ['a'], lastFile ['w'] 1 2, lastDir ['m'], lastFile ['q'] 3 4, lastDir ['.', '.'],
   lastDir ['.', '.']]

/-- The state of the emitter, with keep enabled, when the cursor of
`previousWithDir` stands on the directory `m` at depth 1 and nothing has been
written yet. -/
def cursorOnDir : IndexState :=
  { outfile := [], file_id := 0,
    last_filelist := some
      { unread := [lastFile ['q'] 3 4, lastDir ['.', '.'], lastDir ['.', '.']],
        item := (lastDir ['m']).item, extra := [], depth := 1, depth_next := 2 },
    index_follow_last := true, index_keep_files := true, index_error := false,
    phash_queue := [], rnd_calls := 0 }


/-! ## The size of the bitmap that `finishCbt` expects -/

/-- The constant `URBT_BLOCKSIZE` of client.cpp line 4982. -/
def URBT_BLOCKSIZE : Nat := 512 * 1024

/-- The values `bitmapBlocks`, `bitmapBytesWoMagic` and `bitmapBytes` that
`finishCbt` computes (client.cpp 5352-5359) from the length of the volume and
`disk_geometry.BytesPerSector`, in a 64 bit build: `bitmapBlocks` is a
`ULONGLONG`, the two byte counts are `size_t` values of 64 bits, and
`bitmapSectorSize` is a `DWORD`. -/
def bitmapSizes (len BytesPerSector : Nat) : Nat × Nat × Nat :=
  let bitmapBlocks :=
    (len / URBT_BLOCKSIZE + (if len % URBT_BLOCKSIZE = 0 then 0 else 1)) % 2 ^ 64
  let bitmapBytesWoMagic := (bitmapBlocks / 8 + (if bitmapBlocks % 8 = 0 then 0 else 1)) % 2 ^ 64
  let bitmapSectorSize := subDW BytesPerSector URBT_MAGIC_SIZE
  let bitmapBytes :=
    ((bitmapBytesWoMagic / bitmapSectorSize) * BytesPerSector
      + (if bitmapBytesWoMagic % bitmapSectorSize ≠ 0 then
          URBT_MAGIC_SIZE + bitmapBytesWoMagic % bitmapSectorSize
        else 0)) % 2 ^ 64
  (bitmapBlocks, bitmapBytesWoMagic, bitmapBytes)

/-- The quotient of `a` by `b`, rounded up. -/
def ceilDiv (a b : Nat) : Nat := (a + b - 1) / b


/-! ## The change indicator -/

/-- The three constants `change_indicator_symlink_bit`,
`change_indicator_special_bit` and `change_indicator_all_bits`, which are declared
outside the sources and are taken as parameters. -/
structure ChangeIndicatorBits where
  change_indicator_symlink_bit : Int
  change_indicator_special_bit : Int
  change_indicator_all_bits : Int
  deriving DecidableEq, Repr

/-- The members of `SFile` that `getChangeIndicator` reads. -/
structure SFileMeta where
  usn : Int
  last_modified : Int
  issym : Bool
  isspecialf : Bool
  deriving DecidableEq, Repr

/-- The function `IndexThread::getChangeIndicator(const SFile&)` (client.cpp
6249-6274). The operators `|`, `&` and `~` on `int64` values are the bitwise
operations on integers in two's complement. -/
def getChangeIndicator (bits : ChangeIndicatorBits) (file : SFileMeta) : Int :=
  let change_indicator := if file.usn = 0 then file.last_modified else file.usn
  if file.issym then
    Int.lor change_indicator
      (Int.lor bits.change_indicator_symlink_bit bits.change_indicator_special_bit)
  else if file.isspecialf then
    Int.lor change_indicator bits.change_indicator_special_bit
  else
    Int.land change_indicator (Int.lnot bits.change_indicator_all_bits)

/-- Two tag bits for the examples: bit 62 for symbolic links, bit 61 for special
files. -/
def tagBits : ChangeIndicatorBits :=
  { change_indicator_symlink_bit := 4611686018427387904,
    change_indicator_special_bit := 2305843009213693952,
    change_indicator_all_bits := 6917529027641081856 }

/-- A special file that is not a symbolic link, whose `usn` has bit 62 set. -/
def specialWithHighUsn : SFileMeta :=
  { usn := 4611686018427387904 + 5, last_modified := 7, issym := false, isspecialf := true }


/-! ## Cleanup of persisted snapshot rows -/

/-- The members of the record `SShadowCopy` (a row of the table of persisted
snapshots) that `cleanup_saved_shadowcopies` reads. The member `passedtime`
counts the seconds that have passed since the row was written and is taken not
to be negative. -/
structure SShadowCopy where
  id : Int
  ssetid : Nat
  refs : Int
  passedtime : Nat
  filesrv : Bool
  starttoken : String
  clientsubname : String
  deriving DecidableEq, Repr

/-- The condition of client.cpp 3064-3077 under which `cleanup_saved_shadowcopies`
passes the row `scs` to `deleteSavedShadowCopy`: the flag `f2` (no element of
`sc_refs` has the row's `save_id` or `ssetid`) and one of the three reasons. -/
def cleanupDue (start : Bool) (starttoken index_clientsubname : String) (sc_refs : List SCRef)
    (scs : SShadowCopy) : Bool :=
  let f2 := !sc_refs.any (fun r => decide (r.save_id = scs.id) || decide (r.ssetid = scs.ssetid))
  f2 && (decide (scs.refs ≤ 0)
    || decide ((scs.passedtime : Int) > shadowcopy_timeout / 1000)
    || (start && !scs.filesrv && decide (scs.refs = 1) && decide (starttoken ≠ "")
        && decide (scs.starttoken = starttoken)
        && decide (scs.clientsubname = index_clientsubname)))

/-- The function `IndexThread::deleteSavedShadowCopy` (client.cpp 3010-3054) on
the rows `db` of the table: `removed scs` tells whether the platform removes the
snapshot (the removal script exists and returns 0; the build for Windows XP has
no platform step and always passes). Only then `cd->deleteShadowcopy(scs.id)`
deletes the row with that `id`. -/
def deleteSavedShadowCopy (removed : SShadowCopy → Bool) (scs : SShadowCopy)
    (db : List SShadowCopy) : Bool × List SShadowCopy :=
  if removed scs then (true, db.filter (fun row => !decide (row.id = scs.id)))
  else (false, db)

/-- What `cleanup_saved_shadowcopies` has done: its result `ok`, the rows it
passed to `deleteSavedShadowCopy`, and the rows of the table afterwards. -/
structure CleanupResult where
  ok : Bool
  calls : List SShadowCopy
  db : List SShadowCopy
  deriving DecidableEq, Repr

/-- One round of the loop of `cleanup_saved_shadowcopies` (client.cpp 3063-3084). -/
def cleanupStep (removed : SShadowCopy → Bool) (start : Bool)
    (starttoken index_clientsubname : String) (sc_refs : List SCRef)
    (st : CleanupResult) (scs : SShadowCopy) : CleanupResult :=
  if cleanupDue start starttoken index_clientsubname sc_refs scs then
    let r := deleteSavedShadowCopy removed scs st.db
    { ok := if !r.1 then false else st.ok, calls := st.calls ++ [scs], db := r.2 }
  else st

/-- The function `IndexThread::cleanup_saved_shadowcopies` (client.cpp 3056-3089)
on the rows `db` that `cd->getShadowcopies()` returns. -/
def cleanup_saved_shadowcopies (removed : SShadowCopy → Bool) (start : Bool)
    (starttoken index_clientsubname : String) (sc_refs : List SCRef)
    (db : List SShadowCopy) : CleanupResult :=
  db.foldl (cleanupStep removed start starttoken index_clientsubname sc_refs)
    { ok := true, calls := [], db := db }

/-- A reference held in memory for the examples. -/
def heldRef : SCRef :=
  { ssetid := 7, volpath := "/", target := "/snap", starttokens := ["t"], starttime := 0,
    ok := true, for_imagebackup := false, clientsubname := "", cbt := false, save_id := 1,
    dontincrement := false }

/-- Five persisted rows: one that matches `heldRef`, one without references, one
older than the timeout, one orphaned by the current start token, and one that is
still in use. -/
def savedRows : List SShadowCopy :=
  [ { id := 1, ssetid := 7, refs := 0, passedtime := 700000, filesrv := false,
      starttoken := "t", clientsubname := "" },
    { id := 2, ssetid := 8, refs := 0, passedtime := 5, filesrv := true,
      starttoken := "s", clientsubname := "" },
    { id := 3, ssetid := 9, refs := 2, passedtime := 604801, filesrv := true,
      starttoken := "s", clientsubname := "" },
    { id := 4, ssetid := 10, refs := 1, passedtime := 5, filesrv := false,
      starttoken := "t", clientsubname := "" },
    { id := 5, ssetid := 11, refs := 1, passedtime := 5, filesrv := true,
      starttoken := "t", clientsubname := "" } ]


/-- A full file backup request with backup directories, handled while
`last_index` is `last_index`, whose pre-backup hook returns `pre`; the post-index
hook returns 0 and indexing is neither stopped nor fails. -/
def fullRequest (last_index : String) (pre : Int) : BackupRequest :=
  { action := IndexThreadAction.StartFullFileBackup, last_index := last_index,
    async_ticket := "", has_dirs := true, has_scripts := false,
    prebackup_hook := fun _ => pre, stop_index_before := false, stop_index_after := false,
    index_error_after := false, postindex_hook := fun _ => 0 }

/-- The update of `last_index` by the message `GetLog` (client.cpp 1094-1107). -/
def getLogLastIndex (last_index : String) : String :=
  if last_index = "full" then "full_done"
  else if last_index = "incr" then "incr_done"
  else if last_index = "vfull" then "vfull_done"
  else last_index


/-! ## The file pass of `finishCbt`: the slots it may write -/

/-- Whether the slot `w` of the file hash sidecar has a set bit next to it in the
sequence of bytes `bs`: the bit before it, its own bit or the bit after it. -/
def nearSetBit (bs : List Nat) (w : Nat) : Bool :=
  (decide (0 < w) && bitAt bs (w - 1)) || bitAt bs w || bitAt bs (w + 1)

/-- The file `g` holds every byte of the file `f` that lies in a slot of `slot`
bytes without a set bit next to it. -/
def KeptSlots (slot : Nat) (bs : List Nat) (f g : List Nat) : Prop :=
  ∀ p x, f[p]? = some x → nearSetBit bs (p / slot) = false → g[p]? = some x

/-- What the flag `last_bit_set` of the file pass says when the bit at position
`pos` of `bs` is about to be visited: it is set only if the bit before is set. -/
def FilePassPrev (bs : List Nat) (st : FilePass) (pos : Nat) : Prop :=
  st.last_bit_set = true → 0 < pos ∧ bitAt bs (pos - 1) = true

/-- No stored bitmap and a file hash sidecar of 520 bytes `0xff` (130 slots of 4
bytes for `chunkhash_single_size = 2`). -/
def longSidecar : CbtFiles :=
  { hdat_file_cbt := none, hdat_img_cbt := none, hdat_img := [],
    hdat_file := List.replicate 520 255 }


/-! ## Nesting of the lines of a file list -/

/-- Whether a line of the file list closes a directory: `d".."` or `u`. -/
def isCloseLine (line : Str) : Bool :=
  line == ['d', '"', '.', '.', '"'] || line == ['u']

/-- Whether a line of the file list opens a directory: it starts with `d"` and
is not a close line. -/
def isOpenLine (line : Str) : Bool :=
  line.take 2 == ['d', '"'] && !isCloseLine line

/-- The number of lines that open a directory. -/
def openCount (lines : List Str) : Nat := lines.countP isOpenLine

/-- The number of lines that close a directory. -/
def closeCount (lines : List Str) : Nat := lines.countP isCloseLine

/-- The nesting depth after `lines` when the depth before them is `d`; `none`
when a close line arrives at depth 0 or is not the close line `cl`. -/
def nestFrom (cl : Str) : Nat → List Str → Option Nat
  | d, [] => some d
  | d, l :: ls =>
    if isCloseLine l then (if l = cl ∧ 0 < d then nestFrom cl (d - 1) ls else none)
    else if isOpenLine l then nestFrom cl (d + 1) ls
    else nestFrom cl d ls

/-- The lines open and close directories in pairs, with the close line `cl`:
they bring every depth back to itself. -/
def Balanced (cl : Str) (lines : List Str) : Prop := ∀ d, nestFrom cl d lines = some d

/-- The state `t` comes from the state `s` of a walk without a previous list by
appending lines, which are balanced when no index error has occurred. -/
def WalkGood (cl : Str) (s t : IndexState) : Prop :=
  t.index_follow_last = false ∧
    ∃ added, t.outfile = s.outfile ++ added ∧ (t.index_error = false → Balanced cl added)

/-- The listing function leaves the file list and the cursor flag alone and
returns no entry named `..`. -/
def ListingKeeps
    (listing : Str → Str → Str → Bool → Str → Bool → List Str → List SIndexInclude →
      IndexState → List SFileAndHash × Int × IndexState) : Prop :=
  ∀ a b c d e f g h s,
    (listing a b c d e f g h s).2.2.outfile = s.outfile ∧
    (listing a b c d e f g h s).2.2.index_follow_last = s.index_follow_last ∧
    ∀ x ∈ (listing a b c d e f g h s).1, x.name ≠ ['.', '.']

/-- The state at the start of a run without a previous file list: an empty file
list and no cursor. -/
def startState : IndexState :=
  { outfile := [], file_id := 0, last_filelist := none, index_follow_last := false,
    index_keep_files := false, index_error := false, phash_queue := [], rnd_calls := 0 }


-- (end of the definitions)
end IndexThread

/-! # Theorems -/

set_option maxRecDepth 1000000

namespace IndexThread

/-! ## Files as byte lists -/

theorem length_resizeFile (f : List Nat) (n : Nat) : (resizeFile f n).length = n := by
  simp only [resizeFile, List.length_take, List.length_append, List.length_replicate]
  omega

theorem length_writeAt (f : List Nat) (p : Nat) (d : List Nat) :
    (writeAt f p d).length = max f.length (p + d.length) := by
  simp only [writeAt, List.length_take, List.length_append, List.length_replicate,
    List.length_drop]
  omega

theorem getElem?_writeAt (f : List Nat) (p : Nat) (d : List Nat) (i : Nat) :
    (writeAt f p d)[i]? =
      if i < p then (if i < f.length then f[i]? else some 0)
      else if i < p + d.length then d[i - p]? else f[i]? := by
  have hlen : ((f ++ List.replicate (p - f.length) 0).take p).length = p := by
    simp only [List.length_take, List.length_append, List.length_replicate]
    omega
  unfold writeAt
  rw [List.append_assoc, List.getElem?_append, hlen]
  by_cases h1 : i < p
  · simp only [h1, if_true]
    rw [List.getElem?_take, if_pos h1, List.getElem?_append]
    by_cases h2 : i < f.length
    · simp [h2]
    · simp only [h2, if_false]
      rw [List.getElem?_replicate, if_pos (by omega)]
  · simp only [h1, if_false]
    rw [List.getElem?_append]
    by_cases h3 : i < p + d.length
    · have : i - p < d.length := by omega
      simp [h3, this]
    · have : ¬ i - p < d.length := by omega
      simp only [h3, this, if_false]
      rw [List.getElem?_drop]
      congr 1
      omega

theorem allZero_writeAt_zeros (f : List Nat) (p m o n : Nat) (h : AllZero f o n) :
    AllZero (writeAt f p (List.replicate m 0)) o n := by
  intro i h1 h2
  have hi := h i h1 h2
  have hlt : i < f.length := by
    by_contra hc
    rw [List.getElem?_eq_none (by omega)] at hi
    cases hi
  rw [getElem?_writeAt]
  simp only [List.length_replicate]
  by_cases c1 : i < p
  · simp [c1, hlt, hi]
  · by_cases c2 : i < p + m
    · simp only [c1, c2, if_false, if_true]
      rw [List.getElem?_replicate, if_pos (by omega)]
    · simp [c1, c2, hi]

theorem allZero_writeAt_self (f : List Nat) (p m : Nat) :
    AllZero (writeAt f p (List.replicate m 0)) p m := by
  intro i h1 h2
  rw [getElem?_writeAt]
  simp only [List.length_replicate]
  have c1 : ¬ i < p := by omega
  simp only [c1, h2, if_false, if_true]
  rw [List.getElem?_replicate, if_pos (by omega)]

theorem imgSlot_eq_zeros_of_allZero (f : List Nat) (k : Nat)
    (h : AllZero f (4 + SHA256_DIGEST_SIZE * k) SHA256_DIGEST_SIZE) :
    imgSlot f k = List.replicate SHA256_DIGEST_SIZE 0 := by
  apply List.ext_getElem?
  intro i
  unfold imgSlot
  rw [List.getElem?_take, List.getElem?_replicate]
  by_cases hi : i < SHA256_DIGEST_SIZE
  · simp only [hi, if_true]
    rw [List.getElem?_drop]
    exact h _ (by omega) (by omega)
  · simp [hi]

theorem imgSlot_resizeFile (f : List Nat) (n k : Nat)
    (hf : 4 + SHA256_DIGEST_SIZE * k + SHA256_DIGEST_SIZE ≤ f.length)
    (hn : 4 + SHA256_DIGEST_SIZE * k + SHA256_DIGEST_SIZE ≤ n) :
    imgSlot (resizeFile f n) k = imgSlot f k := by
  apply List.ext_getElem?
  intro i
  unfold imgSlot resizeFile
  rw [List.getElem?_take, List.getElem?_take]
  by_cases hi : i < SHA256_DIGEST_SIZE
  · simp only [hi, if_true]
    rw [List.getElem?_drop, List.getElem?_drop, List.getElem?_take, if_pos (by omega),
      List.getElem?_append_left (by omega)]
  · simp [hi]

theorem imgSlot_eq_nil_of_length_le (f : List Nat) (k : Nat)
    (h : f.length ≤ 4 + SHA256_DIGEST_SIZE * k) : imgSlot f k = [] := by
  unfold imgSlot
  rw [List.drop_eq_nil_of_le h]
  rfl

/-! ## The image pass writes zeros over the (wrapped) slot of every set bit -/

theorem land_shift_pos_iff (ch bit : Nat) :
    0 < ch &&& (1 <<< bit) ↔ ch.testBit bit = true := by
  rw [Nat.one_shiftLeft]
  constructor
  · intro h
    obtain ⟨i, hi⟩ := Nat.ne_zero_implies_bit_true (Nat.pos_iff_ne_zero.mp h)
    rw [Nat.testBit_and, Nat.testBit_two_pow] at hi
    simp only [Bool.and_eq_true, decide_eq_true_eq] at hi
    rw [hi.2]
    exact hi.1
  · intro h
    apply Nat.pos_iff_ne_zero.mpr
    intro hz
    have : (ch &&& 2 ^ bit).testBit bit = true := by
      rw [Nat.testBit_and, h, Nat.testBit_two_pow_self]
      rfl
    rw [hz] at this
    simp at this

theorem wrapped_offset_le (x : Nat) : x * SHA256_DIGEST_SIZE % DWORD_MOD + 32 ≤ DWORD_MOD := by
  simp only [SHA256_DIGEST_SIZE, DWORD_MOD]
  omega

theorem zeroImgBit_preserves (c ch : Nat) (f : List Nat) (bit o n : Nat) (h : AllZero f o n) :
    AllZero (zeroImgBit c ch f bit) o n := by
  unfold zeroImgBit
  split
  · exact allZero_writeAt_zeros _ _ _ _ _ h
  · exact h

theorem length_zeroImgBit_le (c ch : Nat) (f : List Nat) (bit : Nat)
    (h : f.length ≤ 4 + DWORD_MOD) : (zeroImgBit c ch f bit).length ≤ 4 + DWORD_MOD := by
  unfold zeroImgBit
  split
  · rw [length_writeAt, List.length_replicate]
    have := wrapped_offset_le (c * 8 + bit)
    simp only [SHA256_DIGEST_SIZE] at *
    omega
  · exact h

theorem foldl_zeroImgBit_preserves (c ch : Nat) (bits : List Nat) (f : List Nat) (o n : Nat)
    (h : AllZero f o n) : AllZero (bits.foldl (zeroImgBit c ch) f) o n := by
  induction bits generalizing f with
  | nil => exact h
  | cons b bs ih => exact ih _ (zeroImgBit_preserves c ch f b o n h)

theorem length_foldl_zeroImgBit_le (c ch : Nat) (bits : List Nat) (f : List Nat)
    (h : f.length ≤ 4 + DWORD_MOD) :
    (bits.foldl (zeroImgBit c ch) f).length ≤ 4 + DWORD_MOD := by
  induction bits generalizing f with
  | nil => exact h
  | cons b bs ih => exact ih _ (length_zeroImgBit_le c ch f b h)

theorem foldl_zeroImgBit_zeroes (c ch : Nat) (bits : List Nat) (f : List Nat) (b : Nat)
    (hb : b ∈ bits) (hset : ch.testBit b = true) :
    AllZero (bits.foldl (zeroImgBit c ch) f)
      (4 + (c * 8 + b) * SHA256_DIGEST_SIZE % DWORD_MOD) SHA256_DIGEST_SIZE := by
  induction bits generalizing f with
  | nil => cases hb
  | cons x xs ih =>
    rcases List.mem_cons.mp hb with rfl | hmem
    · rw [List.foldl_cons]
      apply foldl_zeroImgBit_preserves
      unfold zeroImgBit
      rw [if_pos ((land_shift_pos_iff ch b).mpr hset)]
      exact allZero_writeAt_self _ _ _
    · exact ih _ hmem

theorem zeroImgByte_fst (st : Nat × List Nat) (ch : Nat) : (zeroImgByte st ch).1 = st.1 + 1 := by
  unfold zeroImgByte
  split <;> rfl

theorem zeroImgByte_preserves (st : Nat × List Nat) (ch o n : Nat) (h : AllZero st.2 o n) :
    AllZero (zeroImgByte st ch).2 o n := by
  unfold zeroImgByte
  split
  · exact h
  · exact foldl_zeroImgBit_preserves _ _ _ _ _ _ h

theorem length_zeroImgByte_le (st : Nat × List Nat) (ch : Nat)
    (h : st.2.length ≤ 4 + DWORD_MOD) : (zeroImgByte st ch).2.length ≤ 4 + DWORD_MOD := by
  unfold zeroImgByte
  split
  · exact h
  · exact length_foldl_zeroImgBit_le _ _ _ _ h

theorem zeroImgByte_zeroes (st : Nat × List Nat) (ch b : Nat) (hb : b < 8)
    (hset : ch.testBit b = true) :
    AllZero (zeroImgByte st ch).2
      (4 + (st.1 * 8 + b) * SHA256_DIGEST_SIZE % DWORD_MOD) SHA256_DIGEST_SIZE := by
  unfold zeroImgByte
  split
  · rename_i h0
    rw [h0] at hset
    simp at hset
  · exact foldl_zeroImgBit_zeroes _ _ _ _ _ (List.mem_range.mpr hb) hset

theorem foldl_zeroImgByte_fst (bs : List Nat) (st : Nat × List Nat) :
    (bs.foldl zeroImgByte st).1 = st.1 + bs.length := by
  induction bs generalizing st with
  | nil => rfl
  | cons x xs ih =>
    rw [List.foldl_cons, ih, zeroImgByte_fst, List.length_cons]
    omega

theorem foldl_zeroImgByte_preserves (bs : List Nat) (st : Nat × List Nat) (o n : Nat)
    (h : AllZero st.2 o n) : AllZero (bs.foldl zeroImgByte st).2 o n := by
  induction bs generalizing st with
  | nil => exact h
  | cons x xs ih => exact ih _ (zeroImgByte_preserves st x o n h)

theorem length_foldl_zeroImgByte_le (bs : List Nat) (st : Nat × List Nat)
    (h : st.2.length ≤ 4 + DWORD_MOD) :
    (bs.foldl zeroImgByte st).2.length ≤ 4 + DWORD_MOD := by
  induction bs generalizing st with
  | nil => exact h
  | cons x xs ih => exact ih _ (length_zeroImgByte_le st x h)

theorem foldl_zeroImgByte_zeroes (bs : List Nat) (st : Nat × List Nat) (t b : Nat)
    (hb : b < 8) (hset : (bs.getD t 0).testBit b = true) :
    AllZero (bs.foldl zeroImgByte st).2
      (4 + ((st.1 + t) * 8 + b) * SHA256_DIGEST_SIZE % DWORD_MOD) SHA256_DIGEST_SIZE := by
  induction bs generalizing st t with
  | nil => simp at hset
  | cons x xs ih =>
    cases t with
    | zero =>
      rw [List.foldl_cons]
      apply foldl_zeroImgByte_preserves
      have := zeroImgByte_zeroes st x b hb (by simpa using hset)
      simpa using this
    | succ t =>
      have := ih (zeroImgByte st x) t (by simpa using hset)
      rw [zeroImgByte_fst] at this
      rw [List.foldl_cons]
      have e : st.1 + (t + 1) = st.1 + 1 + t := by omega
      rw [e]
      exact this

/-! ## The sector loops visit the payload bytes in order -/

theorem payloadIndex_add (S n r : Nat) (hr : r < S - URBT_MAGIC_SIZE) :
    payloadIndex S (n * (S - URBT_MAGIC_SIZE) + r) = n * S + URBT_MAGIC_SIZE + r := by
  unfold payloadIndex
  have hw : 0 < S - URBT_MAGIC_SIZE := by omega
  rw [Nat.mul_comm n, Nat.mul_add_div hw, Nat.mul_add_mod, Nat.div_eq_of_lt hr,
    Nat.mod_eq_of_lt hr]
  simp

theorem payload_range_map (S n : Nat) :
    (List.range' (n * (S - URBT_MAGIC_SIZE)) (S - URBT_MAGIC_SIZE)).map (payloadIndex S)
      = List.range' (n * S + URBT_MAGIC_SIZE) (S - URBT_MAGIC_SIZE) := by
  rw [List.range'_eq_map_range, List.range'_eq_map_range, List.map_map]
  apply List.map_congr_left
  intro r hr
  exact payloadIndex_add S n r (List.mem_range.mp hr)

theorem sector_loops_eq_foldl {σ : Type} (g : σ → Nat → σ) (bm : URBCT_BITMAP_DATA)
    (S n : Nat) (st0 : σ) :
    ((List.range n).map (fun k => k * S)).foldl
        (fun st i =>
          (List.range' (i + URBT_MAGIC_SIZE) (S - URBT_MAGIC_SIZE)).foldl
            (fun st j => g st (byteAt bm j)) st)
        st0
      = ((List.range (n * (S - URBT_MAGIC_SIZE))).map
          (fun c => byteAt bm (payloadIndex S c))).foldl g st0 := by
  induction n with
  | zero => simp
  | succ n ih =>
    have hsplit : List.range ((n + 1) * (S - URBT_MAGIC_SIZE))
        = List.range (n * (S - URBT_MAGIC_SIZE))
          ++ List.range' (n * (S - URBT_MAGIC_SIZE)) (S - URBT_MAGIC_SIZE) := by
      have h := List.range'_append 0 (n * (S - URBT_MAGIC_SIZE)) (S - URBT_MAGIC_SIZE) 1
      simp only [Nat.zero_add, Nat.one_mul] at h
      rw [List.range_eq_range', List.range_eq_range', h]
      congr 1
      rw [Nat.add_mul]
      omega
    rw [List.range_succ, List.map_append, List.foldl_append, ih, hsplit, List.map_append,
      List.foldl_append]
    simp only [List.map_cons, List.map_nil, List.foldl_cons, List.foldl_nil]
    rw [← payload_range_map]
    simp only [List.foldl_map]

theorem zeroImgHashes_eq_foldl (bm : URBCT_BITMAP_DATA) (f : List Nat) :
    zeroImgHashes bm f = ((payloadBytes bm).foldl zeroImgByte (0, f)).2 := by
  unfold zeroImgHashes payloadBytes sectorStarts
  rw [sector_loops_eq_foldl]

theorem payloadBytes_getD (bm : URBCT_BITMAP_DATA) (c : Nat)
    (hc : c < (bm.BitmapSize + bm.SectorSize - 1) / bm.SectorSize
      * (bm.SectorSize - URBT_MAGIC_SIZE)) :
    (payloadBytes bm).getD c 0 = byteAt bm (payloadIndex bm.SectorSize c) := by
  unfold payloadBytes
  rw [List.getD_eq_getElem?_getD, List.getElem?_map, List.getElem?_range hc]
  rfl

/-- Every block whose bit is set in a scanned byte has the slot at the offset that
the image pass computes for it (the product taken modulo `2 ^ 32`) zeroed. -/
theorem zeroImgHashes_zeroes_wrapped (bm : URBCT_BITMAP_DATA) (f : List Nat) (k : Nat)
    (hk : k / 8 < (bm.BitmapSize + bm.SectorSize - 1) / bm.SectorSize
      * (bm.SectorSize - URBT_MAGIC_SIZE))
    (hset : blockBit bm k = true) :
    AllZero (zeroImgHashes bm f) (4 + k * SHA256_DIGEST_SIZE % DWORD_MOD) SHA256_DIGEST_SIZE := by
  rw [zeroImgHashes_eq_foldl]
  have h := foldl_zeroImgByte_zeroes (payloadBytes bm) (0, f) (k / 8) (k % 8)
    (Nat.mod_lt _ (by decide))
    (by rw [payloadBytes_getD bm _ hk]; exact hset)
  have e : (0 + k / 8) * 8 + k % 8 = k := by omega
  simp only [e] at h
  exact h

theorem length_zeroImgHashes_le (bm : URBCT_BITMAP_DATA) (f : List Nat)
    (h : f.length ≤ 4 + DWORD_MOD) : (zeroImgHashes bm f).length ≤ 4 + DWORD_MOD := by
  rw [zeroImgHashes_eq_foldl]
  exact length_foldl_zeroImgByte_le _ _ h

/-! ## The validation loop on a bitmap of whole sectors -/

theorem subDW_of_le (a b : Nat) (hab : b ≤ a) (ha : a < DWORD_MOD) : subDW a b = a - b := by
  simp only [subDW, DWORD_MOD] at *
  omega

theorem sectorStarts_whole (n S : Nat) (hS : 0 < S) :
    sectorStarts (n * S) S = (List.range n).map (fun k => k * S) := by
  unfold sectorStarts
  congr 2
  rw [Nat.add_sub_assoc hS, Nat.mul_comm, Nat.mul_add_div hS,
    Nat.div_eq_of_lt (by omega)]
  rfl

theorem validateSector_none_whole (bm : URBCT_BITMAP_DATA) (n k r : Nat)
    (hS : URBT_MAGIC_SIZE < bm.SectorSize) (hB : bm.BitmapSize = n * bm.SectorSize)
    (hlt : bm.BitmapSize < DWORD_MOD) (hk : k < n) (hm : magicAt bm (k * bm.SectorSize) = true) :
    validateSector none { bitmap_data := bm, RealBitmapSize := r } (k * bm.SectorSize)
      = some { bitmap_data := bm
               RealBitmapSize := (r + (bm.SectorSize - URBT_MAGIC_SIZE)) % DWORD_MOD } := by
  have h1 : (k + 1) * bm.SectorSize ≤ n * bm.SectorSize := Nat.mul_le_mul_right _ hk
  rw [Nat.add_mul, Nat.one_mul] at h1
  have h2 : bm.SectorSize ≤ n * bm.SectorSize := by omega
  unfold validateSector
  simp only [hm, Bool.not_true, Bool.false_eq_true, if_false]
  rw [subDW_of_le _ _ (by omega) hlt, subDW_of_le _ _ (by omega) (by omega),
    subDW_of_le _ _ (by omega) (by omega), hB]
  congr 3
  simp only [URBT_MAGIC_SIZE] at *
  omega

theorem validate_foldlM_whole (bm : URBCT_BITMAP_DATA) (n : Nat)
    (hS : URBT_MAGIC_SIZE < bm.SectorSize) (hB : bm.BitmapSize = n * bm.SectorSize)
    (hlt : bm.BitmapSize < DWORD_MOD)
    (hm : ∀ k, k < n → magicAt bm (k * bm.SectorSize) = true) (m r : Nat) (hmn : m ≤ n) :
    ((List.range m).map (fun k => k * bm.SectorSize)).foldlM (validateSector none)
        { bitmap_data := bm, RealBitmapSize := r }
      = some { bitmap_data := bm
               RealBitmapSize :=
                 if m = 0 then r else (r + m * (bm.SectorSize - URBT_MAGIC_SIZE)) % DWORD_MOD } := by
  induction m with
  | zero => simp
  | succ m ih =>
    rw [List.range_succ, List.map_append, List.foldlM_append, ih (by omega)]
    simp only [List.map_cons, List.map_nil, Option.bind_eq_bind, Option.some_bind,
      List.foldlM_cons, List.foldlM_nil]
    rw [validateSector_none_whole bm n m _ hS hB hlt (by omega) (hm m (by omega))]
    simp only [Option.some_bind, Option.pure_def, Nat.succ_ne_zero, if_false]
    congr 2
    by_cases h0 : m = 0
    · subst h0
      simp
    · simp only [h0, if_false]
      rw [Nat.add_mul, Nat.one_mul, Nat.mod_add_mod, Nat.add_assoc]

theorem validateBitmap_none_whole (bm : URBCT_BITMAP_DATA) (n : Nat)
    (hS : URBT_MAGIC_SIZE < bm.SectorSize) (hB : bm.BitmapSize = n * bm.SectorSize)
    (hlt : bm.BitmapSize < DWORD_MOD)
    (hm : ∀ k, k < n → magicAt bm (k * bm.SectorSize) = true) :
    validateBitmap bm none
      = some { bitmap_data := bm
               RealBitmapSize := n * (bm.SectorSize - URBT_MAGIC_SIZE) % DWORD_MOD } := by
  unfold validateBitmap
  rw [hB, sectorStarts_whole n _ (by omega),
    validate_foldlM_whole bm n hS hB hlt hm n 0 (Nat.le_refl _)]
  by_cases h0 : n = 0
  · subst h0
    simp
  · simp [h0]

/-! ## The wide bitmap -/

theorem byteAt_wideBitmap (j : Nat) (hj : j < 17214464) : byteAt wideBitmap j = wideByte j := by
  unfold byteAt wideBitmap
  simp only
  rw [List.getD_eq_getElem?_getD, List.getElem?_map, List.getElem?_range hj]
  rfl

theorem magicAt_wideBitmap (k : Nat) (hk : k < 33622) : magicAt wideBitmap (k * 512) = true := by
  unfold magicAt
  rw [List.all_eq_true]
  intro t ht
  have ht13 : t < 13 := by simpa [URBT_MAGIC_SIZE] using List.mem_range.mp ht
  rw [byteAt_wideBitmap _ (by omega)]
  unfold wideByte
  have e : (k * 512 + t) % 512 = t := by omega
  rw [e, if_pos ht13]
  simp

theorem validateBitmap_wideBitmap :
    validateBitmap wideBitmap none
      = some { bitmap_data := wideBitmap, RealBitmapSize := 16777378 } := by
  have h := validateBitmap_none_whole wideBitmap 33622 (by decide) (by rfl) (by decide)
    (fun k hk => magicAt_wideBitmap k hk)
  rw [h]
  rfl

theorem blockBit_wideBitmap_set : blockBit wideBitmap (2 ^ 27) = true := by
  unfold blockBit
  have e : payloadIndex wideBitmap.SectorSize (2 ^ 27 / 8) = 17214302 := by decide
  rw [e, byteAt_wideBitmap _ (by decide)]
  decide

theorem blockBit_wideBitmap_zero : blockBit wideBitmap 0 = false := by
  unfold blockBit
  have e : payloadIndex wideBitmap.SectorSize (0 / 8) = 13 := by decide
  rw [e, byteAt_wideBitmap _ (by decide)]
  decide

theorem finishCbt_wideBitmap (md5 : List Nat → List Nat) (c : Nat) :
    finishCbt md5 c wideBitmap none 7 true wideFiles = some (true, wideFilesAfter md5) := by
  unfold finishCbt
  have hl : loopsModelled wideBitmap = true := by decide
  have h1 : wideFiles.hdat_file_cbt = none := rfl
  have h2 : wideFiles.hdat_img_cbt = none := rfl
  have h3 : wideFiles.hdat_file = [] := rfl
  rw [hl, validateBitmap_wideBitmap]
  simp only [Bool.not_true, Bool.false_eq_true, if_false, if_true, h1, h2, saveMergeBitmap,
    readMergeBitmap]
  unfold wideFilesAfter wideSidecarAfter
  rw [h3]

theorem mergedBitmap_of_validate (md5 : List Nat → List Nat) (bm : URBCT_BITMAP_DATA)
    (snap : Option URBCT_BITMAP_DATA) (v : ValidateState)
    (h : validateBitmap bm snap = some v) :
    mergedBitmap md5 bm snap none = some v.bitmap_data := by
  unfold mergedBitmap
  rw [h]
  rfl

/-! ## C1 and C2: the image pass on the wide bitmap -/

theorem length_wideSidecarAfter_le : wideSidecarAfter.length ≤ 4 + 32 * 2 ^ 27 := by
  unfold wideSidecarAfter
  have h := length_zeroImgHashes_le wideBitmap
    (writeAt (resizeFile wideFiles.hdat_img (4 + 16777378 * 8 * SHA256_DIGEST_SIZE % DWORD_MOD)) 0
      (le32 ((7 : Int) % 4294967296).toNat))
    (by
      rw [length_writeAt, length_resizeFile]
      simp only [le32, List.length_cons, List.length_nil, SHA256_DIGEST_SIZE, DWORD_MOD]
      omega)
  have e : 4 + DWORD_MOD = 4 + 32 * 2 ^ 27 := by decide
  rw [e] at h
  exact h

/-- C1, evaluated at the failing input. For the bitmap of a volume of more than
64 TiB with the bit of block `2 ^ 27` set (no snapshot, no stored bitmap, so the
merged bitmap is the volume bitmap), `finishCbt(..., for_image_backup = true)`
returns true, yet the image hash sidecar does not hold 32 zero bytes at offset
`4 + 32 * 2 ^ 27`: the sidecar ends before that offset, because the size passed to
`Resize` and the offset passed to `Write` are computed modulo `2 ^ 32`. -/
theorem finishCbt_image_wide_slot_not_zeroed :
    ∀ (md5 : List Nat → List Nat) (chunkhash_single_size : Nat),
      mergedBitmap md5 wideBitmap none wideFiles.hdat_img_cbt = some wideBitmap ∧
      blockBit wideBitmap (2 ^ 27) = true ∧
      ∃ fs, finishCbt md5 chunkhash_single_size wideBitmap none 7 true wideFiles = some (true, fs) ∧
        fs.hdat_img.length ≤ 4 + 32 * 2 ^ 27 ∧
        imgSlot fs.hdat_img (2 ^ 27) ≠ List.replicate 32 0 := by
  intro md5 c
  have hm : mergedBitmap md5 wideBitmap none wideFiles.hdat_img_cbt = some wideBitmap :=
    mergedBitmap_of_validate md5 wideBitmap none _ validateBitmap_wideBitmap
  have hslot : imgSlot wideSidecarAfter (2 ^ 27) = [] :=
    imgSlot_eq_nil_of_length_le wideSidecarAfter (2 ^ 27) length_wideSidecarAfter_le
  have hne : imgSlot wideSidecarAfter (2 ^ 27) ≠ List.replicate 32 0 := by
    rw [hslot]
    intro hc
    cases hc
  exact ⟨hm, blockBit_wideBitmap_set,
    Exists.intro (wideFilesAfter md5)
      ⟨finishCbt_wideBitmap md5 c, length_wideSidecarAfter_le, hne⟩⟩

/-- C2, evaluated at the failing input. On the same wide bitmap the bit of block
0 is clear and the slot of block 0 exists before the call (32 bytes `0xff`) and
after the resize, yet `finishCbt(..., for_image_backup = true)` overwrites it
with zeros: the write meant for block `2 ^ 27` lands at offset
`4 + (32 * 2 ^ 27) % 2 ^ 32 = 4`. -/
theorem finishCbt_image_wide_clear_slot_written :
    ∀ (md5 : List Nat → List Nat) (chunkhash_single_size : Nat),
      blockBit wideBitmap 0 = false ∧
      imgSlot wideFiles.hdat_img 0 = List.replicate 32 255 ∧
      (∃ v, validateBitmap wideBitmap none = some v ∧
        imgSlot (resizeFile wideFiles.hdat_img
          (4 + v.RealBitmapSize * 8 * SHA256_DIGEST_SIZE % DWORD_MOD)) 0
          = List.replicate 32 255) ∧
      ∃ fs, finishCbt md5 chunkhash_single_size wideBitmap none 7 true wideFiles = some (true, fs) ∧
        imgSlot fs.hdat_img 0 = List.replicate 32 0 := by
  intro md5 c
  have hslot : imgSlot wideFiles.hdat_img 0 = List.replicate 32 255 := by decide
  have hres : imgSlot (resizeFile wideFiles.hdat_img
      (4 + 16777378 * 8 * SHA256_DIGEST_SIZE % DWORD_MOD)) 0 = List.replicate 32 255 := by
    rw [imgSlot_resizeFile wideFiles.hdat_img
      (4 + 16777378 * 8 * SHA256_DIGEST_SIZE % DWORD_MOD) 0 (by decide) (by decide)]
    exact hslot
  have h : AllZero wideSidecarAfter (4 + 2 ^ 27 * SHA256_DIGEST_SIZE % DWORD_MOD)
      SHA256_DIGEST_SIZE := by
    unfold wideSidecarAfter
    exact zeroImgHashes_zeroes_wrapped wideBitmap
      (writeAt (resizeFile wideFiles.hdat_img (4 + 16777378 * 8 * SHA256_DIGEST_SIZE % DWORD_MOD)) 0
        (le32 ((7 : Int) % 4294967296).toNat))
      (2 ^ 27) (by decide) blockBit_wideBitmap_set
  have e : 4 + 2 ^ 27 * SHA256_DIGEST_SIZE % DWORD_MOD = 4 + SHA256_DIGEST_SIZE * 0 := by decide
  rw [e] at h
  have hz : imgSlot wideSidecarAfter 0 = List.replicate SHA256_DIGEST_SIZE 0 :=
    imgSlot_eq_zeros_of_allZero wideSidecarAfter 0 h
  exact ⟨blockBit_wideBitmap_zero, hslot,
    Exists.intro { bitmap_data := wideBitmap, RealBitmapSize := 16777378 }
      ⟨validateBitmap_wideBitmap, hres⟩,
    Exists.intro (wideFilesAfter md5) ⟨finishCbt_wideBitmap md5 c, hz⟩⟩

/-! ## C10: an image backup followed by a file backup -/

theorem saveMergeBitmap_none (md5 : List Nat → List Nat) (bm : URBCT_BITMAP_DATA) :
    saveMergeBitmap md5 none bm
      = (true, some (digest16 md5 (bitmapBytes bm) ++ bitmapBytes bm)) := rfl

theorem finishCbt_image_deletes_img_cbt (md5 : List Nat → List Nat) (c : Nat)
    (bm : URBCT_BITMAP_DATA) (snap : Option URBCT_BITMAP_DATA) (shadow_id : Int)
    (fs fs1 : CbtFiles)
    (h : finishCbt md5 c bm snap shadow_id true fs = some (true, fs1)) :
    fs1.hdat_img_cbt = none := by
  unfold finishCbt at h
  split at h
  · cases h
  · split at h
    · cases h
    · simp only [if_true] at h
      split at h
      · cases h
      · split at h
        · cases h
        · simp only [Option.some.injEq, Prod.mk.injEq, true_and] at h
          rw [← h]

theorem finishCbt_file_after_image (md5 : List Nat → List Nat) (c : Nat)
    (bm : URBCT_BITMAP_DATA) (snap : Option URBCT_BITMAP_DATA) (shadow_id : Int)
    (fs fs2 : CbtFiles) (hnone : fs.hdat_img_cbt = none)
    (h : finishCbt md5 c bm snap shadow_id false fs = some (true, fs2)) :
    fs2.hdat_file_cbt = none ∧
      ∃ v, validateBitmap bm snap = some v ∧
        fs2.hdat_img_cbt
          = some (digest16 md5 (bitmapBytes v.bitmap_data) ++ bitmapBytes v.bitmap_data) := by
  unfold finishCbt at h
  split at h
  · cases h
  · split at h
    · cases h
    · rename_i v hv
      simp only [Bool.false_eq_true, if_false, hnone, saveMergeBitmap_none] at h
      split at h
      · cases h
      · simp only [Option.some.injEq, Prod.mk.injEq, true_and] at h
        rw [← h]
        exact ⟨rfl, v, hv, rfl⟩

/-- C10, counterexample. From no stored bitmap at all, `finishCbt(vol, 7, "",
true)` followed by `finishCbt(vol, -1, "", false)` on a one-sector bitmap both
return true, and afterwards `hdat_img_<vol>.cbt` exists: the second call has just
saved the retrieved bitmap there for the next image backup. -/
theorem finishCbt_image_then_file_img_cbt_exists :
    finishCbt zeroDigest 2 tinyBitmap none 7 true noFiles = some (true, tinyAfterImage) ∧
    finishCbt zeroDigest 2 tinyBitmap none (-1) false tinyAfterImage = some (true, tinyAfterFile) ∧
    tinyAfterFile.hdat_file_cbt = none ∧
    tinyAfterFile.hdat_img_cbt ≠ none := by
  decide

/-- C10, amended. Whatever the two `.cbt` files hold before and whatever bitmaps
the two calls retrieve, when `finishCbt(vol, shadow, snap, true)` and then
`finishCbt(vol, -1, snap, false)` both return true, `hdat_file_<vol>.cbt` does not
exist afterwards and `hdat_img_<vol>.cbt` does: it holds the checksum and the
bytes of the bitmap that the second call retrieved (volume merged with
snapshot). -/
theorem finishCbt_image_then_file (md5 : List Nat → List Nat) (c : Nat)
    (bm1 bm2 : URBCT_BITMAP_DATA) (snap1 snap2 : Option URBCT_BITMAP_DATA) (shadow_id : Int)
    (fs fs1 fs2 : CbtFiles)
    (h1 : finishCbt md5 c bm1 snap1 shadow_id true fs = some (true, fs1))
    (h2 : finishCbt md5 c bm2 snap2 (-1) false fs1 = some (true, fs2)) :
    fs2.hdat_file_cbt = none ∧
      ∃ v, validateBitmap bm2 snap2 = some v ∧
        fs2.hdat_img_cbt
          = some (digest16 md5 (bitmapBytes v.bitmap_data) ++ bitmapBytes v.bitmap_data) :=
  finishCbt_file_after_image md5 c bm2 snap2 (-1) fs1 fs2
    (finishCbt_image_deletes_img_cbt md5 c bm1 snap1 shadow_id fs fs1 h1) h2

/-- C10, the amended statement applied to the one-sector bitmap. -/
theorem finishCbt_image_then_file_witness :
    finishCbt zeroDigest 2 tinyBitmap none 7 true noFiles = some (true, tinyAfterImage) ∧
    finishCbt zeroDigest 2 tinyBitmap none (-1) false tinyAfterImage = some (true, tinyAfterFile) ∧
    (tinyAfterFile.hdat_file_cbt = none ∧
      ∃ v, validateBitmap tinyBitmap none = some v ∧
        tinyAfterFile.hdat_img_cbt
          = some (digest16 zeroDigest (bitmapBytes v.bitmap_data) ++ bitmapBytes v.bitmap_data)) :=
  ⟨by decide, by decide,
    finishCbt_image_then_file zeroDigest 2 tinyBitmap tinyBitmap none none 7
      noFiles tinyAfterImage tinyAfterFile (by decide) (by decide)⟩

/-! ## C3: platform deletes over the life of one snapshot -/

theorem erase_isEmpty_iff (l : List String) (t : String) (hl : l ≠ []) :
    (l.erase t).isEmpty = true ↔ l = [t] := by
  cases l with
  | nil => exact absurd rfl hl
  | cons x xs =>
    rw [List.erase_cons]
    by_cases hx : x = t
    · subst hx
      simp [List.isEmpty_iff]
    · have hb : (x == t) = false := by simpa using hx
      simp [hb, hx]

theorem deleteDue_in_time (t : String) (now : Int) (r : SCRef) (hl : r.starttokens ≠ [])
    (hin : now - r.starttime ≤ 604800) : deleteDue t now r = true ↔ r.starttokens = [t] := by
  have htime : ¬ (now - r.starttime > shadowcopy_timeout / 1000) := by
    have : shadowcopy_timeout / 1000 = 604800 := by decide
    rw [this]
    omega
  unfold deleteDue
  cases hr : r.starttokens with
  | nil => exact absurd hr hl
  | cons x xs =>
    cases xs with
    | nil => simp [htime]
    | cons y ys => simp [htime]

theorem attachToken_starttokens_ne_nil (t : String) (r : SCRef) (hl : r.starttokens ≠ []) :
    (attachToken t r).starttokens ≠ [] := by
  unfold attachToken
  split
  · simp
  · exact hl

theorem attachToken_starttime (t : String) (r : SCRef) :
    (attachToken t r).starttime = r.starttime := by
  unfold attachToken
  split <;> rfl

theorem runSnapOps_none (ops : List SnapOp) (acc : List DeleteEvent) :
    runSnapOps none ops acc = (none, acc) := by
  cases ops <;> rfl

theorem runSnapOps_in_time (ops : List SnapOp) (r : SCRef) (acc : List DeleteEvent)
    (hl : r.starttokens ≠ [])
    (hin : ∀ tok now, SnapOp.release tok now ∈ ops → now - r.starttime ≤ 604800) :
    ∃ new, (runSnapOps (some r) ops acc).2 = acc ++ new ∧ new.length ≤ 1 ∧
      (new.length = 1 ↔ (runSnapOps (some r) ops acc).1 = none) ∧
      ∀ e ∈ new, e.tokens_before = [e.starttoken] := by
  induction ops generalizing r acc with
  | nil => exact ⟨[], by simp [runSnapOps]⟩
  | cons op ops ih =>
    cases op with
    | reference tok =>
      have h := ih (attachToken tok r) acc (attachToken_starttokens_ne_nil tok r hl)
        (fun t n hm => by
          rw [attachToken_starttime]
          exact hin t n (List.mem_cons_of_mem _ hm))
      simpa only [runSnapOps] using h
    | release tok now =>
      have htime := hin tok now (List.mem_cons_self _ _)
      have hdel := deleteDue_in_time tok now r hl htime
      have hgc := erase_isEmpty_iff r.starttokens tok hl
      by_cases hlast : r.starttokens = [tok]
      · have h1 : deleteDue tok now r = true := hdel.mpr hlast
        have h2 : (r.starttokens.erase tok).isEmpty = true := hgc.mpr hlast
        refine ⟨[{ starttoken := tok, tokens_before := r.starttokens }], ?_⟩
        simp only [runSnapOps, release_shadowcopy, h1, h2, if_true, runSnapOps_none]
        simp [hlast]
      · have h1 : deleteDue tok now r = false := by
          cases hd : deleteDue tok now r with
          | false => rfl
          | true => exact absurd (hdel.mp hd) hlast
        have h2 : (r.starttokens.erase tok).isEmpty = false := by
          cases he : (r.starttokens.erase tok).isEmpty with
          | false => rfl
          | true => exact absurd (hgc.mp he) hlast
        have h := ih { r with starttokens := r.starttokens.erase tok } acc
          (by
            intro hc
            simp only at hc
            rw [hc] at h2
            simp at h2)
          (fun t n hm => hin t n (List.mem_cons_of_mem _ hm))
        simpa only [runSnapOps, release_shadowcopy, h1, h2, Bool.false_eq_true, if_false]
          using h

/-- C3, counterexample. A snapshot created under token `a` and referenced under
token `b` is past the hard timeout when `a` releases it: that release invokes the
platform delete although `b` still holds the snapshot, and the later release
under `b` invokes it a second time. -/
theorem release_shadowcopy_deletes_twice_after_timeout :
    (runSnapOps (some (newSCRef "a" 0 "/" "" false))
      [SnapOp.reference "b", SnapOp.release "a" 700000, SnapOp.release "b" 700001] []).2
      = [{ starttoken := "a", tokens_before := ["a", "b"] },
         { starttoken := "b", tokens_before := ["b"] }] := by
  decide

/-- C3, amended. For every snapshot reference that has a holder and every
sequence of reference and release operations on it, under any start tokens, in
which each release is issued while the age of the snapshot is at most the hard
timeout of 604800 seconds: the platform delete is invoked at most once, it is
invoked exactly once when the sequence ends with the reference erased from
`sc_refs` (and never otherwise), and the release that invokes it is one that
removes the last remaining start token. -/
theorem release_shadowcopy_deletes_once_in_time (r : SCRef) (ops : List SnapOp)
    (hl : r.starttokens ≠ [])
    (hin : ∀ tok now, SnapOp.release tok now ∈ ops → now - r.starttime ≤ 604800) :
    (runSnapOps (some r) ops []).2.length ≤ 1 ∧
      ((runSnapOps (some r) ops []).2.length = 1 ↔ (runSnapOps (some r) ops []).1 = none) ∧
      ∀ e ∈ (runSnapOps (some r) ops []).2, e.tokens_before = [e.starttoken] := by
  obtain ⟨new, h1, h2, h3, h4⟩ := runSnapOps_in_time ops r [] hl hin
  rw [List.nil_append] at h1
  rw [h1]
  exact ⟨h2, h3, h4⟩

/-- C3, the amended statement applied to a snapshot created under `a`, referenced
under `b` and released by both within the hour. -/
theorem release_shadowcopy_deletes_once_in_time_witness :
    (newSCRef "a" 0 "/" "" false).starttokens ≠ [] ∧
    (∀ tok now, SnapOp.release tok now ∈
        [SnapOp.reference "b", SnapOp.release "a" 3000, SnapOp.release "b" 3500] →
      now - (newSCRef "a" 0 "/" "" false).starttime ≤ 604800) ∧
    ((runSnapOps (some (newSCRef "a" 0 "/" "" false))
        [SnapOp.reference "b", SnapOp.release "a" 3000, SnapOp.release "b" 3500] []).2.length ≤ 1 ∧
      ((runSnapOps (some (newSCRef "a" 0 "/" "" false))
          [SnapOp.reference "b", SnapOp.release "a" 3000, SnapOp.release "b" 3500] []).2.length = 1
        ↔ (runSnapOps (some (newSCRef "a" 0 "/" "" false))
          [SnapOp.reference "b", SnapOp.release "a" 3000, SnapOp.release "b" 3500] []).1 = none) ∧
      ∀ e ∈ (runSnapOps (some (newSCRef "a" 0 "/" "" false))
          [SnapOp.reference "b", SnapOp.release "a" 3000, SnapOp.release "b" 3500] []).2,
        e.tokens_before = [e.starttoken]) :=
  have hin : ∀ tok now, SnapOp.release tok now ∈
      [SnapOp.reference "b", SnapOp.release "a" 3000, SnapOp.release "b" 3500] →
      now - (newSCRef "a" 0 "/" "" false).starttime ≤ 604800 := by
    intro tok now hm
    simp only [List.mem_cons, List.mem_singleton, SnapOp.release.injEq, reduceCtorEq, false_or,
      List.mem_nil_iff, or_false] at hm
    rcases hm with ⟨_, h⟩ | ⟨_, h⟩ <;> rw [h] <;> decide
  ⟨by decide, hin,
    release_shadowcopy_deletes_once_in_time (newSCRef "a" 0 "/" "" false)
      [SnapOp.reference "b", SnapOp.release "a" 3000, SnapOp.release "b" 3500] (by decide) hin⟩

/-! ## C5: `isIncluded` -/

theorem isIncludedLoop_fst (am : Str → Str → Bool) (wpath : Str) (level : Option Int)
    (dirs : List SIndexInclude) (has_pattern worthless : Bool) :
    (isIncludedLoop am wpath level dirs has_pattern worthless).1 = true ↔
      (∃ inc ∈ dirs, inc.spec ≠ [] ∧ am wpath inc.spec = true) ∨
        (has_pattern = false ∧ ∀ inc ∈ dirs, inc.spec = []) := by
  induction dirs generalizing has_pattern worthless with
  | nil => simp [isIncludedLoop]
  | cons inc rest ih =>
    unfold isIncludedLoop
    by_cases he : inc.spec = []
    · simp only [he, List.isEmpty_nil, Bool.not_true, Bool.false_eq_true, if_false]
      rw [ih]
      simp [he]
    · have hne : inc.spec.isEmpty = false := by
        cases h : inc.spec with
        | nil => exact absurd h he
        | cons _ _ => rfl
      simp only [hne, Bool.not_false, if_true]
      by_cases hm : am wpath inc.spec = true
      · simp only [hm, if_true]
        constructor
        · intro _
          exact Or.inl ⟨inc, List.mem_cons_self _ _, he, hm⟩
        · intro _
          trivial
      · simp only [hm, Bool.false_eq_true, if_false]
        have key : ∀ w : Bool, (isIncludedLoop am wpath level rest true w).1 = true ↔
            (∃ i ∈ inc :: rest, i.spec ≠ [] ∧ am wpath i.spec = true) ∨
              (has_pattern = false ∧ ∀ i ∈ inc :: rest, i.spec = []) := by
          intro w
          rw [ih]
          constructor
          · rintro (⟨i, hi, h1, h2⟩ | ⟨hc, _⟩)
            · exact Or.inl ⟨i, List.mem_cons_of_mem _ hi, h1, h2⟩
            · cases hc
          · rintro (⟨i, hi, h1, h2⟩ | ⟨_, hall⟩)
            · rcases List.mem_cons.mp hi with rfl | hi
              · exact absurd h2 hm
              · exact Or.inl ⟨i, hi, h1, h2⟩
            · exact absurd (hall inc (List.mem_cons_self _ _)) he
        cases level with
        | none => exact key worthless
        | some lvl =>
          simp only
          split
          · exact key false
          · split
            · exact key false
            · exact key worthless

/-- C5. For every list of include entries and every path, `isIncluded(include_dirs,
path, NULL)` returns true if and only if `amatch` matches the path against at
least one include pattern or the list holds no include pattern, an include
pattern being an entry whose `spec` is not empty (the entries with an empty
`spec` are skipped by the loop and do not count as patterns). The matcher is
arbitrary. -/
theorem isIncluded_iff_matches_or_no_pattern (am : Str → Str → Bool)
    (include_dirs : List SIndexInclude) (path : Str) :
    (isIncluded am include_dirs path false).1 = true ↔
      (∃ inc ∈ include_dirs, inc.spec ≠ [] ∧ am path inc.spec = true) ∨
        (∀ inc ∈ include_dirs, inc.spec = []) := by
  unfold isIncluded
  rw [isIncludedLoop_fst]
  simp

/-! ## C6: pruning with a `?` in the pattern -/

/-- C6, evaluated at the failing input. With the include setting `/r/a?b`
(parsed to one pattern of depth 2) and the matcher modelled from the
specification, `isIncluded` returns false for the directory `/r/a` and sets
`adding_worthless` to true, although the path `/r/a/b` below it is accepted: the
`?` of the pattern matches the separator, which the depth of the pattern does
not count. -/
theorem isIncluded_worthless_but_child_included :
    parseIncludePatterns 1 ['/', 'r', '/', 'a', '?', 'b'] = some questionInclude ∧
    isIncluded amatch questionInclude ['/', 'r', '/', 'a'] true = (false, true) ∧
    (isIncluded amatch questionInclude ['/', 'r', '/', 'a', '/', 'b'] false).1 = true := by
  decide

/-! ## C7: the `adding_worthless` flag -/

theorem wpath_level_fold_init (init : Str) (c : Char) (n : Nat) (hn : n ≤ init.length) :
    (List.range n).foldl
        (fun (lvl : Int) i =>
          if (init ++ [c]).getD i ' ' = '/' then lvl + 1
          else if (init ++ [c]).getD i ' ' = '\\' then lvl + 1
          else if i = (init ++ [c]).length - 1 then lvl + 1
          else lvl)
        0
      = ((init.take n).countP isSeparator : Nat) := by
  induction n with
  | zero => simp
  | succ n ih =>
    have hlt : n < init.length := by omega
    rw [List.range_succ, List.foldl_append, ih (by omega)]
    have hget : (init ++ [c]).getD n ' ' = init[n] := by
      rw [List.getD_eq_getElem?_getD, List.getElem?_append_left hlt,
        List.getElem?_eq_getElem hlt]
      rfl
    have hlast : ¬ n = (init ++ [c]).length - 1 := by
      simp only [List.length_append, List.length_cons, List.length_nil]
      omega
    have htake : init.take (n + 1) = init.take n ++ [init[n]] := by
      rw [List.take_succ, List.getElem?_eq_getElem hlt]
      rfl
    simp only [List.foldl_cons, List.foldl_nil, hget, hlast, if_false]
    rw [htake, List.countP_append]
    by_cases h1 : init[n] = '/'
    · simp [h1, isSeparator]
    · by_cases h2 : init[n] = '\\'
      · simp [h2, isSeparator]
      · simp [h1, h2, isSeparator]

/-- The level computed by the loop of `isIncluded` is the depth of the path in
the words of the claim. -/
theorem wpath_level_eq_pathDepth (path : Str) : wpath_level path = pathDepth path := by
  rcases List.eq_nil_or_concat path with rfl | ⟨init, c, rfl⟩
  · rfl
  · rw [List.concat_eq_append]
    unfold wpath_level pathDepth
    have hlen : (init ++ [c]).length = init.length + 1 := by simp
    rw [hlen, List.range_succ, List.foldl_append, ← hlen,
      wpath_level_fold_init init c init.length (Nat.le_refl _)]
    have hget : (init ++ [c]).getD init.length ' ' = c := by
      rw [List.getD_eq_getElem?_getD]
      simp
    have hlastc : (init ++ [c]).getLast? = some c := List.getLast?_concat init
    simp only [List.foldl_cons, List.foldl_nil, hget, List.take_length, List.countP_append,
      hlastc]
    by_cases h1 : c = '/'
    · simp [h1, isSeparator]
    · by_cases h2 : c = '\\'
      · simp [h2, isSeparator]
      · simp [h1, h2, isSeparator]

theorem isIncludedLoop_snd (am : Str → Str → Bool) (wpath : Str) (lvl : Int)
    (dirs : List SIndexInclude) (has_pattern worthless : Bool)
    (hno : ∀ inc ∈ dirs, inc.spec ≠ [] → am wpath inc.spec = false) :
    (isIncludedLoop am wpath (some lvl) dirs has_pattern worthless).2 = true ↔
      worthless = true ∧
        ∀ inc ∈ dirs, inc.spec ≠ [] →
          inc.depth ≠ -1 ∧ (¬ inc.prefix_ <+: wpath ∨ lvl > inc.depth) := by
  induction dirs generalizing has_pattern worthless with
  | nil => simp [isIncludedLoop]
  | cons inc rest ih =>
    have hrest : ∀ i ∈ rest, i.spec ≠ [] → am wpath i.spec = false :=
      fun i hi => hno i (List.mem_cons_of_mem _ hi)
    unfold isIncludedLoop
    by_cases he : inc.spec = []
    · simp only [he, List.isEmpty_nil, Bool.not_true, Bool.false_eq_true, if_false]
      rw [ih _ _ hrest]
      simp [he]
    · have hne : inc.spec.isEmpty = false := by
        cases h : inc.spec with
        | nil => exact absurd h he
        | cons _ _ => rfl
      have hm : am wpath inc.spec = false := hno inc (List.mem_cons_self _ _) he
      simp only [hne, Bool.not_false, if_true, hm, Bool.false_eq_true, if_false]
      by_cases hd : inc.depth = -1
      · simp only [hd, if_true]
        rw [ih _ _ hrest]
        constructor
        · rintro ⟨hc, _⟩
          cases hc
        · rintro ⟨_, hall⟩
          exact absurd hd (hall inc (List.mem_cons_self _ _) he).1
      · simp only [hd, if_false]
        by_cases hp : (inc.prefix_.isPrefixOf wpath && decide (lvl ≤ inc.depth)) = true
        · simp only [hp, if_true]
          rw [ih _ _ hrest]
          simp only [Bool.and_eq_true, decide_eq_true_eq, List.isPrefixOf_iff_prefix] at hp
          constructor
          · rintro ⟨hc, _⟩
            cases hc
          · rintro ⟨_, hall⟩
            rcases (hall inc (List.mem_cons_self _ _) he).2 with h | h
            · exact absurd hp.1 h
            · omega
        · simp only [hp, Bool.false_eq_true, if_false]
          rw [ih _ _ hrest]
          simp only [Bool.and_eq_true, decide_eq_true_eq, List.isPrefixOf_iff_prefix,
            not_and_or, not_le] at hp
          constructor
          · rintro ⟨hw, hall⟩
            refine ⟨hw, fun i hi hi2 => ?_⟩
            rcases List.mem_cons.mp hi with rfl | hi
            · exact ⟨hd, hp.imp id (fun h => h)⟩
            · exact hall i hi hi2
          · rintro ⟨hw, hall⟩
            exact ⟨hw, fun i hi hi2 => hall i (List.mem_cons_of_mem _ hi) hi2⟩

/-- C7. For every list of include entries, every matcher and every path that
matches none of the include patterns (the entries with a non-empty `spec`), the
flag that `isIncluded` writes to `adding_worthless` is true if and only if no
include pattern has depth -1 and, for every include pattern, its stored prefix is
not a prefix of the path or the depth of the path (number of separators, plus one
when the path does not end in a separator) exceeds the depth of the pattern. -/
theorem isIncluded_adding_worthless_iff (am : Str → Str → Bool)
    (include_dirs : List SIndexInclude) (path : Str)
    (hno : ∀ inc ∈ include_dirs, inc.spec ≠ [] → am path inc.spec = false) :
    (isIncluded am include_dirs path true).2 = true ↔
      (¬ ∃ inc ∈ include_dirs, inc.spec ≠ [] ∧ inc.depth = -1) ∧
        ∀ inc ∈ include_dirs, inc.spec ≠ [] →
          (¬ inc.prefix_ <+: path ∨ pathDepth path > inc.depth) := by
  unfold isIncluded
  simp only [if_true]
  rw [isIncludedLoop_snd am path _ include_dirs false true hno, wpath_level_eq_pathDepth]
  constructor
  · rintro ⟨_, hall⟩
    exact ⟨fun ⟨i, hi, h1, h2⟩ => (hall i hi h1).1 h2, fun i hi h1 => (hall i hi h1).2⟩
  · rintro ⟨h1, h2⟩
    exact ⟨rfl, fun i hi hne => ⟨fun hd => h1 ⟨i, hi, hne, hd⟩, h2 i hi hne⟩⟩

/-- C7, applied to the include list of the setting `/r/a?b` and the directory
`/r/a`, which the pattern does not match. -/
theorem isIncluded_adding_worthless_iff_witness :
    (∀ inc ∈ questionInclude, inc.spec ≠ [] → amatch ['/', 'r', '/', 'a'] inc.spec = false) ∧
    ((isIncluded amatch questionInclude ['/', 'r', '/', 'a'] true).2 = true ↔
      (¬ ∃ inc ∈ questionInclude, inc.spec ≠ [] ∧ inc.depth = -1) ∧
        ∀ inc ∈ questionInclude, inc.spec ≠ [] →
          (¬ inc.prefix_ <+: ['/', 'r', '/', 'a'] ∨ pathDepth ['/', 'r', '/', 'a'] > inc.depth)) :=
  have hno : ∀ inc ∈ questionInclude, inc.spec ≠ [] →
      amatch ['/', 'r', '/', 'a'] inc.spec = false := by
    intro inc hi _
    simp only [questionInclude, List.mem_singleton] at hi
    rw [hi]
    decide
  ⟨hno, isIncluded_adding_worthless_iff amatch questionInclude ['/', 'r', '/', 'a'] hno⟩

/-! ## C4: hashes taken from the cache row -/

theorem cacheHit_iff (it f : SFileAndHash) : cacheHit it f = true ↔ CacheEntryFor it f := by
  unfold cacheHit CacheEntryFor
  simp [List.isEmpty_iff]
  tauto

theorem name_lt_irrefl (n : Str) : ¬ n < n :=
  lt_irrefl n

theorem lower_bound_of_mem (db : List SFileAndHash) (f e : SFileAndHash)
    (hs : db.Pairwise (fun a b => a.name < b.name)) (he : e ∈ db) (hn : e.name = f.name) :
    lower_bound db f = some e := by
  unfold lower_bound
  induction db with
  | nil => cases he
  | cons h t ih =>
    rw [List.pairwise_cons] at hs
    rcases List.mem_cons.mp he with rfl | ht
    · have : ¬ e.name < f.name := by
        rw [hn]
        exact name_lt_irrefl _
      simp [List.find?_cons, this]
    · have hlt : h.name < f.name := by
        rw [← hn]
        exact hs.1 e ht
      simp only [List.find?_cons, hlt, decide_True, Bool.not_true]
      exact ih hs.2 ht

theorem lower_bound_mem (db : List SFileAndHash) (f it : SFileAndHash)
    (h : lower_bound db f = some it) : it ∈ db := by
  unfold lower_bound at h
  exact List.mem_of_find?_eq_some h

theorem addMissingHashes_fsfiles (am : Str → Str → Bool) (getShaBinary : Str → List Nat)
    (db fs : List SFileAndHash) (orig_path filepath namedpath : Str)
    (exclude_dirs : List Str) (include_dirs : List SIndexInclude) (calc_hashes : Bool) :
    (addMissingHashes am getShaBinary (some db) (some fs) orig_path filepath namedpath
        exclude_dirs include_dirs calc_hashes).2.2
      = some (fs.map (fun f => (addMissingHashFs am getShaBinary (some db) orig_path filepath
          namedpath exclude_dirs include_dirs calc_hashes f).2)) := by
  simp [addMissingHashes, List.map_map, Function.comp_def]

/-- C4. For every listing and every cache row sorted by name (entries in
strictly increasing order of their names, as the entries of one directory are),
`addMissingHashes` replaces the listing entry at each index `i` that is not a
directory, not special, not skipped and has an empty hash as follows. If the
cache row has an entry with the same name, `isdir = false`, the same
change indicator, the same size and a non-empty hash, the entry receives the hash
of that cache entry. If the row has no such entry (in particular when the cached
entry of that name has another change indicator or size), the cached hash is not
used: the entry is hashed afresh with `getShaBinary` when `calc_hashes` is true
and is left as it is when `calc_hashes` is false. -/
theorem addMissingHashes_cached_hash (am : Str → Str → Bool) (getShaBinary : Str → List Nat)
    (db fs : List SFileAndHash) (orig_path filepath namedpath : Str)
    (exclude_dirs : List Str) (include_dirs : List SIndexInclude) (calc_hashes : Bool)
    (hs : db.Pairwise (fun a b => a.name < b.name))
    (i : Nat) (f : SFileAndHash) (hi : fs[i]? = some f)
    (hdir : f.isdir = false) (hspecial : f.isspecialf = false) (hhash : f.hash = [])
    (hskip : skipFile am (orig_path ++ os_file_sep ++ f.name) (namedpath ++ os_file_sep ++ f.name)
      exclude_dirs include_dirs = false) :
    ∃ out,
      ((addMissingHashes am getShaBinary (some db) (some fs) orig_path filepath namedpath
          exclude_dirs include_dirs calc_hashes).2.2.map (fun l => l[i]?)) = some (some out) ∧
      (∀ e ∈ db, CacheEntryFor e f → out = { f with hash := e.hash }) ∧
      ((¬ ∃ e ∈ db, CacheEntryFor e f) →
        out = if calc_hashes then
            { f with hash := getShaBinary (filepath ++ os_file_sep ++ f.name) }
          else f) := by
  refine ⟨(addMissingHashFs am getShaBinary (some db) orig_path filepath namedpath
    exclude_dirs include_dirs calc_hashes f).2, ?_, ?_, ?_⟩
  · rw [addMissingHashes_fsfiles]
    simp [List.getElem?_map, hi]
  · intro e he hc
    have hlb := lower_bound_of_mem db f e hs he hc.1
    have hhit : cacheHit e f = true := (cacheHit_iff e f).mpr hc
    simp only [addMissingHashFs, hdir, hspecial, hhash, hskip, hlb, Option.filter, hhit,
      Bool.or_self, Bool.false_eq_true, if_false, List.isEmpty_nil, Bool.not_true, if_true]
  · intro hnone
    have hmiss : (lower_bound db f).filter (fun it => cacheHit it f) = none := by
      cases hlb : lower_bound db f with
      | none => rfl
      | some it =>
        have hmem := lower_bound_mem db f it hlb
        have : cacheHit it f = false := by
          cases hc : cacheHit it f with
          | false => rfl
          | true => exact absurd ⟨it, hmem, (cacheHit_iff it f).mp hc⟩ hnone
        simp [Option.filter, this]
    simp only [addMissingHashFs, hdir, hspecial, hhash, hskip, hmiss, Bool.or_self,
      Bool.false_eq_true, if_false, List.isEmpty_nil, Bool.not_true]
    split <;> rfl

/-- C4, applied to the unchanged file `a` of a directory `/d` whose cache row
holds `a` and `b`: the entry receives the cached hash. -/
theorem addMissingHashes_cached_hash_witness :
    cacheRowAB.Pairwise (fun a b => a.name < b.name) ∧
    listingAB[0]? = some (plainFile ['a'] 10 100 []) ∧
    ∃ out,
      ((addMissingHashes amatch (fun _ => [9]) (some cacheRowAB) (some listingAB)
          ['/', 'd'] ['/', 'd'] ['d'] [] [] true).2.2.map (fun l => l[0]?)) = some (some out) ∧
      (∀ e ∈ cacheRowAB, CacheEntryFor e (plainFile ['a'] 10 100 []) →
        out = { plainFile ['a'] 10 100 [] with hash := e.hash }) ∧
      ((¬ ∃ e ∈ cacheRowAB, CacheEntryFor e (plainFile ['a'] 10 100 [])) →
        out = if true = true then
            { plainFile ['a'] 10 100 [] with
              hash := (fun _ => [9]) (['/', 'd'] ++ os_file_sep ++ (plainFile ['a'] 10 100 []).name) }
          else plainFile ['a'] 10 100 []) :=
  have hs : cacheRowAB.Pairwise (fun a b => a.name < b.name) := by
    simp only [cacheRowAB, List.pairwise_cons, List.mem_singleton, forall_eq, List.not_mem_nil,
      false_implies, implies_true, List.Pairwise.nil, and_true]
    decide
  ⟨hs, rfl,
    addMissingHashes_cached_hash amatch (fun _ => [9]) cacheRowAB listingAB
      ['/', 'd'] ['/', 'd'] ['d'] [] [] true hs 0 (plainFile ['a'] 10 100 []) rfl rfl rfl rfl
      (by decide)⟩

/-! ## C8: entries of the previous list that are never flushed -/

/-- C8, evaluated at the failing input. The previous file list holds the roots
`a` (files `w`, `z`) and `b` (file `q`); the new run walks the single root `a`
(files `x`, `y`) with `KeepFiles`. The files `w` and `z` are carried over, but
the entries of `b`, for which the walk emits nothing, are not written: when
indexing ends the cursor still stands on `d"b"` with `q` unread, because no call
of `addFromLastUpto` with `finish = true` follows the last root. -/
theorem indexDirs_keep_leaves_last_root_unconsumed :
    ∃ st, indexDirs treeA plainSettings (fun _ => 0) 5 false 0 [rootA true] [] (some previousAB)
        [] [] = some st ∧
      st.outfile = ["d\"a\"".toList, "f\"w\" 1 2".toList, "f\"x\" 10 100".toList,
          "f\"y\" 20 200".toList, "f\"z\" 1 2".toList, "d\"..\"".toList] ∧
      st.index_follow_last = true ∧ st.index_keep_files = true ∧
      st.last_filelist.map (fun l => l.item :: l.unread.map (fun e => e.item))
        = some ((previousAB.drop 4).map (fun e => e.item)) :=
  ⟨(indexDirs treeA plainSettings (fun _ => 0) 5 false 0 [rootA true] [] (some previousAB)
      [] []).getD
      { outfile := [], file_id := 0, last_filelist := none, index_follow_last := false,
        index_keep_files := false, index_error := false, phash_queue := [], rnd_calls := 0 },
    by decide, by decide, by decide, by decide, by decide⟩

/-! ## C9: the random numbers in the file list -/

theorem perturbOpenFiles_no_open (env : IndexEnv) (rng : Nat → Nat) (path_lower : Str)
    (files : List SFileAndHash) (st : IndexState) (h : env.open_files = []) :
    perturbOpenFiles env rng path_lower files st = (files, st) := by
  induction files generalizing st with
  | nil => rfl
  | cons f rest ih =>
    unfold perturbOpenFiles
    simp [h, ih]

theorem getFilesProxy_rng (env : IndexEnv) (set : IndexSettings) (rng1 rng2 : Nat → Nat)
    (h : env.open_files = []) :
    getFilesProxy env set rng1 = getFilesProxy env set rng2 := by
  funext orig_path path named_path use_db fn_filter use_db_hashes exclude_dirs include_dirs st
  unfold getFilesProxy
  simp only [perturbOpenFiles_no_open _ _ _ _ _ h]

theorem initialCheck_rng (env : IndexEnv) (set : IndexSettings) (rng1 rng2 : Nat → Nat)
    (h : env.open_files = []) (fuel : Nat) :
    initialCheck env set rng1 fuel = initialCheck env set rng2 fuel := by
  induction fuel with
  | zero => rfl
  | succ fuel ih =>
    funext orig_dir dir named_path first flags use_db symlinked depth dir_recurse
      include_exclude_dirs exclude_dirs include_dirs orig_path st
    simp only [initialCheck]
    rw [getFilesProxy_rng env set rng1 rng2 h, ih]

theorem indexRoots_rng (env : IndexEnv) (set : IndexSettings) (rng1 rng2 : Nat → Nat)
    (h : env.open_files = []) (fuel : Nat) (full_backup : Bool) (index_group : Int)
    (exclude_dirs : List Str) (include_dirs : List SIndexInclude) (roots : List SBackupDir)
    (st : IndexState) :
    indexRoots env set rng1 fuel full_backup index_group exclude_dirs include_dirs roots st
      = indexRoots env set rng2 fuel full_backup index_group exclude_dirs include_dirs roots st := by
  induction roots generalizing st with
  | nil => rfl
  | cons root rest ih =>
    simp only [indexRoots, initialCheck_rng env set rng1 rng2 h fuel, ih]

theorem addBackupScripts_nil (env : IndexEnv) (rng : Nat → Nat) (st : IndexState) :
    addBackupScripts env rng [] st = (false, st) := rfl

/-- C9, counterexample. With one backup script configured, two runs on the same
directory tree, cache, settings and open files write different file lists when
the random-number source returns 0 in one run and 1 in the other: the line of the
script carries the random number as its change indicator. In the Windows build
the same holds without a script when a listed file is open: the change indicator
100 of the open file `x` is written as 400 when the source returns 0 and as 900
when it returns 3. -/
theorem incrFileList_depends_on_random_numbers :
    incrFileList treeA plainSettings (fun _ => 0) 5 0 [rootA false] [scriptS] none [] []
        = some ["d\"a\"".toList, "f\"x\" 10 100".toList, "f\"y\" 20 200".toList,
            "d\"..\"".toList, "d\"urbackup_backup_scripts\"".toList, "f\"s\" 5 0".toList,
            "u".toList] ∧
      incrFileList treeA plainSettings (fun _ => 1) 5 0 [rootA false] [scriptS] none [] []
        = some ["d\"a\"".toList, "f\"x\" 10 100".toList, "f\"y\" 20 200".toList,
            "d\"..\"".toList, "d\"urbackup_backup_scripts\"".toList,
            "f\"s\" 5 1073741825".toList, "u".toList] ∧
      incrFileList treeW plainSettings (fun _ => 0) 5 0 [rootA false] [] none [] []
        = some ["d\"a\"".toList, "f\"x\" 10 400".toList, "f\"y\" 20 200".toList,
            "d\"..\"".toList] ∧
      incrFileList treeW plainSettings (fun _ => 3) 5 0 [rootA false] [] none [] []
        = some ["d\"a\"".toList, "f\"x\" 10 900".toList, "f\"y\" 20 200".toList,
            "d\"..\"".toList] := by
  decide

/-- C9, amended. For every fixed filesystem state, file cache, settings, roots,
previous list and patterns, when no backup script is configured and no file is
in the open-file set, two runs of `StartIncrFileBackup` write the same file list
whatever the random-number source returns in each run. -/
theorem incrFileList_deterministic (env : IndexEnv) (set : IndexSettings)
    (rng1 rng2 : Nat → Nat) (fuel : Nat) (index_group : Int) (backup_dirs : List SBackupDir)
    (last : Option (List LastEntry)) (exclude_dirs : List Str)
    (include_dirs : List SIndexInclude) (h : env.open_files = []) :
    incrFileList env set rng1 fuel index_group backup_dirs [] last exclude_dirs include_dirs
      = incrFileList env set rng2 fuel index_group backup_dirs [] last exclude_dirs
          include_dirs := by
  unfold incrFileList indexDirs
  simp only [indexRoots_rng env set rng1 rng2 h, addBackupScripts_nil]

/-- C9, the amended statement applied to the tree with the directory `/a` and
two sources of random numbers. -/
theorem incrFileList_deterministic_witness :
    treeA.open_files = [] ∧
    incrFileList treeA plainSettings (fun _ => 0) 5 0 [rootA false] [] none [] []
      = incrFileList treeA plainSettings (fun n => n + 7) 5 0 [rootA false] [] none [] [] :=
  ⟨rfl, incrFileList_deterministic treeA plainSettings (fun _ => 0) (fun n => n + 7) 5 0
    [rootA false] none [] [] rfl⟩

/-! ## C11: the bitmap that a file backup saves for the next image backup -/

theorem byteAt_orByteAt (d : URBCT_BITMAP_DATA) (j b t : Nat) :
    byteAt (orByteAt d j b) t
      = if t = j ∧ j < d.Bitmap.length then byteAt d j ||| b else byteAt d t := by
  unfold byteAt orByteAt
  simp only [List.getD_eq_getElem?_getD, List.getElem?_set]
  by_cases htj : t = j
  · subst htj
    by_cases hl : t < d.Bitmap.length
    · simp [hl]
    · simp [hl]
      rw [List.getElem?_eq_none (by omega)]
      rfl
  · have : ¬ j = t := fun h => htj h.symm
    simp [htj, this]

theorem length_foldl_orByteAt (src : URBCT_BITMAP_DATA) (js : List Nat) (d : URBCT_BITMAP_DATA) :
    (js.foldl (fun d j => orByteAt d j (byteAt src j)) d).Bitmap.length = d.Bitmap.length ∧
    (js.foldl (fun d j => orByteAt d j (byteAt src j)) d).BitmapSize = d.BitmapSize ∧
    (js.foldl (fun d j => orByteAt d j (byteAt src j)) d).SectorSize = d.SectorSize := by
  induction js generalizing d with
  | nil => exact ⟨rfl, rfl, rfl⟩
  | cons j js ih =>
    rw [List.foldl_cons]
    obtain ⟨h1, h2, h3⟩ := ih (orByteAt d j (byteAt src j))
    refine ⟨?_, ?_, ?_⟩
    · rw [h1]; simp [orByteAt]
    · rw [h2]; rfl
    · rw [h3]; rfl

theorem byteAt_foldl_orByteAt (src : URBCT_BITMAP_DATA) (js : List Nat) (d : URBCT_BITMAP_DATA)
    (t : Nat) :
    byteAt (js.foldl (fun d j => orByteAt d j (byteAt src j)) d) t
      = if t ∈ js ∧ t < d.Bitmap.length then byteAt d t ||| byteAt src t else byteAt d t := by
  induction js generalizing d with
  | nil => simp
  | cons j js ih =>
    rw [List.foldl_cons, ih, byteAt_orByteAt]
    have hlen : (orByteAt d j (byteAt src j)).Bitmap.length = d.Bitmap.length := by
      simp [orByteAt]
    rw [hlen]
    by_cases htj : t = j
    · subst htj
      by_cases hl : t < d.Bitmap.length
      · by_cases hm : t ∈ js
        · simp [hl, hm, Nat.lor_assoc]
        · simp [hl, hm]
      · simp [hl]
    · by_cases hm : t ∈ js
      · simp [htj, hm]
      · simp [htj, hm]


theorem fields_foldl_sectors_orByteAt (src : URBCT_BITMAP_DATA) (len : Nat) (is : List Nat)
    (d : URBCT_BITMAP_DATA) :
    (is.foldl
        (fun d i =>
          (List.range' (i + URBT_MAGIC_SIZE) len).foldl (fun d j => orByteAt d j (byteAt src j)) d)
        d).Bitmap.length = d.Bitmap.length ∧
    (is.foldl
        (fun d i =>
          (List.range' (i + URBT_MAGIC_SIZE) len).foldl (fun d j => orByteAt d j (byteAt src j)) d)
        d).BitmapSize = d.BitmapSize ∧
    (is.foldl
        (fun d i =>
          (List.range' (i + URBT_MAGIC_SIZE) len).foldl (fun d j => orByteAt d j (byteAt src j)) d)
        d).SectorSize = d.SectorSize := by
  induction is generalizing d with
  | nil => exact ⟨rfl, rfl, rfl⟩
  | cons i is ih =>
    rw [List.foldl_cons]
    obtain ⟨h1, h2, h3⟩ := ih
      ((List.range' (i + URBT_MAGIC_SIZE) len).foldl (fun d j => orByteAt d j (byteAt src j)) d)
    obtain ⟨g1, g2, g3⟩ := length_foldl_orByteAt src (List.range' (i + URBT_MAGIC_SIZE) len) d
    exact ⟨h1.trans g1, h2.trans g2, h3.trans g3⟩

theorem byteAt_foldl_sectors_orByteAt (src : URBCT_BITMAP_DATA) (len : Nat) (is : List Nat)
    (d : URBCT_BITMAP_DATA) (t : Nat) :
    byteAt
        (is.foldl
          (fun d i =>
            (List.range' (i + URBT_MAGIC_SIZE) len).foldl (fun d j => orByteAt d j (byteAt src j)) d)
          d) t
      = if (∃ i ∈ is, i + URBT_MAGIC_SIZE ≤ t ∧ t < i + URBT_MAGIC_SIZE + len)
            ∧ t < d.Bitmap.length then
          byteAt d t ||| byteAt src t
        else byteAt d t := by
  induction is generalizing d with
  | nil => simp
  | cons i is ih =>
    rw [List.foldl_cons, ih, byteAt_foldl_orByteAt,
      (length_foldl_orByteAt src (List.range' (i + URBT_MAGIC_SIZE) len) d).1]
    have hmem : t ∈ List.range' (i + URBT_MAGIC_SIZE) len
        ↔ i + URBT_MAGIC_SIZE ≤ t ∧ t < i + URBT_MAGIC_SIZE + len := by
      rw [List.mem_range'_1]
    by_cases hl : t < d.Bitmap.length
    · by_cases h1 : i + URBT_MAGIC_SIZE ≤ t ∧ t < i + URBT_MAGIC_SIZE + len
      · by_cases h2 : ∃ i ∈ is, i + URBT_MAGIC_SIZE ≤ t ∧ t < i + URBT_MAGIC_SIZE + len
        · simp [hl, hmem, h1, h2, Nat.lor_assoc]
        · simp [hl, hmem, h1, h2]
      · by_cases h2 : ∃ i ∈ is, i + URBT_MAGIC_SIZE ≤ t ∧ t < i + URBT_MAGIC_SIZE + len
        · simp [hl, hmem, h1, h2]
        · simp [hl, hmem, h1, h2]
    · simp [hl]

theorem in_sector_payload_iff (S K t : Nat) (hS : URBT_MAGIC_SIZE < S) :
    (∃ i ∈ (List.range K).map (fun k => k * S),
        i + URBT_MAGIC_SIZE ≤ t ∧ t < i + URBT_MAGIC_SIZE + (S - URBT_MAGIC_SIZE))
      ↔ t / S < K ∧ URBT_MAGIC_SIZE ≤ t % S := by
  have hS0 : 0 < S := by omega
  constructor
  · rintro ⟨i, hi, h1, h2⟩
    rw [List.mem_map] at hi
    obtain ⟨k, hk, rfl⟩ := hi
    rw [List.mem_range] at hk
    have hlt : t - k * S < S := by omega
    have ht : t = t - k * S + k * S := by omega
    have hdiv : t / S = k := by
      rw [ht, Nat.add_mul_div_right _ _ hS0, Nat.div_eq_of_lt hlt, Nat.zero_add]
    have hmod : t % S = t - k * S := by
      rw [ht, Nat.add_mul_mod_self_right, Nat.mod_eq_of_lt hlt]
      omega
    exact ⟨by rw [hdiv]; exact hk, by rw [hmod]; omega⟩
  · rintro ⟨h1, h2⟩
    refine ⟨t / S * S, ?_, ?_, ?_⟩
    · rw [List.mem_map]
      exact ⟨t / S, List.mem_range.mpr h1, rfl⟩
    · have := Nat.div_add_mod t S
      have hc : S * (t / S) = t / S * S := Nat.mul_comm _ _
      omega
    · have := Nat.div_add_mod t S
      have hc : S * (t / S) = t / S * S := Nat.mul_comm _ _
      have := Nat.mod_lt t hS0
      omega

theorem div_lt_sector_count (S n t : Nat) (hS : 0 < S) (ht : t < n) : t / S < (n + S - 1) / S := by
  rw [Nat.lt_iff_add_one_le, Nat.le_div_iff_mul_le hS]
  have h1 : t / S * S ≤ t := Nat.div_mul_le_self t S
  have h2 : (t / S + 1) * S = t / S * S + S := by rw [Nat.add_mul, Nat.one_mul]
  omega


theorem mergeBitmap_true_sector (src dst M : URBCT_BITMAP_DATA)
    (h : mergeBitmap src dst = (true, M)) : src.SectorSize = dst.SectorSize := by
  unfold mergeBitmap at h
  by_cases hs : src.SectorSize = dst.SectorSize
  · exact hs
  · simp [hs] at h

theorem mergeBitmap_same_size (src dst M : URBCT_BITMAP_DATA)
    (hS : URBT_MAGIC_SIZE < src.SectorSize) (hsize : dst.BitmapSize = src.BitmapSize)
    (hlen : dst.BitmapSize ≤ dst.Bitmap.length) (h : mergeBitmap src dst = (true, M)) :
    M.BitmapSize = dst.BitmapSize ∧ M.SectorSize = dst.SectorSize ∧
      ∀ j, j < dst.BitmapSize →
        byteAt M j
          = if j % src.SectorSize < URBT_MAGIC_SIZE then byteAt dst j
            else byteAt dst j ||| byteAt src j := by
  have hsec := mergeBitmap_true_sector src dst M h
  unfold mergeBitmap at h
  simp only [hsec, ne_eq, not_true_eq_false, if_false, Prod.mk.injEq, true_and] at h
  rw [← hsec] at h
  obtain ⟨f1, f2, f3⟩ := fields_foldl_sectors_orByteAt src (src.SectorSize - URBT_MAGIC_SIZE)
    (sectorStarts (min src.BitmapSize dst.BitmapSize) src.SectorSize) dst
  rw [h] at f1 f2 f3
  refine ⟨f2, f3, ?_⟩
  intro j hj
  rw [← h, byteAt_foldl_sectors_orByteAt]
  unfold sectorStarts
  have hiff := in_sector_payload_iff src.SectorSize
    ((min src.BitmapSize dst.BitmapSize + src.SectorSize - 1) / src.SectorSize) j hS
  have hdiv : j / src.SectorSize
      < (min src.BitmapSize dst.BitmapSize + src.SectorSize - 1) / src.SectorSize := by
    apply div_lt_sector_count
    · omega
    · rw [hsize, Nat.min_self]
      omega
  have hjl : j < dst.Bitmap.length := by omega
  by_cases hm : j % src.SectorSize < URBT_MAGIC_SIZE
  · rw [if_pos hm, if_neg]
    rintro ⟨hex, _⟩
    have := (hiff.mp hex).2
    omega
  · rw [if_neg hm, if_pos]
    exact ⟨hiff.mpr ⟨hdiv, by omega⟩, hjl⟩

theorem validateSector_fields (snap : Option URBCT_BITMAP_DATA) (st st1 : ValidateState) (i : Nat)
    (h : validateSector snap st i = some st1) :
    st1.bitmap_data.BitmapSize = st.bitmap_data.BitmapSize ∧
      st1.bitmap_data.SectorSize = st.bitmap_data.SectorSize := by
  unfold validateSector at h
  split at h
  · cases h
  · split at h
    · simp only [Option.some.injEq] at h
      rw [← h]
      exact ⟨rfl, rfl⟩
    · rename_i s
      split at h
      · split at h
        · cases h
        · simp only [Option.some.injEq] at h
          rw [← h]
          obtain ⟨_, g2, g3⟩ := length_foldl_orByteAt s
            (List.range' (i + URBT_MAGIC_SIZE)
              (min
                (min (subDW (subDW st.bitmap_data.BitmapSize i) URBT_MAGIC_SIZE)
                  (subDW st.bitmap_data.SectorSize URBT_MAGIC_SIZE))
                (subDW (subDW s.BitmapSize i) URBT_MAGIC_SIZE)))
            st.bitmap_data
          exact ⟨g2, g3⟩
      · simp only [Option.some.injEq] at h
        rw [← h]
        exact ⟨rfl, rfl⟩

theorem validate_foldlM_fields (snap : Option URBCT_BITMAP_DATA) (is : List Nat)
    (st st1 : ValidateState) (h : is.foldlM (validateSector snap) st = some st1) :
    st1.bitmap_data.BitmapSize = st.bitmap_data.BitmapSize ∧
      st1.bitmap_data.SectorSize = st.bitmap_data.SectorSize := by
  induction is generalizing st with
  | nil =>
    simp only [List.foldlM_nil, Option.pure_def, Option.some.injEq] at h
    rw [← h]
    exact ⟨rfl, rfl⟩
  | cons i is ih =>
    rw [List.foldlM_cons] at h
    cases hv : validateSector snap st i with
    | none => rw [hv] at h; cases h
    | some st2 =>
      rw [hv] at h
      obtain ⟨a1, a2⟩ := ih st2 h
      obtain ⟨b1, b2⟩ := validateSector_fields snap st st2 i hv
      exact ⟨a1.trans b1, a2.trans b2⟩

theorem validateBitmap_fields (bm : URBCT_BITMAP_DATA) (snap : Option URBCT_BITMAP_DATA)
    (v : ValidateState) (h : validateBitmap bm snap = some v) :
    v.bitmap_data.BitmapSize = bm.BitmapSize ∧ v.bitmap_data.SectorSize = bm.SectorSize :=
  validate_foldlM_fields snap _ _ v h

theorem finishCbt_file_true (md5 : List Nat → List Nat) (c : Nat) (bm : URBCT_BITMAP_DATA)
    (snap : Option URBCT_BITMAP_DATA) (shadow_id : Int) (fs fs1 : CbtFiles)
    (h : finishCbt md5 c bm snap shadow_id false fs = some (true, fs1)) :
    loopsModelled bm = true ∧
      ∃ v merged, validateBitmap bm snap = some v ∧
        saveMergeBitmap md5 fs.hdat_img_cbt v.bitmap_data = (true, fs1.hdat_img_cbt) ∧
        readMergeBitmap md5 fs.hdat_file_cbt v.bitmap_data = (true, merged) ∧
        fs1.hdat_file_cbt = none ∧
        fs1.hdat_file
          = zeroFileHashes (2 + c) merged
              (resizeFile fs.hdat_file (merged.BitmapSize * 8 % DWORD_MOD * (2 + c))) := by
  unfold finishCbt at h
  split at h
  · cases h
  · rename_i hl
    split at h
    · cases h
    · rename_i v hv
      simp only [Bool.false_eq_true, if_false] at h
      split at h
      · cases h
      · rename_i img_cbt hsave
        split at h
        · cases h
        · rename_i merged hread
          simp only [Option.some.injEq, Prod.mk.injEq, true_and] at h
          rw [← h]
          refine ⟨by simpa using hl, v, merged, hv, hsave, hread, rfl, rfl⟩


/-- C11, counterexample. `hdat_img_<vol>.cbt` holds a bitmap of one sector of 16
bytes (byte 13 is 2) and the file backup retrieves a bitmap of two sectors of the
same sector size (byte 13 is 1, byte 29 is 4). `finishCbt(vol, -1, "", false)`
returns true and stores a bitmap of one sector whose byte 13 is 3: the set bit
of the non-magic byte 29 of the retrieved bitmap is not in the stored file. -/
theorem finishCbt_file_drops_bits_past_stored_size :
    (finishCbt zeroDigest 2 pairBitmap none (-1) false tinyImgCbt).map
        (fun r => (r.1, r.2.hdat_img_cbt, r.2.hdat_file_cbt))
      = some (true,
          some (cbtFileOf zeroDigest
            { BitmapSize := 16, SectorSize := 16, Bitmap := URBT_MAGIC ++ [3, 0, 0] }),
          none) ∧
    tinyStored.SectorSize = pairBitmap.SectorSize ∧
    byteAt pairBitmap 29 = 4 := by
  decide

/-- C11, amended. After a successful `finishCbt(vol, ..., for_image_backup =
false)` that retrieved the bitmap `B` (the volume bitmap with the snapshot
bitmap merged in), `hdat_file_<vol>.cbt` no longer exists. When
`hdat_img_<vol>.cbt` did not exist, it now holds `B`. When it held a complete
bitmap `I` of the same bitmap size as `B`, then `I` has the sector size of `B` and
the file now holds a bitmap `M` of that size and sector size whose bytes are
those of `I` in the magic tags and the bytewise OR of `I` and `B` on all
non-magic bytes. -/
theorem finishCbt_file_saves_merged_img_cbt (md5 : List Nat → List Nat) (c : Nat)
    (bm : URBCT_BITMAP_DATA) (snap : Option URBCT_BITMAP_DATA) (shadow_id : Int)
    (fs fs1 : CbtFiles)
    (h : finishCbt md5 c bm snap shadow_id false fs = some (true, fs1)) :
    fs1.hdat_file_cbt = none ∧
      ∃ B, (validateBitmap bm snap).map (fun v => v.bitmap_data) = some B ∧
        (fs.hdat_img_cbt = none → fs1.hdat_img_cbt = some (cbtFileOf md5 B)) ∧
        ∀ content I, fs.hdat_img_cbt = some content → readBitmap md5 content = some I →
          I.BitmapSize = B.BitmapSize → I.BitmapSize ≤ I.Bitmap.length →
          ∃ M, fs1.hdat_img_cbt = some (cbtFileOf md5 M) ∧
            M.BitmapSize = B.BitmapSize ∧ M.SectorSize = B.SectorSize ∧
            I.SectorSize = B.SectorSize ∧
            ∀ j, j < B.BitmapSize →
              byteAt M j
                = if j % B.SectorSize < URBT_MAGIC_SIZE then byteAt I j
                  else byteAt I j ||| byteAt B j := by
  obtain ⟨hl, v, merged, hv, hsave, _, hfile, _⟩ := finishCbt_file_true md5 c bm snap shadow_id fs fs1 h
  refine ⟨hfile, v.bitmap_data, by rw [hv]; rfl, ?_, ?_⟩
  · intro hnone
    rw [hnone, saveMergeBitmap_none] at hsave
    simp only [Prod.mk.injEq, true_and] at hsave
    rw [← hsave]
    rfl
  · intro content I hc hI hsize hlen
    rw [hc] at hsave
    unfold saveMergeBitmap at hsave
    simp only [hI] at hsave
    cases hm : mergeBitmap v.bitmap_data I with
    | mk ok M =>
      rw [hm] at hsave
      cases ok with
      | false => simp at hsave
      | true =>
        simp only [Prod.mk.injEq, true_and] at hsave
        have hS : URBT_MAGIC_SIZE < v.bitmap_data.SectorSize := by
          rw [(validateBitmap_fields bm snap v hv).2]
          unfold loopsModelled at hl
          simp only [Bool.and_eq_true, decide_eq_true_eq] at hl
          exact hl.1
        have hsec := mergeBitmap_true_sector v.bitmap_data I M hm
        obtain ⟨m1, m2, m3⟩ := mergeBitmap_same_size v.bitmap_data I M hS hsize hlen hm
        refine ⟨M, by rw [← hsave]; rfl, m1.trans hsize, m2.trans hsec.symm, hsec.symm, ?_⟩
        intro j hj
        exact m3 j (by omega)

/-- C11, the amended statement applied to the one-sector bitmap `tinyBitmap` and
the stored bitmap `tinyStored` of the same size. -/
theorem finishCbt_file_saves_merged_img_cbt_witness :
    finishCbt zeroDigest 2 tinyBitmap none (-1) false tinyImgCbt
      = some (true,
          { hdat_file_cbt := none
            hdat_img_cbt := some (cbtFileOf zeroDigest
              { BitmapSize := 16, SectorSize := 16, Bitmap := URBT_MAGIC ++ [3, 0, 2] })
            hdat_img := []
            hdat_file := List.replicate 512 0 }) ∧
    ((none : Option (List Nat)) = none ∧
      ∃ B, (validateBitmap tinyBitmap none).map (fun v => v.bitmap_data) = some B ∧
        (tinyImgCbt.hdat_img_cbt = none →
          some (cbtFileOf zeroDigest
            { BitmapSize := 16, SectorSize := 16, Bitmap := URBT_MAGIC ++ [3, 0, 2] })
            = some (cbtFileOf zeroDigest B)) ∧
        ∀ content I, tinyImgCbt.hdat_img_cbt = some content →
          readBitmap zeroDigest content = some I →
          I.BitmapSize = B.BitmapSize → I.BitmapSize ≤ I.Bitmap.length →
          ∃ M, some (cbtFileOf zeroDigest
              { BitmapSize := 16, SectorSize := 16, Bitmap := URBT_MAGIC ++ [3, 0, 2] })
              = some (cbtFileOf zeroDigest M) ∧
            M.BitmapSize = B.BitmapSize ∧ M.SectorSize = B.SectorSize ∧
            I.SectorSize = B.SectorSize ∧
            ∀ j, j < B.BitmapSize →
              byteAt M j
                = if j % B.SectorSize < URBT_MAGIC_SIZE then byteAt I j
                  else byteAt I j ||| byteAt B j) :=
  ⟨by decide,
    finishCbt_file_saves_merged_img_cbt zeroDigest 2 tinyBitmap none (-1) tinyImgCbt
      { hdat_file_cbt := none
        hdat_img_cbt := some (cbtFileOf zeroDigest
          { BitmapSize := 16, SectorSize := 16, Bitmap := URBT_MAGIC ++ [3, 0, 2] })
        hdat_img := []
        hdat_file := List.replicate 512 0 }
      (by decide)⟩


/-! ## C12: a `.cbt` file with a wrong checksum -/

theorem readBitmap_isSome_iff (md5 : List Nat → List Nat) (data : List Nat) :
    (readBitmap md5 data).isSome = true
      ↔ 16 ≤ data.length ∧ data.take 16 = digest16 md5 (data.drop 16) := by
  unfold readBitmap
  by_cases h1 : data.length < 16
  · simp only [h1, if_true, Option.isSome_none, Bool.false_eq_true, false_iff, not_and]
    intro h
    omega
  · by_cases h2 : data.take 16 = digest16 md5 (data.drop 16)
    · simp only [h1, if_false, h2, ne_eq, not_true_eq_false, Option.isSome_some, true_iff,
        and_true]
      omega
    · simp only [h1, if_false, h2, ne_eq, not_false_eq_true, if_true, Option.isSome_none,
        Bool.false_eq_true, and_false]

theorem saveMergeBitmap_false (md5 : List Nat → List Nat) (file f1 : Option (List Nat))
    (bitmap : URBCT_BITMAP_DATA) (h : saveMergeBitmap md5 file bitmap = (false, f1)) :
    f1 = file := by
  unfold saveMergeBitmap at h
  split at h
  · cases h
  · split at h
    · simp only [Prod.mk.injEq, true_and] at h
      exact h.symm
    · split at h
      · simp only [Prod.mk.injEq, true_and] at h
        exact h.symm
      · cases h

theorem saveMergeBitmap_bad (md5 : List Nat → List Nat) (content : List Nat)
    (bitmap : URBCT_BITMAP_DATA) (hbad : readBitmap md5 content = none) :
    saveMergeBitmap md5 (some content) bitmap = (false, some content) := by
  unfold saveMergeBitmap
  simp only [hbad]

theorem readMergeBitmap_bad (md5 : List Nat → List Nat) (content : List Nat)
    (bitmap : URBCT_BITMAP_DATA) (hbad : readBitmap md5 content = none) :
    readMergeBitmap md5 (some content) bitmap = (false, bitmap) := by
  unfold readMergeBitmap
  simp only [hbad]

theorem finishCbt_bad_checksum (md5 : List Nat → List Nat) (c : Nat) (bm : URBCT_BITMAP_DATA)
    (snap : Option URBCT_BITMAP_DATA) (shadow_id : Int) (for_image_backup : Bool)
    (fs : CbtFiles) (content : List Nat) (hl : loopsModelled bm = true)
    (hbad : readBitmap md5 content = none)
    (hfile : fs.hdat_file_cbt = some content ∨ fs.hdat_img_cbt = some content) :
    ∃ fs1, finishCbt md5 c bm snap shadow_id for_image_backup fs = some (false, fs1) ∧
      (fs.hdat_file_cbt = some content → fs1.hdat_file_cbt = some content) ∧
      (fs.hdat_img_cbt = some content → fs1.hdat_img_cbt = some content) := by
  unfold finishCbt
  simp only [hl, Bool.not_true, Bool.false_eq_true, if_false]
  cases hv : validateBitmap bm snap with
  | none => exact ⟨fs, rfl, id, id⟩
  | some v =>
    cases for_image_backup with
    | true =>
      simp only [if_true]
      cases hsave : saveMergeBitmap md5 fs.hdat_file_cbt v.bitmap_data with
      | mk ok file_cbt =>
        cases ok with
        | false =>
          have := saveMergeBitmap_false md5 _ _ _ hsave
          exact ⟨_, rfl, fun h => by rw [this]; exact h, id⟩
        | true =>
          have hnot : fs.hdat_file_cbt ≠ some content := by
            intro h
            rw [h, saveMergeBitmap_bad md5 content _ hbad] at hsave
            cases hsave
          have himg : fs.hdat_img_cbt = some content := hfile.resolve_left hnot
          simp only [himg, readMergeBitmap_bad md5 content _ hbad]
          exact ⟨_, rfl, fun h => absurd h hnot, fun _ => rfl⟩
    | false =>
      simp only [Bool.false_eq_true, if_false]
      cases hsave : saveMergeBitmap md5 fs.hdat_img_cbt v.bitmap_data with
      | mk ok img_cbt =>
        cases ok with
        | false =>
          have := saveMergeBitmap_false md5 _ _ _ hsave
          exact ⟨_, rfl, id, fun h => by rw [this]; exact h⟩
        | true =>
          have hnot : fs.hdat_img_cbt ≠ some content := by
            intro h
            rw [h, saveMergeBitmap_bad md5 content _ hbad] at hsave
            cases hsave
          have hf : fs.hdat_file_cbt = some content := hfile.resolve_right hnot
          simp only [hf, readMergeBitmap_bad md5 content _ hbad]
          exact ⟨_, rfl, fun _ => rfl, fun h => absurd h hnot⟩

/-- C12. `readBitmap` returns a bitmap if and only if the file has at least 16
bytes and its first 16 bytes are the MD5 digest of all remaining bytes. For an
existing `.cbt` file that fails this check, `readMergeBitmap` returns false and
leaves the in-memory bitmap as it is, `saveMergeBitmap` returns false and leaves
the file as it is, and `finishCbt`, of either kind, returns false with that file
unchanged when it is one of the two `.cbt` files of the volume. -/
theorem readBitmap_checksum_failure (md5 : List Nat → List Nat) (c : Nat)
    (bm bitmap : URBCT_BITMAP_DATA) (snap : Option URBCT_BITMAP_DATA) (shadow_id : Int)
    (for_image_backup : Bool) (fs : CbtFiles) (content : List Nat)
    (hl : loopsModelled bm = true) (hbad : readBitmap md5 content = none)
    (hfile : fs.hdat_file_cbt = some content ∨ fs.hdat_img_cbt = some content) :
    (∀ data, (readBitmap md5 data).isSome = true
        ↔ 16 ≤ data.length ∧ data.take 16 = digest16 md5 (data.drop 16)) ∧
      readMergeBitmap md5 (some content) bitmap = (false, bitmap) ∧
      saveMergeBitmap md5 (some content) bitmap = (false, some content) ∧
      ∃ fs1, finishCbt md5 c bm snap shadow_id for_image_backup fs = some (false, fs1) ∧
        (fs.hdat_file_cbt = some content → fs1.hdat_file_cbt = some content) ∧
        (fs.hdat_img_cbt = some content → fs1.hdat_img_cbt = some content) :=
  ⟨readBitmap_isSome_iff md5, readMergeBitmap_bad md5 content bitmap hbad,
    saveMergeBitmap_bad md5 content bitmap hbad,
    finishCbt_bad_checksum md5 c bm snap shadow_id for_image_backup fs content hl hbad hfile⟩

/-- C12, applied to a file backup of the one-sector bitmap while
`hdat_img_<vol>.cbt` holds 20 bytes `0xff`. -/
theorem readBitmap_checksum_failure_witness :
    loopsModelled tinyBitmap = true ∧
    readBitmap zeroDigest (List.replicate 20 255) = none ∧
    (brokenImgCbt.hdat_file_cbt = some (List.replicate 20 255)
      ∨ brokenImgCbt.hdat_img_cbt = some (List.replicate 20 255)) ∧
    ((∀ data, (readBitmap zeroDigest data).isSome = true
        ↔ 16 ≤ data.length ∧ data.take 16 = digest16 zeroDigest (data.drop 16)) ∧
      readMergeBitmap zeroDigest (some (List.replicate 20 255)) tinyStored = (false, tinyStored) ∧
      saveMergeBitmap zeroDigest (some (List.replicate 20 255)) tinyStored
        = (false, some (List.replicate 20 255)) ∧
      ∃ fs1, finishCbt zeroDigest 2 tinyBitmap none (-1) false brokenImgCbt = some (false, fs1) ∧
        (brokenImgCbt.hdat_file_cbt = some (List.replicate 20 255)
          → fs1.hdat_file_cbt = some (List.replicate 20 255)) ∧
        (brokenImgCbt.hdat_img_cbt = some (List.replicate 20 255)
          → fs1.hdat_img_cbt = some (List.replicate 20 255))) :=
  ⟨by decide, by decide, Or.inr rfl,
    readBitmap_checksum_failure zeroDigest 2 tinyBitmap tinyStored none (-1) false brokenImgCbt
      (List.replicate 20 255) (by decide) (by decide) (Or.inr rfl)⟩


/-! ## C13: when a release deletes the snapshot -/

theorem deleteDue_iff (t : String) (now : Int) (r : SCRef) :
    deleteDue t now r = true ↔ r.starttokens.erase t = [] ∨ now - r.starttime > 604800 := by
  have hc : shadowcopy_timeout / 1000 = 604800 := by decide
  unfold deleteDue
  rw [hc]
  cases hr : r.starttokens with
  | nil => simp
  | cons x xs =>
    cases xs with
    | nil =>
      by_cases hx : x = t
      · subst hx
        simp
      · have hb : (x == t) = false := by simpa using hx
        simp [List.erase_cons, hb, hx]
    | cons y ys =>
      have hne : (x :: y :: ys).erase t ≠ [] := by
        rw [List.erase_cons]
        split
        · exact List.cons_ne_nil _ _
        · exact List.cons_ne_nil _ _
      simp [hne]

/-- C13, counterexample. In the Windows build, for a reference whose `backupcom`
is `NULL` and whose only start token is the current one, `release_shadowcopy`
does not invoke the platform delete, although removing the current start token
leaves the token list empty. -/
theorem release_shadowcopy_no_delete_without_backupcom :
    (release_shadowcopy_build true false "a" 10 (newSCRef "a" 0 "/" "" false)).platform_delete
      = false ∧
    (newSCRef "a" 0 "/" "" false).starttokens.erase "a" = [] := by
  decide

/-- C13, amended. For every snapshot reference (in the Windows build: one whose
`backupcom` is not `NULL`), every list of start tokens and every current start
token, `release_shadowcopy` invokes the platform delete if and only if the list
obtained by removing one occurrence of the current start token is empty or the
age of the snapshot exceeds the hard timeout of 604800 seconds; it deletes the
database row exactly when it invokes the platform delete and `save_id` is not
-1. -/
theorem release_shadowcopy_build_deletes_iff (win32 backupcom : Bool) (starttoken : String)
    (now : Int) (r : SCRef) (h : win32 = false ∨ backupcom = true) :
    ((release_shadowcopy_build win32 backupcom starttoken now r).platform_delete = true
        ↔ r.starttokens.erase starttoken = [] ∨ now - r.starttime > 604800) ∧
      (release_shadowcopy_build win32 backupcom starttoken now r).db_delete
        = if (release_shadowcopy_build win32 backupcom starttoken now r).platform_delete = true
              ∧ r.save_id ≠ -1 then
            some r.save_id
          else none := by
  have hg : (!win32 || backupcom) = true := by
    rcases h with h | h <;> simp [h]
  constructor
  · unfold release_shadowcopy_build
    simp only [hg, Bool.true_and]
    exact deleteDue_iff starttoken now r
  · unfold release_shadowcopy_build
    simp only [Bool.and_eq_true, decide_eq_true_eq]

/-- C13, the amended statement applied to the release of a snapshot under its
only start token in the Windows build, with `backupcom` set. -/
theorem release_shadowcopy_build_deletes_iff_witness :
    ((true = false ∨ true = true)) ∧
    (((release_shadowcopy_build true true "a" 10 (newSCRef "a" 0 "/" "" false)).platform_delete
          = true
        ↔ (newSCRef "a" 0 "/" "" false).starttokens.erase "a" = []
          ∨ 10 - (newSCRef "a" 0 "/" "" false).starttime > 604800) ∧
      (release_shadowcopy_build true true "a" 10 (newSCRef "a" 0 "/" "" false)).db_delete
        = if (release_shadowcopy_build true true "a" 10
                (newSCRef "a" 0 "/" "" false)).platform_delete = true
              ∧ (newSCRef "a" 0 "/" "" false).save_id ≠ -1 then
            some (newSCRef "a" 0 "/" "" false).save_id
          else none) :=
  ⟨Or.inr rfl,
    release_shadowcopy_build_deletes_iff true true "a" 10 (newSCRef "a" 0 "/" "" false)
      (Or.inr rfl)⟩


theorem release_shadowcopy_build_false (backupcom : Bool) (starttoken : String) (now : Int)
    (r : SCRef) :
    release_shadowcopy_build false backupcom starttoken now r
      = release_shadowcopy starttoken now r := by
  unfold release_shadowcopy_build release_shadowcopy
  simp

/-! ## C14: what the scan does with a matching candidate -/

theorem only_own_tokens_iff (getLastTokenTime : String → Int) (now : Int) (starttoken : String)
    (starttokens : List String) :
    only_own_tokens getLastTokenTime now starttoken starttokens = true
      ↔ ∀ t ∈ starttokens, t = starttoken ∨ token_timeout getLastTokenTime now t = true := by
  unfold only_own_tokens
  rw [List.all_eq_true]
  constructor
  · intro h t ht
    have := h t ht
    by_cases he : t = starttoken
    · exact Or.inl he
    · right
      simpa [he] using this
  · intro h t ht
    rcases h t ht with he | he
    · simp [he]
    · simp [he]

theorem attachToken_eq (starttoken : String) (r : SCRef) :
    attachToken starttoken r
      = { r with
          starttokens := if r.dontincrement then r.starttokens else r.starttokens ++ [starttoken]
          dontincrement := false } := by
  unfold attachToken
  cases hd : r.dontincrement with
  | true => simp
  | false =>
    cases r
    simp only [Bool.not_false, if_true, Bool.false_eq_true, if_false]

theorem find_existing_candidate_match (getLastTokenTime : String → Int)
    (openable : String → Bool) (now : Int) (starttoken index_clientsubname wpath : String)
    (in_no_restart_refs allow_restart simultaneous_other for_imagebackup
      consider_only_own_tokens onlyref_given stale_given : Bool) (r : SCRef)
    (hpath : r.target = wpath) (hok : r.ok = true) (hsub : r.clientsubname = index_clientsubname)
    (hopen : openable r.volpath = true) :
    find_existing_candidate getLastTokenTime openable now starttoken index_clientsubname wpath
        in_no_restart_refs allow_restart simultaneous_other for_imagebackup
        consider_only_own_tokens onlyref_given stale_given r
      = if consider_only_own_tokens = true
            ∧ only_own_tokens getLastTokenTime now starttoken r.starttokens = false then
          CandidateOutcome.skipped
        else if (in_no_restart_refs = false ∧ allow_restart = true)
            ∧ (only_own_tokens getLastTokenTime now starttoken r.starttokens = true
              ∨ now - r.starttime > 3300) then
          (if r.for_imagebackup = for_imagebackup ∨ simultaneous_other = false then
            CandidateOutcome.released
          else CandidateOutcome.skipped)
        else
          CandidateOutcome.attached (attachToken starttoken r) onlyref_given
            (if stale_given then
              (if !(!in_no_restart_refs) then some false
               else if !only_own_tokens getLastTokenTime now starttoken r.starttokens
                  || !allow_restart then some true
               else none)
             else none) := by
  have hc : shadowcopy_startnew_timeout / 1000 = 3300 := by decide
  subst hpath hsub
  unfold find_existing_candidate
  simp only [hok, hopen, hc, beq_self_eq_true, Bool.and_self, if_true, Bool.not_true,
    Bool.false_and, Bool.false_eq_true, if_false, Bool.or_false, Bool.and_eq_true,
    Bool.or_eq_true, Bool.not_eq_true', decide_eq_true_eq, beq_iff_eq]
  congr 2
  apply propext
  constructor
  · rintro ⟨h1, h2⟩
    exact ⟨h1, h2.symm⟩
  · rintro ⟨h1, h2⟩
    exact ⟨h1, h2.symm⟩

/-- C14, counterexample. Three matching candidates with an openable mount that
the scan neither releases nor attaches as the claim says. A snapshot for file
backups held only by the current start token, requested for an image backup
while another backup runs: it is not released and not attached, the scan goes
on. A young snapshot held by a foreign start token that has timed out: it is
released. A young snapshot held by a live foreign start token, with
`consider_only_own_tokens` set: it is skipped. -/
theorem find_existing_candidate_not_as_claimed :
    find_existing_candidate (fun _ => 0) (fun _ => true) 10 "a" "" "/" false true true true
        false true false (snapRef 0 ["a"])
      = CandidateOutcome.skipped ∧
    find_existing_candidate (fun _ => 0) (fun _ => true) 700000 "a" "" "/" false true false false
        false true false (snapRef 699000 ["b"])
      = CandidateOutcome.released ∧
    find_existing_candidate (fun _ => 10) (fun _ => true) 10 "a" "" "/" false true false false
        true true false (snapRef 0 ["b"])
      = CandidateOutcome.skipped := by
  decide

/-- C14, amended. For every candidate that matches (same volume path, same
`clientsubname`, `ok`) and whose snapshot mount can be opened: when
`consider_only_own_tokens` is set and the candidate has a foreign start token
that has not timed out, it is skipped. Otherwise, when restart is allowed (the
candidate is not in `no_restart_refs` and `allow_restart` is set) and every start
token of the candidate is the current one or has timed out, or the candidate is
older than 3300 seconds: it is released and the scan continues if its
`for_imagebackup` equals the requested one or `simultaneous_other` is false, and
it is skipped (neither released nor attached) if not. In every other case the
`ScopedDir` is attached to it, the current start token is appended to
`start_tokens` once (unless `dontincrement` was set, which is then cleared),
`*onlyref` is set to true when given, and the function returns true. -/
theorem find_existing_candidate_outcome (getLastTokenTime : String → Int)
    (openable : String → Bool) (now : Int) (starttoken index_clientsubname wpath : String)
    (in_no_restart_refs allow_restart simultaneous_other for_imagebackup
      consider_only_own_tokens onlyref_given stale_given : Bool) (r : SCRef)
    (hpath : r.target = wpath) (hok : r.ok = true) (hsub : r.clientsubname = index_clientsubname)
    (hopen : openable r.volpath = true) :
    (consider_only_own_tokens = true
        ∧ ¬ (∀ t ∈ r.starttokens, t = starttoken ∨ token_timeout getLastTokenTime now t = true) →
      find_existing_candidate getLastTokenTime openable now starttoken index_clientsubname wpath
          in_no_restart_refs allow_restart simultaneous_other for_imagebackup
          consider_only_own_tokens onlyref_given stale_given r
        = CandidateOutcome.skipped) ∧
    (¬ (consider_only_own_tokens = true
        ∧ ¬ (∀ t ∈ r.starttokens, t = starttoken ∨ token_timeout getLastTokenTime now t = true)) →
      ((in_no_restart_refs = false ∧ allow_restart = true)
          ∧ ((∀ t ∈ r.starttokens, t = starttoken ∨ token_timeout getLastTokenTime now t = true)
            ∨ now - r.starttime > 3300) →
        find_existing_candidate getLastTokenTime openable now starttoken index_clientsubname wpath
            in_no_restart_refs allow_restart simultaneous_other for_imagebackup
            consider_only_own_tokens onlyref_given stale_given r
          = if r.for_imagebackup = for_imagebackup ∨ simultaneous_other = false then
              CandidateOutcome.released
            else CandidateOutcome.skipped) ∧
      (¬ ((in_no_restart_refs = false ∧ allow_restart = true)
          ∧ ((∀ t ∈ r.starttokens, t = starttoken ∨ token_timeout getLastTokenTime now t = true)
            ∨ now - r.starttime > 3300)) →
        ∃ stale,
          find_existing_candidate getLastTokenTime openable now starttoken index_clientsubname
              wpath in_no_restart_refs allow_restart simultaneous_other for_imagebackup
              consider_only_own_tokens onlyref_given stale_given r
            = CandidateOutcome.attached
                { r with
                  starttokens :=
                    if r.dontincrement then r.starttokens else r.starttokens ++ [starttoken]
                  dontincrement := false }
                onlyref_given stale)) := by
  have hown := only_own_tokens_iff getLastTokenTime now starttoken r.starttokens
  rw [find_existing_candidate_match getLastTokenTime openable now starttoken index_clientsubname
    wpath in_no_restart_refs allow_restart simultaneous_other for_imagebackup
    consider_only_own_tokens onlyref_given stale_given r hpath hok hsub hopen]
  refine ⟨?_, ?_⟩
  · rintro ⟨hcons, hno⟩
    have hO : only_own_tokens getLastTokenTime now starttoken r.starttokens = false := by
      cases h : only_own_tokens getLastTokenTime now starttoken r.starttokens with
      | false => rfl
      | true => exact absurd (hown.mp h) hno
    rw [if_pos ⟨hcons, hO⟩]
  · intro hn
    have h1 : ¬ (consider_only_own_tokens = true
        ∧ only_own_tokens getLastTokenTime now starttoken r.starttokens = false) := by
      rintro ⟨hcons, hO⟩
      apply hn
      refine ⟨hcons, fun hall => ?_⟩
      rw [hown.mpr hall] at hO
      cases hO
    rw [if_neg h1]
    refine ⟨?_, ?_⟩
    · rintro ⟨hre, hor⟩
      rw [if_pos ⟨hre, hor.imp_left hown.mpr⟩]
    · intro hnot
      have h2 : ¬ ((in_no_restart_refs = false ∧ allow_restart = true)
          ∧ (only_own_tokens getLastTokenTime now starttoken r.starttokens = true
            ∨ now - r.starttime > 3300)) := by
        rintro ⟨hre, hor⟩
        exact hnot ⟨hre, hor.imp_left hown.mp⟩
      rw [if_neg h2, attachToken_eq]
      exact ⟨_, rfl⟩

/-- C14, the amended statement applied to a young snapshot of `/` held by the
start token `b`, for a request under the start token `a`. -/
theorem find_existing_candidate_outcome_witness :
    (snapRef 0 ["b"]).target = "/" ∧ (snapRef 0 ["b"]).ok = true ∧
    (snapRef 0 ["b"]).clientsubname = "" ∧ (fun _ => true) (snapRef 0 ["b"]).volpath = true ∧
    (
(false = true
        ∧ ¬ (∀ t ∈ (snapRef 0 ["b"]).starttokens, t = "a" ∨ token_timeout (fun _ => 0) 10 t = true) →
      find_existing_candidate (fun _ => 0) (fun _ => true) 10 "a" "" "/"
          false true false false
          false true false (snapRef 0 ["b"])
        = CandidateOutcome.skipped) ∧
    (¬ (false = true
        ∧ ¬ (∀ t ∈ (snapRef 0 ["b"]).starttokens, t = "a" ∨ token_timeout (fun _ => 0) 10 t = true)) →
      ((false = false ∧ true = true)
          ∧ ((∀ t ∈ (snapRef 0 ["b"]).starttokens, t = "a" ∨ token_timeout (fun _ => 0) 10 t = true)
            ∨ 10 - (snapRef 0 ["b"]).starttime > 3300) →
        find_existing_candidate (fun _ => 0) (fun _ => true) 10 "a" "" "/"
            false true false false
            false true false (snapRef 0 ["b"])
          = if (snapRef 0 ["b"]).for_imagebackup = false ∨ false = false then
              CandidateOutcome.released
            else CandidateOutcome.skipped) ∧
      (¬ ((false = false ∧ true = true)
          ∧ ((∀ t ∈ (snapRef 0 ["b"]).starttokens, t = "a" ∨ token_timeout (fun _ => 0) 10 t = true)
            ∨ 10 - (snapRef 0 ["b"]).starttime > 3300)) →
        ∃ stale,
          find_existing_candidate (fun _ => 0) (fun _ => true) 10 "a" ""
              "/" false true false false
              false true false (snapRef 0 ["b"])
            = CandidateOutcome.attached
                { (snapRef 0 ["b"]) with
                  starttokens :=
                    if (snapRef 0 ["b"]).dontincrement then (snapRef 0 ["b"]).starttokens else (snapRef 0 ["b"]).starttokens ++ ["a"]
                  dontincrement := false }
                true stale))) :=
  ⟨rfl, rfl, rfl, rfl,
    find_existing_candidate_outcome (fun _ => 0) (fun _ => true) 10 "a" "" "/" false true false
      false false true false (snapRef 0 ["b"]) rfl rfl rfl rfl⟩

/-! ## C15: the replies to a file backup request -/

theorem replyAfterIndex_post (stopped : Str) (post : Int) (stop_index index_error : Bool)
    (h : post ≠ 0) :
    replyAfterIndex stopped post stop_index index_error
      = "error - postfileindex script failed with error code ".toList ++ decimal post := by
  unfold replyAfterIndex
  rw [if_pos h]

theorem replyAfterIndex_done (stopped : Str) (post : Int) (stop_index index_error : Bool)
    (hs : stopped.head? = some 'e')
    (h : replyAfterIndex stopped post stop_index index_error = "done".toList) :
    post = 0 ∧ stop_index = false ∧ index_error = false := by
  unfold replyAfterIndex at h
  by_cases hp : post ≠ 0
  · rw [if_pos hp] at h
    have := congrArg List.head? h
    simp at this
  · rw [if_neg hp] at h
    cases stop_index with
    | true =>
      simp only [if_true] at h
      rw [h] at hs
      simp at hs
    | false =>
      cases index_error with
      | true =>
        simp only [Bool.false_eq_true, if_false, if_true] at h
        have := congrArg List.head? h
        simp at this
      | false => exact ⟨by simpa using hp, rfl, rfl⟩


theorem getLast?_append_one (l : List Str) (a : Str) : (l ++ [a]).getLast? = some a := by
  simp

/-- C15. For every `StartFullFileBackup` or `StartIncrFileBackup` message handled
with a backup directory or a script configured, the pre-backup hook is run; if it
returns `N ≠ 0`, `indexDirs` is not invoked and the reply is exactly `error -
prefilebackup script failed with error code N`; if the post-index hook is run and
returns `N ≠ 0`, the reply is exactly `error - postfileindex script failed with
error code N`; and the reply is `done` only when both hooks were run and returned
0, `stop_index` is false and `index_error` is false. The reply is the last
message written; a `phash` message precedes it when the request carries a ticket
for parallel hashing. -/
theorem handleFileBackup_replies (rq : BackupRequest)
    (h : rq.has_dirs = true ∨ rq.has_scripts = true) :
    (∃ N, (handleFileBackup rq).pre_hook = some N) ∧
    (∀ N, (handleFileBackup rq).pre_hook = some N → N ≠ 0 →
      (handleFileBackup rq).indexDirs_called = none ∧
      (handleFileBackup rq).writes
        = phashReply rq
          ++ ["error - prefilebackup script failed with error code ".toList ++ decimal N]) ∧
    (∀ N, (handleFileBackup rq).post_hook = some N → N ≠ 0 →
      (handleFileBackup rq).writes
        = phashReply rq
          ++ ["error - postfileindex script failed with error code ".toList ++ decimal N]) ∧
    ((handleFileBackup rq).writes.getLast? = some "done".toList →
      (handleFileBackup rq).pre_hook = some 0 ∧ (handleFileBackup rq).post_hook = some 0 ∧
      (handleFileBackup rq).indexDirs_called.isSome = true ∧
      rq.stop_index_after = false ∧ rq.index_error_after = false) := by
  have hnd : (!rq.has_dirs && !rq.has_scripts) = false := by
    rcases h with h | h <;> simp [h]
  unfold handleFileBackup phashReply
  simp only [hnd, Bool.false_eq_true, if_false]
  split
  · split
    · rename_i hpre
      refine ⟨⟨_, rfl⟩, ?_, ?_, ?_⟩
      · intro N hN _
        simp only [Option.some.injEq] at hN
        rw [hN]
        exact ⟨rfl, rfl⟩
      · intro N hN
        cases hN
      · intro hd
        rw [getLast?_append_one] at hd
        have := congrArg (Option.map List.head?) hd
        simp at this
    · rename_i hpre
      have hpre0 : rq.prebackup_hook true = 0 := by simpa using hpre
      split
      · refine ⟨⟨_, rfl⟩, ?_, ?_, ?_⟩
        · intro N hN hne
          simp only [Option.some.injEq] at hN
          exact absurd (hN ▸ hpre0) hne
        · intro N hN hne
          simp only [Option.some.injEq] at hN
          rw [← hN] at hne
          rw [replyAfterIndex_post _ _ _ _ hne, hN]
        · intro hd
          rw [getLast?_append_one] at hd
          simp only [Option.some.injEq] at hd
          obtain ⟨h1, h2, h3⟩ := replyAfterIndex_done _ _ _ _ (by decide) hd
          exact ⟨by rw [hpre0], by rw [h1], rfl, h2, h3⟩
      · refine ⟨⟨_, rfl⟩, ?_, ?_, ?_⟩
        · intro N hN hne
          simp only [Option.some.injEq] at hN
          exact absurd (hN ▸ hpre0) hne
        · intro N hN
          cases hN
        · intro hd
          rw [getLast?_append_one] at hd
          have := congrArg (Option.map List.head?) hd
          simp at this
  · split
    · refine ⟨⟨_, rfl⟩, ?_, ?_, ?_⟩
      · intro N hN _
        simp only [Option.some.injEq] at hN
        rw [hN]
        exact ⟨rfl, rfl⟩
      · intro N hN
        cases hN
      · intro hd
        rw [getLast?_append_one] at hd
        have := congrArg (Option.map List.head?) hd
        simp at this
    · rename_i hpre
      have hpre0 : rq.prebackup_hook false = 0 := by simpa using hpre
      refine ⟨⟨_, rfl⟩, ?_, ?_, ?_⟩
      · intro N hN hne
        simp only [Option.some.injEq] at hN
        exact absurd (hN ▸ hpre0) hne
      · intro N hN hne
        simp only [Option.some.injEq] at hN
        rw [← hN] at hne
        rw [replyAfterIndex_post _ _ _ _ hne, hN]
      · intro hd
        rw [getLast?_append_one] at hd
        simp only [Option.some.injEq] at hd
        obtain ⟨h1, h2, h3⟩ := replyAfterIndex_done _ _ _ _ (by decide) hd
        exact ⟨by rw [hpre0], by rw [h1], rfl, h2, h3⟩

/-- C15, applied to an incremental backup whose pre-backup hook returns 3. -/
theorem handleFileBackup_replies_witness :
    ((incrRequest 3 0).has_dirs = true ∨ (incrRequest 3 0).has_scripts = true) ∧
    ((∃ N, (handleFileBackup (incrRequest 3 0)).pre_hook = some N) ∧
    (∀ N, (handleFileBackup (incrRequest 3 0)).pre_hook = some N → N ≠ 0 →
      (handleFileBackup (incrRequest 3 0)).indexDirs_called = none ∧
      (handleFileBackup (incrRequest 3 0)).writes
        = phashReply (incrRequest 3 0)
          ++ ["error - prefilebackup script failed with error code ".toList ++ decimal N]) ∧
    (∀ N, (handleFileBackup (incrRequest 3 0)).post_hook = some N → N ≠ 0 →
      (handleFileBackup (incrRequest 3 0)).writes
        = phashReply (incrRequest 3 0)
          ++ ["error - postfileindex script failed with error code ".toList ++ decimal N]) ∧
    ((handleFileBackup (incrRequest 3 0)).writes.getLast? = some "done".toList →
      (handleFileBackup (incrRequest 3 0)).pre_hook = some 0 ∧
      (handleFileBackup (incrRequest 3 0)).post_hook = some 0 ∧
      (handleFileBackup (incrRequest 3 0)).indexDirs_called.isSome = true ∧
      (incrRequest 3 0).stop_index_after = false ∧
      (incrRequest 3 0).index_error_after = false)) :=
  ⟨Or.inl rfl, handleFileBackup_replies (incrRequest 3 0) (Or.inl rfl)⟩


/-! ## C16: when the buffers are committed -/

theorem modifyFilesInt_commit_iff (sz : TypeSizes) (now : Int) (path : Str) (tgroup : Int)
    (data : List SFileAndHash) (target_generation : Int) (st : FileBuffers)
    (htime : st.last_file_buffer_commit_time = 0
      ∨ now - st.last_file_buffer_commit_time < 120000) :
    ((modifyFilesInt sz now path tgroup data target_generation st).modify_file_buffer = []
        ∧ (modifyFilesInt sz now path tgroup data target_generation st).add_file_buffer = [])
      ↔ st.modify_file_buffer_size + st.add_file_buffer_size + calcBufferSize sz path data
          > 4 * 1024 * 1024 := by
  have hi : file_buffer_commit_interval = 120000 := by decide
  have hm : max_file_buffer_size = 4 * 1024 * 1024 := by decide
  unfold modifyFilesInt
  simp only [hi, hm]
  by_cases h0 : st.last_file_buffer_commit_time = 0
  · simp only [h0, if_true, Int.sub_self]
    by_cases hsz : st.modify_file_buffer_size + calcBufferSize sz path data
        + st.add_file_buffer_size > 4 * 1024 * 1024
    · rw [if_pos (Or.inl hsz)]
      simp only [commitAddFilesBuffer, commitModifyFilesBuffer, and_self, true_iff]
      omega
    · rw [if_neg (by rintro (h | h) <;> omega)]
      simp only [List.append_eq_nil, List.cons_ne_self, and_false, false_and, false_iff]
      omega
  · have ht : now - st.last_file_buffer_commit_time < 120000 := htime.resolve_left h0
    simp only [h0, if_false]
    by_cases hsz : st.modify_file_buffer_size + calcBufferSize sz path data
        + st.add_file_buffer_size > 4 * 1024 * 1024
    · rw [if_pos (Or.inl hsz)]
      simp only [commitAddFilesBuffer, commitModifyFilesBuffer, and_self, true_iff]
      omega
    · rw [if_neg (by rintro (h | h) <;> omega)]
      simp only [List.append_eq_nil, List.cons_ne_self, and_false, false_and, false_iff]
      omega

/-- C16, the behaviour of `addFilesInt`. For every call of `addFilesInt` made
less than 120 seconds after the last commit, the two buffers are committed
(emptied) during the call if and only if twice the byte size of the add buffer,
including the new item as sized by `calcBufferSize`, exceeds 4 MiB: the size of
the modify buffer does not enter the test. -/
theorem addFilesInt_commit_iff (sz : TypeSizes) (now : Int) (path : Str) (tgroup : Int)
    (data : List SFileAndHash) (st : FileBuffers)
    (htime : st.last_file_buffer_commit_time = 0
      ∨ now - st.last_file_buffer_commit_time < 120000) :
    ((addFilesInt sz now path tgroup data st).modify_file_buffer = []
        ∧ (addFilesInt sz now path tgroup data st).add_file_buffer = [])
      ↔ 2 * (st.add_file_buffer_size + calcBufferSize sz path data) > 4 * 1024 * 1024 := by
  have hi : file_buffer_commit_interval = 120000 := by decide
  have hm : max_file_buffer_size = 4 * 1024 * 1024 := by decide
  unfold addFilesInt
  simp only [hi, hm]
  by_cases h0 : st.last_file_buffer_commit_time = 0
  · simp only [h0, if_true, Int.sub_self]
    by_cases hsz : st.add_file_buffer_size + calcBufferSize sz path data
        + (st.add_file_buffer_size + calcBufferSize sz path data) > 4 * 1024 * 1024
    · rw [if_pos (Or.inl hsz)]
      simp only [commitAddFilesBuffer, commitModifyFilesBuffer, and_self, true_iff]
      omega
    · rw [if_neg (by rintro (h | h) <;> omega)]
      simp only [List.append_eq_nil, List.cons_ne_self, and_false, false_iff]
      omega
  · have ht : now - st.last_file_buffer_commit_time < 120000 := htime.resolve_left h0
    simp only [h0, if_false]
    by_cases hsz : st.add_file_buffer_size + calcBufferSize sz path data
        + (st.add_file_buffer_size + calcBufferSize sz path data) > 4 * 1024 * 1024
    · rw [if_pos (Or.inl hsz)]
      simp only [commitAddFilesBuffer, commitModifyFilesBuffer, and_self, true_iff]
      omega
    · rw [if_neg (by rintro (h | h) <;> omega)]
      simp only [List.append_eq_nil, List.cons_ne_self, and_false, false_iff]
      omega

/-- C16, applied at the failing inputs. With an empty modify buffer and 2500000
bytes counted in the add buffer, `addFilesInt` of an empty directory `/d` one
second after the last commit commits although the two buffers together hold less
than 4 MiB; with 3500000 bytes in the modify buffer and 1000000 bytes in the add
buffer the same call does not commit although together they hold more. -/
theorem addFilesInt_commit_iff_witness :
    ((buffersAt 0 2500000).last_file_buffer_commit_time = 0
      ∨ 2000 - (buffersAt 0 2500000).last_file_buffer_commit_time < 120000) ∧
    (((addFilesInt sizes64 2000 ['/', 'd'] 0 [] (buffersAt 0 2500000)).modify_file_buffer = []
        ∧ (addFilesInt sizes64 2000 ['/', 'd'] 0 [] (buffersAt 0 2500000)).add_file_buffer = [])
      ↔ 2 * ((buffersAt 0 2500000).add_file_buffer_size + calcBufferSize sizes64 ['/', 'd'] [])
          > 4 * 1024 * 1024) ∧
    (addFilesInt sizes64 2000 ['/', 'd'] 0 [] (buffersAt 0 2500000)).add_file_buffer = [] ∧
    (buffersAt 0 2500000).modify_file_buffer_size + (buffersAt 0 2500000).add_file_buffer_size
        + calcBufferSize sizes64 ['/', 'd'] [] ≤ 4 * 1024 * 1024 ∧
    (addFilesInt sizes64 2000 ['/', 'd'] 0 [] (buffersAt 3500000 1000000)).add_file_buffer ≠ [] ∧
    (buffersAt 3500000 1000000).modify_file_buffer_size
        + (buffersAt 3500000 1000000).add_file_buffer_size
        + calcBufferSize sizes64 ['/', 'd'] [] > 4 * 1024 * 1024 :=
  ⟨Or.inr (by decide),
    addFilesInt_commit_iff sizes64 2000 ['/', 'd'] 0 [] (buffersAt 0 2500000) (Or.inr (by decide)),
    by decide, by decide, by decide, by decide⟩


/-! ## C17: `escapeListName` -/

theorem escapeListName_foldl (name acc : Str) :
    name.foldl
        (fun ret c =>
          if c = '"' then ret ++ ['\\', '"']
          else if c = '\\' then ret ++ ['\\', '\\']
          else ret ++ [c])
        acc
      = acc ++ escapedName name := by
  induction name generalizing acc with
  | nil => simp [escapedName]
  | cons c cs ih =>
    rw [List.foldl_cons, ih]
    unfold escapedName escapedChar
    by_cases h1 : c = '"'
    · simp [h1]
    · by_cases h2 : c = '\\'
      · simp [h2]
      · simp [h1, h2]

theorem escapeListName_eq_escapedName (name : Str) : escapeListName name = escapedName name := by
  unfold escapeListName
  rw [escapeListName_foldl]
  rfl

theorem escapedName_cons (c : Char) (cs : Str) :
    escapedName (c :: cs) = escapedChar c ++ escapedName cs := by
  simp [escapedName]

theorem unescape_escapedName (name : Str) : unescapeListName (escapedName name) = name := by
  induction name with
  | nil => rfl
  | cons c cs ih =>
    rw [escapedName_cons]
    unfold escapedChar
    by_cases h1 : c = '"'
    · simp only [h1, if_true, List.cons_append, List.nil_append]
      rw [unescapeListName, if_pos rfl, ih]
    · by_cases h2 : c = '\\'
      · have hq : ¬ ('\\' : Char) = '"' := by decide
        simp only [h2, hq, if_true, if_false, List.cons_append, List.nil_append]
        rw [unescapeListName, if_pos rfl, ih]
      · simp only [h1, h2, if_false, List.cons_append, List.nil_append]
        cases he : escapedName cs with
        | nil =>
          rw [he] at ih
          rw [← ih]
          rfl
        | cons d rest =>
          rw [unescapeListName, if_neg h2, ← he, ih]


theorem quotesEscaped_escapedName (name : Str) : quotesEscaped (escapedName name) = true := by
  induction name with
  | nil => rfl
  | cons c cs ih =>
    rw [escapedName_cons]
    unfold escapedChar
    by_cases h1 : c = '"'
    · simp only [h1, if_true, List.cons_append, List.nil_append]
      rw [quotesEscaped, if_pos rfl, ih]
    · by_cases h2 : c = '\\'
      · have hq : ¬ ('\\' : Char) = '"' := by decide
        simp only [h2, hq, if_true, if_false, List.cons_append, List.nil_append]
        rw [quotesEscaped, if_pos rfl, ih]
      · simp only [h1, h2, if_false, List.cons_append, List.nil_append]
        cases he : escapedName cs with
        | nil =>
          rw [quotesEscaped]
          simpa using h1
        | cons d rest =>
          rw [quotesEscaped, if_neg h2, ← he, ih]
          simpa using h1

/-- C17. For every name, `escapeListName(name)` is the string obtained by
replacing each double quote with backslash-quote and each backslash with two
backslashes, leaving every other character unchanged and in order; the function
is injective (the name is read back from its escape), and in its output no
double quote is bare: each one is the character escaped by a backslash. -/
theorem escapeListName_escapes :
    (∀ name, escapeListName name = name.flatMap escapedChar) ∧
    Function.Injective escapeListName ∧
    (∀ name, unescapeListName (escapeListName name) = name) ∧
    (∀ name, quotesEscaped (escapeListName name) = true) := by
  refine ⟨escapeListName_eq_escapedName, ?_, ?_, ?_⟩
  · intro a b hab
    have := congrArg unescapeListName hab
    rwa [escapeListName_eq_escapedName, escapeListName_eq_escapedName, unescape_escapedName,
      unescape_escapedName] at this
  · intro name
    rw [escapeListName_eq_escapedName, unescape_escapedName]
  · intro name
    rw [escapeListName_eq_escapedName]
    exact quotesEscaped_escapedName name


/-! ## C18: the file pass zeroes the slots of set bits and the slot before a run -/

theorem zeroFileBit_spec (slot ch : Nat) (st : FilePass) (bit : Nat) (prev : Bool)
    (hinv : FilePassInv slot st (st.curr_byte * 8 + bit) prev) :
    (zeroFileBit slot ch st bit).curr_byte = st.curr_byte ∧
    FilePassInv slot (zeroFileBit slot ch st bit) (st.curr_byte * 8 + bit + 1) (ch.testBit bit) ∧
    (∀ o m, AllZero st.file o m → AllZero (zeroFileBit slot ch st bit).file o m) ∧
    (ch.testBit bit = true →
      AllZero (zeroFileBit slot ch st bit).file ((st.curr_byte * 8 + bit) * slot) slot ∧
      (prev = false → 0 < st.curr_byte * 8 + bit →
        AllZero (zeroFileBit slot ch st bit).file ((st.curr_byte * 8 + bit - 1) * slot) slot)) := by
  have hbit : decide ((ch &&& (1 <<< bit)) > 0) = ch.testBit bit := by
    cases ht : ch.testBit bit with
    | true => exact decide_eq_true ((land_shift_pos_iff ch bit).mpr ht)
    | false =>
      apply decide_eq_false
      intro h
      rw [(land_shift_pos_iff ch bit).mp h] at ht
      cases ht
  obtain ⟨hi1, hi2⟩ := hinv
  unfold zeroFileBit
  simp only [hbit]
  by_cases hw : (ch.testBit bit || st.last_bit_set) = true
  · simp only [hw, if_true]
    refine ⟨trivial, ⟨fun h => h, fun _ => ⟨by omega, ?_⟩⟩, ?_, ?_⟩
    · have e : st.curr_byte * 8 + bit + 1 - 1 = st.curr_byte * 8 + bit := by omega
      rw [e]
      exact allZero_writeAt_self _ _ _
    · intro o m h
      apply allZero_writeAt_zeros
      split
      · split
        · exact allZero_writeAt_zeros _ _ _ _ _ h
        · exact h
      · exact h
    · intro _
      refine ⟨allZero_writeAt_self _ _ _, ?_⟩
      intro hprev hpos
      apply allZero_writeAt_zeros
      have hlb : st.last_bit_set = false := by
        cases hb : st.last_bit_set with
        | false => rfl
        | true =>
          rw [hi1 hb] at hprev
          cases hprev
      cases hz : st.last_zeroed with
      | false =>
        simp only [hlb, hz, Bool.not_false, Bool.and_self, if_true, hpos]
        exact allZero_writeAt_self _ _ _
      | true =>
        simp only [hlb, hz, Bool.not_false, Bool.not_true, Bool.and_false, Bool.false_eq_true,
          if_false]
        exact (hi2 hz).2
  · have hw2 : (ch.testBit bit || st.last_bit_set) = false := by simpa using hw
    simp only [hw2, Bool.false_eq_true, if_false]
    have ht : ch.testBit bit = false := by
      cases h : ch.testBit bit with
      | false => rfl
      | true => simp [h] at hw2
    refine ⟨trivial, ⟨fun h => h, fun h => by cases h⟩, fun _ _ h => h, ?_⟩
    intro h
    rw [ht] at h
    cases h

theorem foldl_zeroFileBit_spec (slot ch : Nat) (n : Nat) :
    ∀ (b0 : Nat) (st : FilePass) (prev : Bool),
      FilePassInv slot st (st.curr_byte * 8 + b0) prev →
      ((List.range' b0 n).foldl (zeroFileBit slot ch) st).curr_byte = st.curr_byte ∧
      FilePassInv slot ((List.range' b0 n).foldl (zeroFileBit slot ch) st)
        (st.curr_byte * 8 + b0 + n) (if n = 0 then prev else ch.testBit (b0 + n - 1)) ∧
      (∀ o m, AllZero st.file o m →
        AllZero ((List.range' b0 n).foldl (zeroFileBit slot ch) st).file o m) ∧
      ∀ b, b0 ≤ b → b < b0 + n → ch.testBit b = true →
        AllZero ((List.range' b0 n).foldl (zeroFileBit slot ch) st).file
            ((st.curr_byte * 8 + b) * slot) slot ∧
        ((if b = b0 then prev else ch.testBit (b - 1)) = false → 0 < st.curr_byte * 8 + b →
          AllZero ((List.range' b0 n).foldl (zeroFileBit slot ch) st).file
            ((st.curr_byte * 8 + b - 1) * slot) slot) := by
  induction n with
  | zero =>
    intro b0 st prev hinv
    refine ⟨rfl, by simpa using hinv, fun _ _ h => h, ?_⟩
    intro b h1 h2
    omega
  | succ n ih =>
    intro b0 st prev hinv
    obtain ⟨s1, s2, s3, s4⟩ := zeroFileBit_spec slot ch st b0 prev hinv
    have hinv1 : FilePassInv slot (zeroFileBit slot ch st b0)
        ((zeroFileBit slot ch st b0).curr_byte * 8 + (b0 + 1)) (ch.testBit b0) := by
      rw [s1]
      exact s2
    obtain ⟨i1, i2, i3, i4⟩ := ih (b0 + 1) (zeroFileBit slot ch st b0) (ch.testBit b0) hinv1
    rw [s1] at i1 i2 i4
    rw [List.range'_succ, List.foldl_cons]
    refine ⟨i1, ?_, fun o m h => i3 o m (s3 o m h), ?_⟩
    · have e : st.curr_byte * 8 + (b0 + 1) + n = st.curr_byte * 8 + b0 + (n + 1) := by omega
      rw [e] at i2
      by_cases hn : n = 0
      · subst hn
        simpa using i2
      · have e2 : b0 + 1 + n - 1 = b0 + (n + 1) - 1 := by omega
        simpa [hn, e2] using i2
    · intro b h1 h2 hb
      by_cases hb0 : b = b0
      · subst hb0
        obtain ⟨t1, t2⟩ := s4 hb
        refine ⟨i3 _ _ t1, ?_⟩
        intro hp hpos
        simp only [if_true] at hp
        exact i3 _ _ (t2 hp hpos)
      · obtain ⟨t1, t2⟩ := i4 b (by omega) (by omega) hb
        refine ⟨t1, ?_⟩
        intro hp hpos
        simp only [hb0, if_false] at hp
        apply t2 _ hpos
        by_cases hb1 : b = b0 + 1
        · subst hb1
          simpa using hp
        · simpa [hb1] using hp


theorem zeroFileByte_spec (slot : Nat) (st : FilePass) (ch : Nat) (prev : Bool)
    (hinv : FilePassInv slot st (st.curr_byte * 8) prev) :
    (zeroFileByte slot st ch).curr_byte = st.curr_byte + 1 ∧
    FilePassInv slot (zeroFileByte slot st ch) ((st.curr_byte + 1) * 8) (ch.testBit 7) ∧
    (∀ o m, AllZero st.file o m → AllZero (zeroFileByte slot st ch).file o m) ∧
    ∀ b, b < 8 → ch.testBit b = true →
      AllZero (zeroFileByte slot st ch).file ((st.curr_byte * 8 + b) * slot) slot ∧
      ((if b = 0 then prev else ch.testBit (b - 1)) = false → 0 < st.curr_byte * 8 + b →
        AllZero (zeroFileByte slot st ch).file ((st.curr_byte * 8 + b - 1) * slot) slot) := by
  unfold zeroFileByte
  by_cases hch : ch = 0
  · subst hch
    simp only [if_true]
    refine ⟨trivial, ⟨fun h => (by cases h), fun h => (by cases h)⟩, ?_, ?_⟩
    · intro o m h
      split
      · exact allZero_writeAt_zeros _ _ _ _ _ h
      · exact h
    · intro b _ hb
      simp at hb
  · simp only [hch, if_false]
    have h8 : List.range 8 = List.range' 0 8 := by decide
    rw [h8]
    obtain ⟨i1, i2, i3, i4⟩ := foldl_zeroFileBit_spec slot ch 8 0 st prev (by simpa using hinv)
    refine ⟨by rw [i1], ?_, i3, ?_⟩
    · have e : st.curr_byte * 8 + 0 + 8 = (st.curr_byte + 1) * 8 := by omega
      rw [e] at i2
      exact ⟨i2.1, i2.2⟩
    · intro b hb ht
      exact i4 b (by omega) (by omega) ht

theorem bitAt_cons_lt (x : Nat) (xs : List Nat) (q : Nat) (hq : q < 8) :
    bitAt (x :: xs) q = x.testBit q := by
  unfold bitAt
  rw [Nat.div_eq_of_lt hq, Nat.mod_eq_of_lt hq]
  rfl

theorem bitAt_cons_ge (x : Nat) (xs : List Nat) (q : Nat) (hq : 8 ≤ q) :
    bitAt (x :: xs) q = bitAt xs (q - 8) := by
  unfold bitAt
  have h1 : q / 8 = (q - 8) / 8 + 1 := by omega
  have h2 : q % 8 = (q - 8) % 8 := by omega
  rw [h1, h2]
  rfl

theorem foldl_zeroFileByte_spec (slot : Nat) (bs : List Nat) :
    ∀ (st : FilePass) (prev : Bool), FilePassInv slot st (st.curr_byte * 8) prev →
      (∀ o m, AllZero st.file o m → AllZero (bs.foldl (zeroFileByte slot) st).file o m) ∧
      ∀ q, q < bs.length * 8 → bitAt bs q = true →
        AllZero (bs.foldl (zeroFileByte slot) st).file ((st.curr_byte * 8 + q) * slot) slot ∧
        ((if q = 0 then prev else bitAt bs (q - 1)) = false → 0 < st.curr_byte * 8 + q →
          AllZero (bs.foldl (zeroFileByte slot) st).file
            ((st.curr_byte * 8 + q - 1) * slot) slot) := by
  induction bs with
  | nil =>
    intro st prev _
    refine ⟨fun _ _ h => h, ?_⟩
    intro q hq
    simp at hq
  | cons x xs ih =>
    intro st prev hinv
    obtain ⟨b1, b2, b3, b4⟩ := zeroFileByte_spec slot st x prev hinv
    have hinv1 : FilePassInv slot (zeroFileByte slot st x)
        ((zeroFileByte slot st x).curr_byte * 8) (x.testBit 7) := by
      rw [b1]
      exact b2
    obtain ⟨i1, i2⟩ := ih (zeroFileByte slot st x) (x.testBit 7) hinv1
    rw [b1] at i2
    rw [List.foldl_cons]
    refine ⟨fun o m h => i1 o m (b3 o m h), ?_⟩
    intro q hq hset
    by_cases h8 : q < 8
    · rw [bitAt_cons_lt x xs q h8] at hset
      obtain ⟨t1, t2⟩ := b4 q h8 hset
      refine ⟨i1 _ _ t1, ?_⟩
      intro hp hpos
      apply i1
      apply t2 _ hpos
      by_cases hq0 : q = 0
      · simpa [hq0] using hp
      · rw [if_neg hq0] at hp
        rw [if_neg hq0, ← bitAt_cons_lt x xs (q - 1) (by omega)]
        exact hp
    · have hge : 8 ≤ q := by omega
      rw [bitAt_cons_ge x xs q hge] at hset
      have hlen : q - 8 < xs.length * 8 := by
        rw [List.length_cons] at hq
        omega
      obtain ⟨t1, t2⟩ := i2 (q - 8) hlen hset
      have e1 : (st.curr_byte + 1) * 8 + (q - 8) = st.curr_byte * 8 + q := by omega
      rw [e1] at t1 t2
      refine ⟨t1, ?_⟩
      intro hp hpos
      apply t2 _ hpos
      have hq0 : ¬ q = 0 := by omega
      rw [if_neg hq0] at hp
      by_cases hq8 : q = 8
      · subst hq8
        rw [bitAt_cons_lt x xs 7 (by omega)] at hp
        simpa using hp
      · have hne : ¬ q - 8 = 0 := by omega
        rw [if_neg hne]
        rw [bitAt_cons_ge x xs (q - 1) (by omega)] at hp
        have e2 : q - 1 - 8 = q - 8 - 1 := by omega
        rw [e2] at hp
        exact hp

theorem zeroFileHashes_eq_foldl (slot : Nat) (bm : URBCT_BITMAP_DATA) (f : List Nat) :
    zeroFileHashes slot bm f
      = ((payloadBytes bm).foldl (zeroFileByte slot)
          { curr_byte := 0, last_bit_set := false, last_zeroed := false, file := f }).file := by
  unfold zeroFileHashes payloadBytes sectorStarts
  rw [sector_loops_eq_foldl]

theorem length_payloadBytes (bm : URBCT_BITMAP_DATA) :
    (payloadBytes bm).length
      = (bm.BitmapSize + bm.SectorSize - 1) / bm.SectorSize
        * (bm.SectorSize - URBT_MAGIC_SIZE) := by
  unfold payloadBytes
  rw [List.length_map, List.length_range]

theorem bitAt_payloadBytes (bm : URBCT_BITMAP_DATA) (k : Nat)
    (hk : k / 8 < (payloadBytes bm).length) : bitAt (payloadBytes bm) k = blockBit bm k := by
  unfold bitAt blockBit
  rw [payloadBytes_getD bm (k / 8) (by rw [← length_payloadBytes]; exact hk)]

theorem zeroFileHashes_zeroes (slot : Nat) (bm : URBCT_BITMAP_DATA) (f : List Nat) (k : Nat)
    (hk : k / 8 < (payloadBytes bm).length) (hset : blockBit bm k = true) :
    AllZero (zeroFileHashes slot bm f) (k * slot) slot ∧
      (0 < k → blockBit bm (k - 1) = false →
        AllZero (zeroFileHashes slot bm f) ((k - 1) * slot) slot) := by
  rw [zeroFileHashes_eq_foldl]
  obtain ⟨_, h2⟩ := foldl_zeroFileByte_spec slot (payloadBytes bm)
    { curr_byte := 0, last_bit_set := false, last_zeroed := false, file := f } false
    ⟨fun h => (by cases h), fun h => (by cases h)⟩
  obtain ⟨t1, t2⟩ := h2 k (by omega) (by rw [bitAt_payloadBytes bm k hk]; exact hset)
  simp only [Nat.zero_mul, Nat.zero_add] at t1 t2
  refine ⟨t1, ?_⟩
  intro hpos hprev
  apply t2 _ hpos
  have hk0 : ¬ k = 0 := by omega
  rw [if_neg hk0, bitAt_payloadBytes bm (k - 1) (by omega)]
  exact hprev


/-- C18. After a successful `finishCbt(..., for_image_backup = false)`, for every
block `k` of the merged bitmap (the volume bitmap with the snapshot bitmap and
the stored `hdat_file_<vol>.cbt` merged in) whose bit is set, the slot `k` of the
file-hash sidecar (the `sizeof(_u16) + chunkhash_single_size` bytes at offset
`k * slot_size`) is all zero, and when `k > 0` and the bit of block `k - 1` is
clear (a run of set bits starts at `k`), the slot `k - 1` is all zero as well. -/
theorem finishCbt_file_zeroes_slots (md5 : List Nat → List Nat) (c : Nat)
    (bm : URBCT_BITMAP_DATA) (snap : Option URBCT_BITMAP_DATA) (shadow_id : Int)
    (fs fs1 : CbtFiles)
    (h : finishCbt md5 c bm snap shadow_id false fs = some (true, fs1)) :
    ∃ merged, mergedBitmap md5 bm snap fs.hdat_file_cbt = some merged ∧
      ∀ k, k / 8 < (payloadBytes merged).length → blockBit merged k = true →
        AllZero fs1.hdat_file (k * (2 + c)) (2 + c) ∧
        (0 < k → blockBit merged (k - 1) = false →
          AllZero fs1.hdat_file ((k - 1) * (2 + c)) (2 + c)) := by
  obtain ⟨_, v, merged, hv, _, hread, _, hfile⟩ :=
    finishCbt_file_true md5 c bm snap shadow_id fs fs1 h
  refine ⟨merged, ?_, ?_⟩
  · unfold mergedBitmap
    rw [hv]
    simp only [hread]
  · intro k hk hset
    rw [hfile]
    exact zeroFileHashes_zeroes (2 + c) merged _ k hk hset

/-- C18, applied to a file backup of the one-sector bitmap (blocks 0 and 17 set)
with no stored bitmap and a sidecar of 80 bytes `0xff`. -/
theorem finishCbt_file_zeroes_slots_witness :
    finishCbt zeroDigest 2 tinyBitmap none (-1) false filledSidecar
      = some (true,
          { hdat_file_cbt := none
            hdat_img_cbt := some (cbtFileOf zeroDigest tinyBitmap)
            hdat_img := []
            hdat_file := filledSidecarAfter }) ∧
    ∃ merged, mergedBitmap zeroDigest tinyBitmap none filledSidecar.hdat_file_cbt = some merged ∧
      ∀ k, k / 8 < (payloadBytes merged).length → blockBit merged k = true →
        AllZero filledSidecarAfter (k * (2 + 2)) (2 + 2) ∧
        (0 < k → blockBit merged (k - 1) = false →
          AllZero filledSidecarAfter ((k - 1) * (2 + 2)) (2 + 2)) :=
  ⟨by decide,
    finishCbt_file_zeroes_slots zeroDigest 2 tinyBitmap none (-1) filledSidecar
      { hdat_file_cbt := none
        hdat_img_cbt := some (cbtFileOf zeroDigest tinyBitmap)
        hdat_img := []
        hdat_file := filledSidecarAfter }
      (by decide)⟩

/-! ## C19: `file_id` after a directory has been rolled back -/

/-- C19, evaluated at the failing input. The root `/r` holds the empty directory
`p` and the directory `q` with the file `f`; the include setting is `/r/q/*`.
The walk enters `p`, which is not included but could hold included entries,
finds nothing and rolls its two lines back with `outfile.seekp(pos)`; `file_id`
keeps counting them. The file `f` is then queued for hashing with `file_id` 4,
although its entry is line 2 of the final list, and at the end `file_id` is 7
while the list has 5 lines. -/
theorem indexDirs_file_id_after_rollback :
    parseIncludePatterns 1 ['/', 'r', '/', 'q', '/', '*'] = some includeQ ∧
    ∃ st, indexDirs treeR phashSettings (fun _ => 0) 5 false 0 [rootR] [] none [] includeQ
        = some st ∧
      st.outfile = ["d\"r\"".toList, "d\"q\"".toList, "f\"f\" 10 100".toList, "d\"..\"".toList,
          "d\"..\"".toList] ∧
      st.phash_queue = [PhashMsg.set_curr_dirs ['/', 'r', '/', 'q'] ['/', 'r', '/', 'q'],
          PhashMsg.hash_file 4 ['f'], PhashMsg.finish_curr_dir 0] ∧
      st.outfile[2]? = some "f\"f\" 10 100".toList ∧
      st.file_id = 7 ∧ st.outfile.length = 5 :=
  ⟨by decide,
    (indexDirs treeR phashSettings (fun _ => 0) 5 false 0 [rootR] [] none [] includeQ).getD
      { outfile := [], file_id := 0, last_filelist := none, index_follow_last := false,
        index_keep_files := false, index_error := false, phash_queue := [], rnd_calls := 0 },
    by decide, by decide, by decide, by decide, by decide, by decide⟩

/-! ## C20: an escaped bracket in an include pattern -/

theorem bracketLoop_escaped (spec : Str) (p : Nat) (hp : 0 < p)
    (hesc : spec.getD (p - 1) ' ' = '\\') (hfind : find_first_of spec '[' p = some p)
    (fuel : Nat) : bracketLoop spec fuel (some p) = none := by
  induction fuel with
  | zero => rfl
  | succ fuel ih =>
    unfold bracketLoop
    simp only [hp, hesc, and_self, if_true, hfind]
    exact ih

/-- C20, evaluated at the failing input. For the settings string `x\[y`, whose
pattern `sanitizePattern` leaves as it is, the loop `while (f2 > 0 && f2 != npos
&& spec[f2 - 1] == '\\') f2 = spec.find_first_of("[", f2)` of
`parseIncludePatterns` finds the same bracket again in every iteration: no number
of iterations ends it, and the function returns no list. -/
theorem parseIncludePatterns_escaped_bracket_loops :
    sanitizePattern ['x', '\\', '[', 'y'] = ['x', '\\', '[', 'y'] ∧
    ∀ fuel, parseIncludePatterns fuel ['x', '\\', '[', 'y'] = none := by
  refine ⟨by decide, ?_⟩
  intro fuel
  have hs : (Tokenize ['x', '\\', '[', 'y'] ';').map sanitizePattern = [['x', '\\', '[', 'y']] := by
    decide
  have hb : bracketLoop ['x', '\\', '[', 'y'] fuel (find_first_of ['x', '\\', '[', 'y'] '[' 0)
      = none := by
    have h0 : find_first_of ['x', '\\', '[', 'y'] '[' 0 = some 2 := by decide
    rw [h0]
    exact bracketLoop_escaped _ 2 (by decide) (by decide) (by decide) fuel
  unfold parseIncludePatterns
  rw [hs]
  simp only [List.mapM_cons, storedPrefix, hb]
  rfl


/-! ## C21: the indexes read in a partial last sector -/

theorem foldl_flatMap_ranges {σ : Type} (g : σ → Nat → σ) (len : Nat) (is : List Nat) (st : σ) :
    is.foldl (fun st i => (List.range' (i + URBT_MAGIC_SIZE) len).foldl g st) st
      = (is.flatMap (fun i => List.range' (i + URBT_MAGIC_SIZE) len)).foldl g st := by
  induction is generalizing st with
  | nil => rfl
  | cons i is ih =>
    rw [List.foldl_cons, ih, List.flatMap_cons, List.foldl_append]

theorem zeroImgHashes_eq_foldl_passIndexes (bm : URBCT_BITMAP_DATA) (f : List Nat) :
    zeroImgHashes bm f
      = ((passIndexes bm).foldl (fun st j => zeroImgByte st (byteAt bm j)) (0, f)).2 := by
  unfold zeroImgHashes passIndexes
  rw [foldl_flatMap_ranges]

theorem zeroFileHashes_eq_foldl_passIndexes (slot : Nat) (bm : URBCT_BITMAP_DATA)
    (f : List Nat) :
    zeroFileHashes slot bm f
      = ((passIndexes bm).foldl (fun st j => zeroFileByte slot st (byteAt bm j))
          { curr_byte := 0, last_bit_set := false, last_zeroed := false, file := f }).file := by
  unfold zeroFileHashes passIndexes
  rw [foldl_flatMap_ranges]

theorem mergeBitmap_eq_foldl_mergeIndexes (src dst : URBCT_BITMAP_DATA)
    (h : src.SectorSize = dst.SectorSize) :
    mergeBitmap src dst
      = (true, (mergeIndexes src dst).foldl (fun d j => orByteAt d j (byteAt src j)) dst) := by
  unfold mergeBitmap mergeIndexes
  rw [if_neg (by simpa using h), foldl_flatMap_ranges]

/-- C21, evaluated at the failing input. The bitmap of a volume of 2000 MiB with
sectors of 512 bytes has 526 bytes: a whole sector and a last sector of 14 bytes.
The validation loop of `finishCbt` accepts it and counts 500 bitmap bytes, but
the two passes and `mergeBitmap` visit the indexes 13 to 511 and 525 to 1023: the
indexes 526 to 1023 are not below `BitmapSize`. -/
theorem passes_index_past_partial_sector :
    validateBitmap partialBitmap none
      = some { bitmap_data := partialBitmap, RealBitmapSize := 500 } ∧
    partialBitmap.BitmapSize = 526 ∧
    passIndexes partialBitmap = List.range' 13 499 ++ List.range' 525 499 ∧
    mergeIndexes partialBitmap partialBitmap = List.range' 13 499 ++ List.range' 525 499 ∧
    1023 ∈ passIndexes partialBitmap ∧
    (finishCbt zeroDigest 2 partialBitmap none (-1) false noFiles).map (fun r => r.1)
      = some true := by
  refine ⟨by decide, rfl, by decide, by decide, ?_, by decide⟩
  have h : passIndexes partialBitmap = List.range' 13 499 ++ List.range' 525 499 := by decide
  rw [h, List.mem_append, List.mem_range'_1, List.mem_range'_1]
  omega


/-! ## C22: `mergeBitmap` -/

theorem list_eq_of_getD (l1 l2 : List Nat) (hlen : l1.length = l2.length)
    (h : ∀ t, l1.getD t 0 = l2.getD t 0) : l1 = l2 := by
  apply List.ext_getElem hlen
  intro t h1 h2
  have := h t
  rw [List.getD_eq_getElem?_getD, List.getD_eq_getElem?_getD, List.getElem?_eq_getElem h1,
    List.getElem?_eq_getElem h2] at this
  exact this

theorem bitmap_eq_of_byteAt (a b : URBCT_BITMAP_DATA) (h1 : a.BitmapSize = b.BitmapSize)
    (h2 : a.SectorSize = b.SectorSize) (h3 : a.Bitmap.length = b.Bitmap.length)
    (h4 : ∀ t, byteAt a t = byteAt b t) : a = b := by
  cases a
  cases b
  simp only at h1 h2 h3
  subst h1 h2
  have := list_eq_of_getD _ _ h3 h4
  simp only at this
  rw [this]

theorem mergeBitmap_bytes (src dst : URBCT_BITMAP_DATA) (h : src.SectorSize = dst.SectorSize) :
    ∃ M, mergeBitmap src dst = (true, M) ∧ M.BitmapSize = dst.BitmapSize ∧
      M.SectorSize = dst.SectorSize ∧ M.Bitmap.length = dst.Bitmap.length ∧
      ∀ t, byteAt M t
        = if (∃ i ∈ sectorStarts (min src.BitmapSize dst.BitmapSize) src.SectorSize,
                i + URBT_MAGIC_SIZE ≤ t
                  ∧ t < i + URBT_MAGIC_SIZE + (src.SectorSize - URBT_MAGIC_SIZE))
              ∧ t < dst.Bitmap.length then
            byteAt dst t ||| byteAt src t
          else byteAt dst t := by
  obtain ⟨f1, f2, f3⟩ := fields_foldl_sectors_orByteAt src (src.SectorSize - URBT_MAGIC_SIZE)
    (sectorStarts (min src.BitmapSize dst.BitmapSize) src.SectorSize) dst
  refine ⟨_, ?_, f2, f3, f1, fun t => byteAt_foldl_sectors_orByteAt src _ _ dst t⟩
  unfold mergeBitmap
  rw [if_neg (by simpa using h)]


/-- C22. For every two bitmaps `src` and `dst`: `mergeBitmap` returns false and
leaves `dst` unchanged when their `SectorSize` differ; when `SectorSize` is equal
and both have the same `BitmapSize` made of whole sectors (and `dst` holds its
`BitmapSize` bytes), it returns true with the sizes of `dst` kept, every
non-magic byte of `dst` becomes (old `dst` byte OR `src` byte), the first 13
bytes of every sector of `dst` are unchanged, no bit that was set in `dst` is
cleared, and merging the same `src` a second time changes nothing. -/
theorem mergeBitmap_or_into_dst (src dst : URBCT_BITMAP_DATA) :
    (src.SectorSize ≠ dst.SectorSize → mergeBitmap src dst = (false, dst)) ∧
    ∀ n, src.SectorSize = dst.SectorSize → src.BitmapSize = n * src.SectorSize →
      dst.BitmapSize = n * src.SectorSize → dst.BitmapSize ≤ dst.Bitmap.length →
      ∃ M, mergeBitmap src dst = (true, M) ∧ M.BitmapSize = dst.BitmapSize ∧
        M.SectorSize = dst.SectorSize ∧
        (∀ j, j < dst.BitmapSize → URBT_MAGIC_SIZE ≤ j % dst.SectorSize →
          byteAt M j = byteAt dst j ||| byteAt src j) ∧
        (∀ j, j < dst.BitmapSize → j % dst.SectorSize < URBT_MAGIC_SIZE →
          byteAt M j = byteAt dst j) ∧
        (∀ j b, (byteAt dst j).testBit b = true → (byteAt M j).testBit b = true) ∧
        mergeBitmap src M = (true, M) := by
  constructor
  · intro h
    unfold mergeBitmap
    rw [if_pos h]
  · intro n hsec hs hd hlen
    obtain ⟨M, hM, m1, m2, m3, m4⟩ := mergeBitmap_bytes src dst hsec
    have hmin : min src.BitmapSize dst.BitmapSize = dst.BitmapSize := by
      rw [hs, hd, Nat.min_self]
    rw [hmin] at m4
    refine ⟨M, hM, m1, m2, ?_, ?_, ?_, ?_⟩
    · intro j hj hmod
      rw [← hsec] at hmod
      have hS0 : 0 < src.SectorSize := by
        rcases Nat.eq_zero_or_pos src.SectorSize with h0 | h0
        · rw [hd, h0, Nat.mul_zero] at hj
          omega
        · exact h0
      have hS : URBT_MAGIC_SIZE < src.SectorSize := by
        have := Nat.mod_lt j hS0
        omega
      rw [m4 j, if_pos]
      refine ⟨?_, by omega⟩
      unfold sectorStarts
      exact (in_sector_payload_iff _ _ _ hS).mpr ⟨div_lt_sector_count _ _ _ hS0 hj, hmod⟩
    · intro j hj hmod
      rw [← hsec] at hmod
      rw [m4 j, if_neg]
      rintro ⟨hex, _⟩
      by_cases hS : URBT_MAGIC_SIZE < src.SectorSize
      · unfold sectorStarts at hex
        have := ((in_sector_payload_iff _ _ _ hS).mp hex).2
        omega
      · obtain ⟨i, _, h1, h2⟩ := hex
        omega
    · intro j b hb
      rw [m4 j]
      split
      · rw [Nat.testBit_lor, hb]
        rfl
      · exact hb
    · obtain ⟨M2, hM2, k1, k2, k3, k4⟩ := mergeBitmap_bytes src M (hsec.trans m2.symm)
      rw [hM2]
      congr 1
      apply bitmap_eq_of_byteAt _ _ k1 k2 k3
      intro t
      have hmin2 : min src.BitmapSize M.BitmapSize = dst.BitmapSize := by
        rw [m1, hmin]
      rw [k4 t, hmin2, m3, m4 t]
      split
      · simp [Nat.lor_assoc]
      · rfl

/-- C22, applied to the two one-sector bitmaps `tinyStored` (byte 13 is 2) and
`tinyBitmap` (bytes 13 and 15 are 1 and 2). -/
theorem mergeBitmap_or_into_dst_witness :
    mergeBitmap tinyStored tinyBitmap
      = (true, { BitmapSize := 16, SectorSize := 16, Bitmap := URBT_MAGIC ++ [3, 0, 2] }) ∧
    ((tinyStored.SectorSize ≠ tinyBitmap.SectorSize
        → mergeBitmap tinyStored tinyBitmap = (false, tinyBitmap)) ∧
    ∀ n, tinyStored.SectorSize = tinyBitmap.SectorSize →
      tinyStored.BitmapSize = n * tinyStored.SectorSize →
      tinyBitmap.BitmapSize = n * tinyStored.SectorSize →
      tinyBitmap.BitmapSize ≤ tinyBitmap.Bitmap.length →
      ∃ M, mergeBitmap tinyStored tinyBitmap = (true, M) ∧ M.BitmapSize = tinyBitmap.BitmapSize ∧
        M.SectorSize = tinyBitmap.SectorSize ∧
        (∀ j, j < tinyBitmap.BitmapSize → URBT_MAGIC_SIZE ≤ j % tinyBitmap.SectorSize →
          byteAt M j = byteAt tinyBitmap j ||| byteAt tinyStored j) ∧
        (∀ j, j < tinyBitmap.BitmapSize → j % tinyBitmap.SectorSize < URBT_MAGIC_SIZE →
          byteAt M j = byteAt tinyBitmap j) ∧
        (∀ j b, (byteAt tinyBitmap j).testBit b = true → (byteAt M j).testBit b = true) ∧
        mergeBitmap tinyStored M = (true, M)) :=
  ⟨by decide, mergeBitmap_or_into_dst tinyStored tinyBitmap⟩


/-! ## C23: a directory of the previous list copied while a file is emitted -/

/-- C23, evaluated at the failing input. With keep enabled and the cursor of the
previous list on the directory `m` at depth 1, `addFromLastUpto("x", false, 1,
false)` copies `m` with its content, although the entry being emitted is a file
at the same depth. In a run over the root `a` (files `x` and `y`) whose previous
list holds the file `w` and the directory `m`, the new list has the lines of `m`
before those of the files `x` and `y`. -/
theorem addFromLastUpto_copies_dir_before_file :
    (addFromLastUpto treeA plainSettings ['x'] false 1 false cursorOnDir).outfile
      = ["d\"m\"".toList, "f\"q\" 3 4".toList, "d\"..\"".toList] ∧
    ∃ st, indexDirs treeA plainSettings (fun _ => 0) 5 false 0 [rootA true] []
        (some previousWithDir) [] [] = some st ∧
      st.outfile = ["d\"a\"".toList, "f\"w\" 1 2".toList, "d\"m\"".toList, "f\"q\" 3 4".toList,
          "d\"..\"".toList, "f\"x\" 10 100".toList, "f\"y\" 20 200".toList, "d\"..\"".toList] :=
  ⟨by decide,
    (indexDirs treeA plainSettings (fun _ => 0) 5 false 0 [rootA true] []
      (some previousWithDir) [] []).getD
      { outfile := [], file_id := 0, last_filelist := none, index_follow_last := false,
        index_keep_files := false, index_error := false, phash_queue := [], rnd_calls := 0 },
    by decide, by decide⟩

/-! ## C24: the stored prefix of an include pattern -/

theorem prefixSepLoop_nil (fuel j : Nat) : prefixSepLoop [] fuel j [] = [] := by
  cases fuel with
  | zero => rfl
  | succ n => simp [prefixSepLoop]

theorem storedPrefix_nil (fuel : Nat) (spec p : Str) (h : storedPrefix fuel spec [] = some p) :
    p = [] := by
  unfold storedPrefix at h
  cases hb : bracketLoop spec fuel (find_first_of spec '[' 0) with
  | none => simp [hb] at h
  | some f2 =>
    simp only [hb, List.take_nil, ite_self, Option.some.injEq] at h
    rw [← h]
    split <;> exact prefixSepLoop_nil _ _

theorem mapM_option_all {α β : Type} (f : α → Option β) (P : β → Prop)
    (hf : ∀ a b, f a = some b → P b) (xs : List α) (l : List β) (h : xs.mapM f = some l) :
    ∀ b ∈ l, P b := by
  induction xs generalizing l with
  | nil =>
    simp only [List.mapM_nil, Option.pure_def, Option.some.injEq] at h
    rw [← h]
    intro b hb
    cases hb
  | cons a as ih =>
    rw [List.mapM_cons] at h
    cases hfa : f a with
    | none =>
      rw [hfa] at h
      cases h
    | some y =>
      cases hr : as.mapM f with
      | none =>
        rw [hfa, hr] at h
        cases h
      | some rest =>
        rw [hfa, hr] at h
        simp only [Option.bind_eq_bind, Option.some_bind, Option.pure_def,
          Option.some.injEq] at h
        rw [← h]
        intro b hb
        rcases List.mem_cons.mp hb with h1 | h1
        · rw [h1]
          exact hf a y hfa
        · exact ih rest hr b h1

/-- C24, evaluated at the failing input. For the include setting `/r/a*` the
pattern is `/r/a*` with depth 2 and the stored prefix is empty, although the text
before the first `*` is `/r/a`; and for every settings string every entry that
`parseIncludePatterns` returns has an empty stored prefix, because the prefix is
cut from the empty member `prefix` instead of the pattern. -/
theorem parseIncludePatterns_prefix_empty :
    parseIncludePatterns 1 ['/', 'r', '/', 'a', '*']
      = some [{ spec := ['/', 'r', '/', 'a', '*'], depth := 2, prefix_ := [] }] ∧
    ∀ fuel val l, parseIncludePatterns fuel val = some l → ∀ inc ∈ l, inc.prefix_ = [] := by
  refine ⟨by decide, ?_⟩
  intro fuel val l h
  unfold parseIncludePatterns at h
  refine mapM_option_all _ (fun inc => inc.prefix_ = []) ?_ _ l h
  intro spec inc hinc
  cases hp : storedPrefix fuel spec [] with
  | none =>
    rw [hp] at hinc
    cases hinc
  | some p =>
    rw [hp] at hinc
    simp only [Option.map_some', Option.some.injEq] at hinc
    rw [← hinc]
    exact storedPrefix_nil fuel spec p hp


/-! ## C26: the size formula of `finishCbt` -/

theorem div_add_rem_eq_ceilDiv (a b : Nat) (hb : 0 < b) :
    a / b + (if a % b = 0 then 0 else 1) = ceilDiv a b := by
  unfold ceilDiv
  have hdm := Nat.div_add_mod a b
  have hlt := Nat.mod_lt a hb
  have hc : b * (a / b) = a / b * b := Nat.mul_comm _ _
  by_cases h0 : a % b = 0
  · rw [if_pos h0, Nat.add_zero]
    symm
    apply Nat.div_eq_of_lt_le
    · omega
    · rw [Nat.add_mul, Nat.one_mul]
      omega
  · rw [if_neg h0]
    symm
    apply Nat.div_eq_of_lt_le
    · rw [Nat.add_mul, Nat.one_mul]
      omega
    · rw [Nat.add_mul, Nat.add_mul, Nat.one_mul]
      omega

/-- C26. For every volume length `len` (a signed 64 bit value that is not
negative) and every `BytesPerSector` above 13 (a `DWORD`), `finishCbt` computes
`bitmapBlocks = ceil(len / 524288)`, `bitmapBytesWoMagic = ceil(bitmapBlocks /
8)` and `bitmapBytes = bitmapBytesWoMagic + 13 * ceil(bitmapBytesWoMagic /
(BytesPerSector - 13))`: the payload bytes and one magic tag of 13 bytes for each
started sector. -/
theorem bitmapSizes_formula (len BytesPerSector : Nat) (hlen : len < 2 ^ 63)
    (hlow : 13 < BytesPerSector) (hhigh : BytesPerSector < 2 ^ 32) :
    (bitmapSizes len BytesPerSector).1 = ceilDiv len 524288 ∧
    (bitmapSizes len BytesPerSector).2.1 = ceilDiv (ceilDiv len 524288) 8 ∧
    (bitmapSizes len BytesPerSector).2.2
      = ceilDiv (ceilDiv len 524288) 8
        + 13 * ceilDiv (ceilDiv (ceilDiv len 524288) 8) (BytesPerSector - 13) := by
  have hB : URBT_BLOCKSIZE = 524288 := by decide
  have hM : URBT_MAGIC_SIZE = 13 := rfl
  have hsub : subDW BytesPerSector 13 = BytesPerSector - 13 := by
    unfold subDW DWORD_MOD
    omega
  have hblocks : len / URBT_BLOCKSIZE + (if len % URBT_BLOCKSIZE = 0 then 0 else 1)
      = ceilDiv len 524288 := by
    rw [hB]
    exact div_add_rem_eq_ceilDiv len 524288 (by decide)
  have hb1 : ceilDiv len 524288 < 2 ^ 45 := by
    unfold ceilDiv
    apply Nat.div_lt_of_lt_mul
    omega
  have hwo : ceilDiv len 524288 / 8 + (if ceilDiv len 524288 % 8 = 0 then 0 else 1)
      = ceilDiv (ceilDiv len 524288) 8 := div_add_rem_eq_ceilDiv _ 8 (by decide)
  have hw1 : ceilDiv (ceilDiv len 524288) 8 < 2 ^ 43 := by
    generalize ceilDiv len 524288 = x at hb1 ⊢
    unfold ceilDiv
    apply Nat.div_lt_of_lt_mul
    omega
  generalize ceilDiv (ceilDiv len 524288) 8 = wo at hwo hw1 ⊢
  generalize hs : BytesPerSector - 13 = s at hsub ⊢
  have hBPS : BytesPerSector = s + 13 := by omega
  have hs0 : 0 < s := by omega
  have hq : wo / s * s ≤ wo := Nat.div_mul_le_self _ _
  have hq2 : wo / s ≤ wo := Nat.div_le_self _ _
  have hmodlt := Nat.mod_lt wo hs0
  have hmul : wo / s * BytesPerSector = wo / s * s + 13 * (wo / s) := by
    rw [hBPS, Nat.mul_add, Nat.mul_comm _ 13]
  have hdm := Nat.div_add_mod wo s
  have hcomm : s * (wo / s) = wo / s * s := Nat.mul_comm _ _
  have hceil := div_add_rem_eq_ceilDiv wo s hs0
  unfold bitmapSizes
  simp only [hblocks, hM, hsub]
  rw [Nat.mod_eq_of_lt (by omega : ceilDiv len 524288 < 2 ^ 64), hwo,
    Nat.mod_eq_of_lt (by omega : wo < 2 ^ 64)]
  refine ⟨rfl, rfl, ?_⟩
  rw [← hceil, hmul]
  have hbound : wo / s * s + 13 * (wo / s) + (13 + wo % s) < 2 ^ 64 := by omega
  by_cases h0 : wo % s = 0
  · rw [if_neg (not_not.mpr h0), if_pos h0, Nat.add_zero, Nat.add_zero,
      Nat.mod_eq_of_lt (Nat.lt_of_le_of_lt (Nat.le_add_right _ _) hbound)]
    omega
  · rw [if_pos h0, if_neg h0, Nat.mod_eq_of_lt hbound]
    omega

/-- C26, applied to a volume of 2000 MiB with sectors of 512 bytes: 4000 blocks,
500 bitmap bytes and 526 bytes with the two magic tags. -/
theorem bitmapSizes_formula_witness :
    (2097152000 < 2 ^ 63 ∧ 13 < 512 ∧ 512 < 2 ^ 32) ∧
    bitmapSizes 2097152000 512 = (4000, 500, 526) ∧
    ((bitmapSizes 2097152000 512).1 = ceilDiv 2097152000 524288 ∧
    (bitmapSizes 2097152000 512).2.1 = ceilDiv (ceilDiv 2097152000 524288) 8 ∧
    (bitmapSizes 2097152000 512).2.2
      = ceilDiv (ceilDiv 2097152000 524288) 8
        + 13 * ceilDiv (ceilDiv (ceilDiv 2097152000 524288) 8) (512 - 13)) :=
  ⟨by decide, by decide, bitmapSizes_formula 2097152000 512 (by decide) (by decide) (by decide)⟩


/-! ## C30: the tag bits of the change indicator -/

/-- C30. For a special file that is not a symbolic link, `getChangeIndicator`
only sets the bits of `change_indicator_special_bit`: every bit of the result is
the bit of `usn` (or of `last_modified` when `usn` is 0) or the bit of the
constant. A value that has the bit of the symlink tag set therefore comes back
with both tags set, although the entry is not a symbolic link; the branch for
ordinary entries clears the tag bits of the value first. -/
theorem getChangeIndicator_special_keeps_symlink_bit (bits : ChangeIndicatorBits)
    (file : SFileMeta) (hsym : file.issym = false) (hsp : file.isspecialf = true) :
    ∀ k, (getChangeIndicator bits file).testBit k
      = ((if file.usn = 0 then file.last_modified else file.usn).testBit k
          || bits.change_indicator_special_bit.testBit k) := by
  intro k
  unfold getChangeIndicator
  simp only [hsym, hsp, Bool.false_eq_true, if_false, if_true]
  rw [Int.testBit_lor]

/-- C30 on a special file whose `usn` has bit 62 set: the result has bit 62 (the
tag of symbolic links) and bit 61 set. -/
theorem getChangeIndicator_special_keeps_symlink_bit_witness :
    (specialWithHighUsn.issym = false ∧ specialWithHighUsn.isspecialf = true) ∧
    getChangeIndicator tagBits specialWithHighUsn = 6917529027641081856 + 5 ∧
    (getChangeIndicator tagBits specialWithHighUsn).testBit 62 = true ∧
    tagBits.change_indicator_symlink_bit.testBit 62 = true ∧
    ∀ k, (getChangeIndicator tagBits specialWithHighUsn).testBit k
      = ((if specialWithHighUsn.usn = 0 then specialWithHighUsn.last_modified
            else specialWithHighUsn.usn).testBit k
          || tagBits.change_indicator_special_bit.testBit k) :=
  ⟨⟨rfl, rfl⟩, by decide, by decide, by decide,
    getChangeIndicator_special_keeps_symlink_bit tagBits specialWithHighUsn rfl rfl⟩

/-! ## C28: which persisted rows the cleanup deletes -/

theorem cleanupDue_iff (start : Bool) (starttoken index_clientsubname : String)
    (sc_refs : List SCRef) (row : SShadowCopy) :
    cleanupDue start starttoken index_clientsubname sc_refs row = true ↔
      (¬ ∃ ref ∈ sc_refs, ref.save_id = row.id ∨ ref.ssetid = row.ssetid) ∧
      (row.refs ≤ 0 ∨ (row.passedtime : Int) > 604800 ∨
        (start = true ∧ row.filesrv = false ∧ row.refs = 1 ∧ starttoken ≠ "" ∧
          row.starttoken = starttoken ∧ row.clientsubname = index_clientsubname)) := by
  have hc : shadowcopy_timeout / 1000 = 604800 := by decide
  unfold cleanupDue
  simp only [hc, Bool.and_eq_true, Bool.or_eq_true, Bool.not_eq_true', decide_eq_true_eq,
    List.any_eq_false, List.any_eq_true, not_exists, not_and, not_or, and_assoc, or_assoc]

theorem cleanup_foldl (removed : SShadowCopy → Bool) (start : Bool)
    (starttoken index_clientsubname : String) (sc_refs : List SCRef) (l : List SShadowCopy) :
    ∀ st : CleanupResult,
      (l.foldl (cleanupStep removed start starttoken index_clientsubname sc_refs) st).calls
        = st.calls ++ l.filter (cleanupDue start starttoken index_clientsubname sc_refs) ∧
      (l.foldl (cleanupStep removed start starttoken index_clientsubname sc_refs) st).db
        = st.db.filter (fun row => !l.any (fun scs =>
            cleanupDue start starttoken index_clientsubname sc_refs scs && removed scs
              && decide (row.id = scs.id))) ∧
      (l.foldl (cleanupStep removed start starttoken index_clientsubname sc_refs) st).ok
        = (st.ok && l.all (fun scs =>
            !cleanupDue start starttoken index_clientsubname sc_refs scs || removed scs)) := by
  induction l with
  | nil => intro st; simp
  | cons a l ih =>
    intro st
    rw [List.foldl_cons]
    obtain ⟨h1, h2, h3⟩ := ih (cleanupStep removed start starttoken index_clientsubname sc_refs st a)
    rw [h1, h2, h3]
    unfold cleanupStep deleteSavedShadowCopy
    by_cases hd : cleanupDue start starttoken index_clientsubname sc_refs a = true
    · by_cases hr : removed a = true
      · simp [hd, hr, List.filter_filter, Bool.and_comm]
      · simp only [Bool.not_eq_true] at hr
        simp [hd, hr]
    · simp only [Bool.not_eq_true] at hd
      simp [hd]

/-- C28. For every list of persisted rows (the `id` is their key) and every list
of references in memory, `cleanup_saved_shadowcopies(start)` passes a row to
`deleteSavedShadowCopy` if and only if no reference in memory has the row's
`save_id` or `ssetid` and the row has `refs <= 0`, or `passedtime > 604800`, or
`start` is true and the row is not a file-server snapshot, has `refs = 1` and
carries the current start token, which is not empty, and the current
`clientsubname`. When the platform removes each of those snapshots, these are
the rows that are gone from the table afterwards, and the result is `true`. -/
theorem cleanup_saved_shadowcopies_deletes_iff (removed : SShadowCopy → Bool) (start : Bool)
    (starttoken index_clientsubname : String) (sc_refs : List SCRef) (db : List SShadowCopy)
    (hkey : ∀ a ∈ db, ∀ b ∈ db, a.id = b.id → a = b)
    (hrem : ∀ a ∈ db, removed a = true) :
    (cleanup_saved_shadowcopies removed start starttoken index_clientsubname sc_refs db).ok = true ∧
    ∀ row ∈ db,
      ((row ∈ (cleanup_saved_shadowcopies removed start starttoken index_clientsubname
          sc_refs db).calls ↔
        ((¬ ∃ ref ∈ sc_refs, ref.save_id = row.id ∨ ref.ssetid = row.ssetid) ∧
        (row.refs ≤ 0 ∨ (row.passedtime : Int) > 604800 ∨
          (start = true ∧ row.filesrv = false ∧ row.refs = 1 ∧ starttoken ≠ "" ∧
            row.starttoken = starttoken ∧ row.clientsubname = index_clientsubname)))) ∧
      (row ∉ (cleanup_saved_shadowcopies removed start starttoken index_clientsubname
          sc_refs db).db ↔
        ((¬ ∃ ref ∈ sc_refs, ref.save_id = row.id ∨ ref.ssetid = row.ssetid) ∧
        (row.refs ≤ 0 ∨ (row.passedtime : Int) > 604800 ∨
          (start = true ∧ row.filesrv = false ∧ row.refs = 1 ∧ starttoken ≠ "" ∧
            row.starttoken = starttoken ∧ row.clientsubname = index_clientsubname))))) := by
  obtain ⟨h1, h2, h3⟩ := cleanup_foldl removed start starttoken index_clientsubname sc_refs db
    { ok := true, calls := [], db := db }
  unfold cleanup_saved_shadowcopies
  rw [h1, h2, h3]
  refine ⟨?_, ?_⟩
  · simp only [Bool.true_and, List.all_eq_true, Bool.or_eq_true]
    intro a ha
    exact Or.inr (hrem a ha)
  · intro row hrow
    rw [← cleanupDue_iff]
    refine ⟨?_, ?_⟩
    · simp only [List.nil_append, List.mem_filter, hrow, true_and]
    · simp only [List.mem_filter, hrow, true_and, Bool.not_eq_true', List.any_eq_false,
        Bool.and_eq_true, decide_eq_true_eq, not_and, Bool.not_eq_false, not_forall,
        Classical.not_imp, not_not]
      constructor
      · rintro ⟨a, ha, hda, hid⟩
        have := hkey row hrow a ha hid
        rw [this]
        exact hda.1
      · intro hd
        exact ⟨row, hrow, ⟨hd, hrem row hrow⟩, rfl⟩

/-- C28 on five rows at start-up with the start token `t`: the row that matches
the reference held in memory stays although it has no references left, the row
still in use stays, and the other three are deleted. -/
theorem cleanup_saved_shadowcopies_deletes_iff_witness :
    ((∀ a ∈ savedRows, ∀ b ∈ savedRows, a.id = b.id → a = b) ∧
      (∀ a ∈ savedRows, (fun _ => true) a = true)) ∧
    ((cleanup_saved_shadowcopies (fun _ => true) true "t" "" [heldRef] savedRows).db.map
      (fun row => row.id) = [1, 5]) ∧
    ((cleanup_saved_shadowcopies (fun _ => true) true "t" "" [heldRef] savedRows).ok = true ∧
    ∀ row ∈ savedRows,
      ((row ∈ (cleanup_saved_shadowcopies (fun _ => true) true "t" "" [heldRef] savedRows).calls ↔
        ((¬ ∃ ref ∈ [heldRef], ref.save_id = row.id ∨ ref.ssetid = row.ssetid) ∧
        (row.refs ≤ 0 ∨ (row.passedtime : Int) > 604800 ∨
          (true = true ∧ row.filesrv = false ∧ row.refs = 1 ∧ "t" ≠ "" ∧
            row.starttoken = "t" ∧ row.clientsubname = "")))) ∧
      (row ∉ (cleanup_saved_shadowcopies (fun _ => true) true "t" "" [heldRef] savedRows).db ↔
        ((¬ ∃ ref ∈ [heldRef], ref.save_id = row.id ∨ ref.ssetid = row.ssetid) ∧
        (row.refs ≤ 0 ∨ (row.passedtime : Int) > 604800 ∨
          (true = true ∧ row.filesrv = false ∧ row.refs = 1 ∧ "t" ≠ "" ∧
            row.starttoken = "t" ∧ row.clientsubname = "")))))) :=
  ⟨⟨by decide, by decide⟩, by decide,
    cleanup_saved_shadowcopies_deletes_iff (fun _ => true) true "t" "" [heldRef] savedRows
      (by decide) (by decide)⟩

/-! ## C29: a full file backup after an unfinished full index -/

/-- C29, counterexample. A full file backup requested while
`last_index` is `full`, whose pre-backup hook returns 3, does not run `indexDirs`
at all; one requested while `stop_index` is set does not either; and a full file
backup requested in another state without backup directories or scripts replies
`no backup dirs` and neither resets the file entries nor runs `indexDirs`. -/
theorem handleFileBackup_full_guards :
    (handleFileBackup (fullRequest "full" 3)).indexDirs_called = none ∧
    (handleFileBackup { fullRequest "vfull" 0 with stop_index_before := true }).indexDirs_called
      = none ∧
    (handleFileBackup { fullRequest "" 0 with has_dirs := false }).resetFileEntries_called
      = false ∧
    (handleFileBackup { fullRequest "" 0 with has_dirs := false }).indexDirs_called = none ∧
    (handleFileBackup (fullRequest "full_done" 3)).resetFileEntries_called = true ∧
    (handleFileBackup (fullRequest "full_done" 3)).indexDirs_called = none := by
  decide

/-- C29, amended. A `StartFullFileBackup` for which backup directories or
scripts are configured, handled while `last_index` is `full` or `vfull`, does not
call `resetFileEntries` and, when the pre-backup hook returns 0 and `stop_index`
is not set, runs `indexDirs(full_backup=false)`; handled in any other state it
calls `resetFileEntries` and, when the pre-backup hook returns 0, runs
`indexDirs(full_backup=true)`. In each state `indexDirs` is not run when its
condition fails, and without backup directories and scripts neither call is
made. -/
theorem handleFileBackup_full_request (rq : BackupRequest)
    (hfull : rq.action = IndexThreadAction.StartFullFileBackup) :
    ((rq.has_dirs = true ∨ rq.has_scripts = true) →
      (rq.last_index = "full" ∨ rq.last_index = "vfull") →
      (handleFileBackup rq).resetFileEntries_called = false ∧
      (rq.prebackup_hook true = 0 → rq.stop_index_before = false →
        (handleFileBackup rq).indexDirs_called = some false) ∧
      (¬ (rq.prebackup_hook true = 0 ∧ rq.stop_index_before = false) →
        (handleFileBackup rq).indexDirs_called = none)) ∧
    ((rq.has_dirs = true ∨ rq.has_scripts = true) →
      ¬ (rq.last_index = "full" ∨ rq.last_index = "vfull") →
      (handleFileBackup rq).resetFileEntries_called = true ∧
      (rq.prebackup_hook false = 0 → (handleFileBackup rq).indexDirs_called = some true) ∧
      (¬ rq.prebackup_hook false = 0 → (handleFileBackup rq).indexDirs_called = none)) ∧
    (rq.has_dirs = false → rq.has_scripts = false →
      (handleFileBackup rq).resetFileEntries_called = false ∧
      (handleFileBackup rq).indexDirs_called = none) := by
  refine ⟨?_, ?_, ?_⟩
  · intro hd hl
    have hg : ¬ ((!rq.has_dirs && !rq.has_scripts) = true) := by
      rcases hd with h | h <;> simp [h]
    have hb : (decide (rq.action = IndexThreadAction.StartIncrFileBackup)
        || (decide (rq.last_index = "full" ∨ rq.last_index = "vfull")
          && decide (rq.action = IndexThreadAction.StartFullFileBackup))) = true := by
      simp [hfull, hl]
    unfold handleFileBackup
    simp only [if_neg hg, hb, if_true]
    refine ⟨?_, ?_, ?_⟩
    · split
      · rfl
      · split <;> rfl
    · intro h0 hs
      simp [h0, hs]
    · intro hn
      by_cases h0 : rq.prebackup_hook true = 0
      · have hs : rq.stop_index_before = true := by
          cases hsb : rq.stop_index_before
          · exact absurd ⟨h0, hsb⟩ hn
          · rfl
        simp [h0, hs]
      · simp [h0]
  · intro hd hl
    have hg : ¬ ((!rq.has_dirs && !rq.has_scripts) = true) := by
      rcases hd with h | h <;> simp [h]
    have hb : (decide (rq.action = IndexThreadAction.StartIncrFileBackup)
        || (decide (rq.last_index = "full" ∨ rq.last_index = "vfull")
          && decide (rq.action = IndexThreadAction.StartFullFileBackup))) = false := by
      simp [hfull, hl]
    unfold handleFileBackup
    simp only [if_neg hg, hb, Bool.false_eq_true, if_false]
    refine ⟨?_, ?_, ?_⟩
    · split <;> rfl
    · intro h0
      simp [h0]
    · intro h0
      simp [h0]
  · intro h1 h2
    unfold handleFileBackup
    simp [h1, h2]

/-- C29, amended, applied to a full file backup requested while `last_index` is
`full`: the file entries are not reset and `indexDirs(false)` runs, which leaves
`last_index` at `vfull`; after `GetLog` the same request resets the file entries
and runs `indexDirs(true)`. -/
theorem handleFileBackup_full_request_witness :
    (fullRequest "full" 0).action = IndexThreadAction.StartFullFileBackup ∧
    handleFileBackup (fullRequest "full" 0)
      = { writes := ["done".toList], indexDirs_called := some false, last_index := "vfull",
          pre_hook := some 0, post_hook := some 0, resetFileEntries_called := false } ∧
    handleFileBackup (fullRequest (getLogLastIndex "vfull") 0)
      = { writes := ["done".toList], indexDirs_called := some true, last_index := "full",
          pre_hook := some 0, post_hook := some 0, resetFileEntries_called := true } ∧
    (((fullRequest "full" 0).has_dirs = true ∨ (fullRequest "full" 0).has_scripts = true) →
      ((fullRequest "full" 0).last_index = "full" ∨ (fullRequest "full" 0).last_index = "vfull") →
      (handleFileBackup (fullRequest "full" 0)).resetFileEntries_called = false ∧
      ((fullRequest "full" 0).prebackup_hook true = 0 →
        (fullRequest "full" 0).stop_index_before = false →
        (handleFileBackup (fullRequest "full" 0)).indexDirs_called = some false) ∧
      (¬ ((fullRequest "full" 0).prebackup_hook true = 0
          ∧ (fullRequest "full" 0).stop_index_before = false) →
        (handleFileBackup (fullRequest "full" 0)).indexDirs_called = none)) :=
  ⟨rfl, by decide, by decide, (handleFileBackup_full_request (fullRequest "full" 0) rfl).1⟩

/-! ## C25: the slots that the file pass leaves alone -/

theorem keptSlots_refl (slot : Nat) (bs f : List Nat) : KeptSlots slot bs f f :=
  fun _ _ h _ => h

theorem keptSlots_trans (slot : Nat) (bs f g h : List Nat) (h1 : KeptSlots slot bs f g)
    (h2 : KeptSlots slot bs g h) : KeptSlots slot bs f h :=
  fun p x hp hn => h2 p x (h1 p x hp hn) hn

theorem keptSlots_writeAt (slot : Nat) (bs f : List Nat) (w : Nat)
    (hw : nearSetBit bs w = true) :
    KeptSlots slot bs f (writeAt f (w * slot) (List.replicate slot 0)) := by
  intro p x hp hn
  have hne : p / slot ≠ w := by
    intro e
    rw [e, hw] at hn
    cases hn
  have hlt : p < f.length := by
    by_contra hc
    rw [List.getElem?_eq_none (by omega)] at hp
    cases hp
  rw [getElem?_writeAt]
  simp only [List.length_replicate]
  by_cases c1 : p < w * slot
  · simp [c1, hlt, hp]
  · have c2 : ¬ p < w * slot + slot := by
      intro c
      apply hne
      apply Nat.div_eq_of_lt_le
      · omega
      · rw [Nat.add_mul, Nat.one_mul]
        exact c
    simp [c1, c2, hp]

theorem zeroFileBit_kept (slot ch : Nat) (bs : List Nat) (st : FilePass) (bit : Nat)
    (hbs : bitAt bs (st.curr_byte * 8 + bit) = ch.testBit bit)
    (hinv : FilePassPrev bs st (st.curr_byte * 8 + bit)) :
    (zeroFileBit slot ch st bit).curr_byte = st.curr_byte ∧
    FilePassPrev bs (zeroFileBit slot ch st bit) (st.curr_byte * 8 + bit + 1) ∧
    KeptSlots slot bs st.file (zeroFileBit slot ch st bit).file := by
  have hbit : decide ((ch &&& (1 <<< bit)) > 0) = ch.testBit bit := by
    cases ht : ch.testBit bit with
    | true => exact decide_eq_true ((land_shift_pos_iff ch bit).mpr ht)
    | false =>
      apply decide_eq_false
      intro h
      rw [(land_shift_pos_iff ch bit).mp h] at ht
      cases ht
  unfold zeroFileBit
  simp only [hbit]
  by_cases hw : (ch.testBit bit || st.last_bit_set) = true
  · simp only [hw, if_true]
    refine ⟨trivial, ?_, ?_⟩
    · intro h
      refine ⟨by omega, ?_⟩
      have e : st.curr_byte * 8 + bit + 1 - 1 = st.curr_byte * 8 + bit := by omega
      rw [e, hbs]
      exact h
    · have hnear : nearSetBit bs (st.curr_byte * 8 + bit) = true := by
        unfold nearSetBit
        rcases Bool.or_eq_true _ _ |>.mp hw with h | h
        · rw [hbs, h]
          simp
        · obtain ⟨h1, h2⟩ := hinv h
          rw [h2]
          simp [h1]
      apply keptSlots_trans slot bs _ _ _ _ (keptSlots_writeAt slot bs _ _ hnear)
      split
      · rename_i hc
        split
        · rename_i hpos
          have hlb : st.last_bit_set = false := by
            cases hb : st.last_bit_set with
            | false => rfl
            | true => simp [hb] at hc
          have ht : ch.testBit bit = true := by
            rw [hlb] at hw
            simpa using hw
          apply keptSlots_writeAt slot bs _ _
          unfold nearSetBit
          have e : st.curr_byte * 8 + bit - 1 + 1 = st.curr_byte * 8 + bit := by omega
          rw [e, hbs, ht]
          simp
        · exact keptSlots_refl _ _ _
      · exact keptSlots_refl _ _ _
  · have hw2 : (ch.testBit bit || st.last_bit_set) = false := by simpa using hw
    simp only [hw2, Bool.false_eq_true, if_false]
    refine ⟨trivial, ?_, keptSlots_refl _ _ _⟩
    intro h
    refine ⟨by omega, ?_⟩
    have e : st.curr_byte * 8 + bit + 1 - 1 = st.curr_byte * 8 + bit := by omega
    rw [e, hbs]
    exact h

theorem foldl_zeroFileBit_kept (slot ch : Nat) (bs : List Nat) (n : Nat) :
    ∀ (b0 : Nat) (st : FilePass),
      (∀ b, b0 ≤ b → b < b0 + n → bitAt bs (st.curr_byte * 8 + b) = ch.testBit b) →
      FilePassPrev bs st (st.curr_byte * 8 + b0) →
      ((List.range' b0 n).foldl (zeroFileBit slot ch) st).curr_byte = st.curr_byte ∧
      FilePassPrev bs ((List.range' b0 n).foldl (zeroFileBit slot ch) st)
        (st.curr_byte * 8 + b0 + n) ∧
      KeptSlots slot bs st.file ((List.range' b0 n).foldl (zeroFileBit slot ch) st).file := by
  induction n with
  | zero =>
    intro b0 st _ hinv
    exact ⟨rfl, by simpa using hinv, keptSlots_refl _ _ _⟩
  | succ n ih =>
    intro b0 st hbs hinv
    obtain ⟨s1, s2, s3⟩ := zeroFileBit_kept slot ch bs st b0 (hbs b0 (by omega) (by omega)) hinv
    have hbs1 : ∀ b, b0 + 1 ≤ b → b < b0 + 1 + n →
        bitAt bs ((zeroFileBit slot ch st b0).curr_byte * 8 + b) = ch.testBit b := by
      intro b h1 h2
      rw [s1]
      exact hbs b (by omega) (by omega)
    have hinv1 : FilePassPrev bs (zeroFileBit slot ch st b0)
        ((zeroFileBit slot ch st b0).curr_byte * 8 + (b0 + 1)) := by
      rw [s1]
      exact s2
    obtain ⟨i1, i2, i3⟩ := ih (b0 + 1) (zeroFileBit slot ch st b0) hbs1 hinv1
    rw [s1] at i1 i2
    rw [List.range'_succ, List.foldl_cons]
    refine ⟨i1, ?_, keptSlots_trans _ _ _ _ _ s3 i3⟩
    have e : st.curr_byte * 8 + (b0 + 1) + n = st.curr_byte * 8 + b0 + (n + 1) := by omega
    rw [e] at i2
    exact i2

theorem zeroFileByte_kept (slot : Nat) (bs : List Nat) (st : FilePass) (ch : Nat)
    (hbs : ∀ b, b < 8 → bitAt bs (st.curr_byte * 8 + b) = ch.testBit b)
    (hinv : FilePassPrev bs st (st.curr_byte * 8)) :
    (zeroFileByte slot st ch).curr_byte = st.curr_byte + 1 ∧
    FilePassPrev bs (zeroFileByte slot st ch) ((st.curr_byte + 1) * 8) ∧
    KeptSlots slot bs st.file (zeroFileByte slot st ch).file := by
  unfold zeroFileByte
  by_cases hch : ch = 0
  · subst hch
    simp only [if_true]
    refine ⟨trivial, fun h => (by cases h), ?_⟩
    split
    · rename_i hl
      obtain ⟨h1, h2⟩ := hinv hl
      apply keptSlots_writeAt slot bs _ _
      unfold nearSetBit
      rw [h2]
      simp [h1]
    · exact keptSlots_refl _ _ _
  · simp only [hch, if_false]
    have h8 : List.range 8 = List.range' 0 8 := by decide
    rw [h8]
    obtain ⟨i1, i2, i3⟩ := foldl_zeroFileBit_kept slot ch bs 8 0 st
      (fun b _ hb => hbs b (by omega)) (by simpa using hinv)
    refine ⟨by rw [i1], ?_, i3⟩
    have e : st.curr_byte * 8 + 0 + 8 = (st.curr_byte + 1) * 8 := by omega
    rw [e] at i2
    exact i2

theorem foldl_zeroFileByte_kept (slot : Nat) (bs : List Nat) (xs : List Nat) :
    ∀ (st : FilePass),
      (∀ q, q < xs.length * 8 → bitAt bs (st.curr_byte * 8 + q) = bitAt xs q) →
      FilePassPrev bs st (st.curr_byte * 8) →
      KeptSlots slot bs st.file (xs.foldl (zeroFileByte slot) st).file := by
  induction xs with
  | nil =>
    intro st _ _
    exact keptSlots_refl _ _ _
  | cons x xs ih =>
    intro st hbs hinv
    have hx : ∀ b, b < 8 → bitAt bs (st.curr_byte * 8 + b) = x.testBit b := by
      intro b hb
      rw [hbs b (by rw [List.length_cons]; omega), bitAt_cons_lt x xs b hb]
    obtain ⟨b1, b2, b3⟩ := zeroFileByte_kept slot bs st x hx hinv
    rw [List.foldl_cons]
    apply keptSlots_trans _ _ _ _ _ b3
    apply ih
    · intro q hq
      rw [b1]
      have e : (st.curr_byte + 1) * 8 + q = st.curr_byte * 8 + (q + 8) := by omega
      rw [e, hbs (q + 8) (by rw [List.length_cons]; omega), bitAt_cons_ge x xs (q + 8) (by omega)]
      simp
    · rw [b1]
      exact b2

theorem zeroFileHashes_kept (slot : Nat) (bm : URBCT_BITMAP_DATA) (f : List Nat) :
    KeptSlots slot (payloadBytes bm) f (zeroFileHashes slot bm f) := by
  rw [zeroFileHashes_eq_foldl]
  apply foldl_zeroFileByte_kept slot (payloadBytes bm) (payloadBytes bm)
    { curr_byte := 0, last_bit_set := false, last_zeroed := false, file := f }
  · intro q _
    simp
  · intro h
    cases h

theorem bitAt_payloadBytes_false (bm : URBCT_BITMAP_DATA) (k : Nat)
    (h : blockBit bm k = false) : bitAt (payloadBytes bm) k = false := by
  by_cases hk : k / 8 < (payloadBytes bm).length
  · rw [bitAt_payloadBytes bm k hk]
    exact h
  · unfold bitAt
    rw [List.getD_eq_default _ _ (by omega)]
    simp

theorem getElem?_resizeFile (f : List Nat) (n p x : Nat) (hp : p < n) (h : f[p]? = some x) :
    (resizeFile f n)[p]? = some x := by
  have hlt : p < f.length := by
    by_contra hc
    rw [List.getElem?_eq_none (by omega)] at h
    cases h
  unfold resizeFile
  rw [List.getElem?_take, if_pos hp, List.getElem?_append_left hlt]
  exact h

/-- C25, counterexample. A file backup of the one-sector bitmap
resizes the sidecar to `BitmapSize * 8 = 128` slots. Of a sidecar of 130 slots
the slot 129 is cut off although the bits 128, 129 and 130 are clear; of an empty
sidecar the slot 5 comes into being as zero bytes although the bits 4, 5 and 6
are clear. -/
theorem finishCbt_file_resize_changes_clear_slots :
    (blockBit tinyBitmap 128 = false ∧ blockBit tinyBitmap 129 = false ∧
      blockBit tinyBitmap 130 = false) ∧
    (longSidecar.hdat_file.drop (129 * 4)).take 4 = [255, 255, 255, 255] ∧
    (finishCbt zeroDigest 2 tinyBitmap none (-1) false longSidecar).map
        (fun r => (r.1, r.2.hdat_file.length, (r.2.hdat_file.drop (129 * 4)).take 4))
      = some (true, 512, []) ∧
    (blockBit tinyBitmap 4 = false ∧ blockBit tinyBitmap 5 = false ∧
      blockBit tinyBitmap 6 = false) ∧
    (noFiles.hdat_file.drop (5 * 4)).take 4 = [] ∧
    (finishCbt zeroDigest 2 tinyBitmap none (-1) false noFiles).map
        (fun r => (r.1, (r.2.hdat_file.drop (5 * 4)).take 4))
      = some (true, [0, 0, 0, 0]) := by
  decide

/-- C25, amended. After a successful `finishCbt(..., for_image_backup = false)`,
for every slot `k` of the file-hash sidecar for which the bits `k - 1`, `k` and
`k + 1` of the merged bitmap are all clear, every byte of the slot that is in the
sidecar before the call and below the size to which the sidecar is resized is
left unchanged: the pass writes only slots of set bits, the slot before the first
set bit of a run and the slot after the last set bit of a run. -/
theorem finishCbt_file_keeps_clear_slots (md5 : List Nat → List Nat) (c : Nat)
    (bm : URBCT_BITMAP_DATA) (snap : Option URBCT_BITMAP_DATA) (shadow_id : Int)
    (fs fs1 : CbtFiles)
    (h : finishCbt md5 c bm snap shadow_id false fs = some (true, fs1)) :
    ∃ merged, mergedBitmap md5 bm snap fs.hdat_file_cbt = some merged ∧
      ∀ k, (0 < k → blockBit merged (k - 1) = false) → blockBit merged k = false →
        blockBit merged (k + 1) = false →
        ∀ p x, k * (2 + c) ≤ p → p < (k + 1) * (2 + c) →
          p < merged.BitmapSize * 8 % DWORD_MOD * (2 + c) →
          fs.hdat_file[p]? = some x → fs1.hdat_file[p]? = some x := by
  obtain ⟨_, v, merged, hv, _, hread, _, hfile⟩ :=
    finishCbt_file_true md5 c bm snap shadow_id fs fs1 h
  refine ⟨merged, ?_, ?_⟩
  · unfold mergedBitmap
    rw [hv]
    simp only [hread]
  · intro k hprev hk hnext p x hp1 hp2 hp3 hx
    rw [hfile]
    apply zeroFileHashes_kept (2 + c) merged _ p x
      (getElem?_resizeFile _ _ p x hp3 hx)
    have hdiv : p / (2 + c) = k := by
      apply Nat.div_eq_of_lt_le
      · exact hp1
      · exact hp2
    rw [hdiv]
    unfold nearSetBit
    rw [bitAt_payloadBytes_false merged k hk, bitAt_payloadBytes_false merged (k + 1) hnext]
    by_cases hk0 : 0 < k
    · rw [bitAt_payloadBytes_false merged (k - 1) (hprev hk0)]
      simp
    · simp [hk0]

/-- C25, amended, applied to a file backup of the one-sector bitmap (blocks 0 and
17 set) with no stored bitmap and a sidecar of 80 bytes `0xff`: the slots 2 to 15
and 19 keep their bytes. -/
theorem finishCbt_file_keeps_clear_slots_witness :
    finishCbt zeroDigest 2 tinyBitmap none (-1) false filledSidecar
      = some (true,
          { hdat_file_cbt := none
            hdat_img_cbt := some (cbtFileOf zeroDigest tinyBitmap)
            hdat_img := []
            hdat_file := filledSidecarAfter }) ∧
    (filledSidecarAfter.drop (2 * 4)).take (14 * 4) = List.replicate 56 255 ∧
    (filledSidecarAfter.drop (19 * 4)).take 4 = List.replicate 4 255 ∧
    ∃ merged, mergedBitmap zeroDigest tinyBitmap none filledSidecar.hdat_file_cbt = some merged ∧
      ∀ k, (0 < k → blockBit merged (k - 1) = false) → blockBit merged k = false →
        blockBit merged (k + 1) = false →
        ∀ p x, k * (2 + 2) ≤ p → p < (k + 1) * (2 + 2) →
          p < merged.BitmapSize * 8 % DWORD_MOD * (2 + 2) →
          filledSidecar.hdat_file[p]? = some x → filledSidecarAfter[p]? = some x :=
  ⟨by decide, by decide, by decide,
    finishCbt_file_keeps_clear_slots zeroDigest 2 tinyBitmap none (-1) filledSidecar
      { hdat_file_cbt := none
        hdat_img_cbt := some (cbtFileOf zeroDigest tinyBitmap)
        hdat_img := []
        hdat_file := filledSidecarAfter }
      (by decide)⟩

/-! ## C27: the nesting of the list that `initialCheck` writes -/

theorem nestFrom_append (cl : Str) (A B : List Str) :
    ∀ d, nestFrom cl d (A ++ B) = (nestFrom cl d A).bind (fun e => nestFrom cl e B) := by
  induction A with
  | nil => intro d; rfl
  | cons l ls ih =>
    intro d
    simp only [List.cons_append, nestFrom]
    by_cases h1 : isCloseLine l = true
    · simp only [h1, if_true]
      by_cases h2 : l = cl ∧ 0 < d
      · simp only [h2, and_self, if_true]
        exact ih _
      · simp only [h2, if_false]
        rfl
    · simp only [h1, Bool.false_eq_true, if_false]
      by_cases h3 : isOpenLine l = true
      · simp only [h3, if_true]
        exact ih _
      · simp only [h3, Bool.false_eq_true, if_false]
        exact ih _

theorem balanced_nil (cl : Str) : Balanced cl [] := fun _ => rfl

theorem balanced_append (cl : Str) (A B : List Str) (hA : Balanced cl A) (hB : Balanced cl B) :
    Balanced cl (A ++ B) := by
  intro d
  rw [nestFrom_append, hA d]
  exact hB d

theorem balanced_neutral (cl l : Str) (h1 : isCloseLine l = false) (h2 : isOpenLine l = false) :
    Balanced cl [l] := by
  intro d
  simp [nestFrom, h1, h2]

theorem balanced_block (cl o : Str) (B : List Str) (ho : isOpenLine o = true)
    (hB : Balanced cl B) (hcl : isCloseLine cl = true) : Balanced cl (o :: (B ++ [cl])) := by
  intro d
  have hoc : isCloseLine o = false := by
    unfold isOpenLine at ho
    cases h : isCloseLine o with
    | false => rfl
    | true => simp [h] at ho
  simp only [nestFrom, hoc, ho, Bool.false_eq_true, if_false, if_true]
  rw [nestFrom_append, hB (d + 1)]
  simp [nestFrom, hcl]

theorem isCloseLine_closeLine (set : IndexSettings) : isCloseLine (closeLine set) = true := by
  unfold closeLine
  cases set.with_proper_symlinks <;> decide

theorem neutral_file_line (t : Str) :
    isCloseLine ('f' :: t) = false ∧ isOpenLine ('f' :: t) = false := by
  constructor
  · simp [isCloseLine]
  · cases t <;> simp [isOpenLine, isCloseLine]

theorem escapedName_not_dotdot (name rest : Str)
    (h : escapedName name ++ '"' :: rest = ['.', '.', '"']) : name = ['.', '.'] := by
  have hesc : ∀ (c : Char) (t u : Str), escapedChar c ++ t = '.' :: u → c = '.' ∧ t = u := by
    intro c t u hc
    unfold escapedChar at hc
    by_cases c1 : c = '"'
    · simp [c1] at hc
    · by_cases c2 : c = '\\'
      · simp [c2] at hc
      · simpa [c1, c2] using hc
  cases name with
  | nil => simp [escapedName] at h
  | cons c cs =>
    rw [escapedName_cons, List.append_assoc] at h
    obtain ⟨hc, h⟩ := hesc c _ _ h
    cases cs with
    | nil => simp [escapedName] at h
    | cons c2 cs2 =>
      rw [escapedName_cons, List.append_assoc] at h
      obtain ⟨hc2, h⟩ := hesc c2 _ _ h
      cases cs2 with
      | nil => rw [hc, hc2]
      | cons c3 cs3 =>
        rw [escapedName_cons, List.append_assoc] at h
        unfold escapedChar at h
        by_cases c1 : c3 = '"'
        · simp [c1] at h
        · by_cases c2 : c3 = '\\'
          · simp [c2] at h
          · simp [c1, c2] at h

theorem writeDir_good (st : IndexState) (name : Str) (with_change : Bool)
    (change_indicator : Int) (extra : Str) (hname : name ≠ ['.', '.']) :
    (writeDir st name with_change change_indicator extra).index_follow_last
      = st.index_follow_last ∧
    (writeDir st name with_change change_indicator extra).index_error = st.index_error ∧
    ∃ o, (writeDir st name with_change change_indicator extra).outfile = st.outfile ++ [o] ∧
      isOpenLine o = true := by
  refine ⟨rfl, rfl, _, rfl, ?_⟩
  have hc : isCloseLine (['d', '"'] ++ escapeListName name ++ ['"']
      ++ (if with_change then [' ', '0', ' '] ++ decimal change_indicator else [])
      ++ (match extra with
          | [] => []
          | c :: rest => if c = '&' then '#' :: rest else c :: rest)) = false := by
    unfold isCloseLine
    rw [escapeListName_eq_escapedName]
    simp only [List.cons_append, List.nil_append, List.append_assoc, Bool.or_eq_false_iff,
      beq_eq_false_iff_ne, ne_eq, List.cons.injEq, true_and]
    refine ⟨?_, by simp⟩
    intro h
    exact hname (escapedName_not_dotdot name _ h)
  unfold isOpenLine
  rw [hc]
  simp

theorem nestFrom_counts (cl : Str) :
    ∀ (L : List Str) (d e : Nat), nestFrom cl d L = some e →
      (∀ n, closeCount (L.take n) ≤ d + openCount (L.take n)) ∧
      e + closeCount L = d + openCount L ∧
      ∀ l ∈ L, isCloseLine l = true → l = cl := by
  intro L
  induction L with
  | nil =>
    intro d e h
    simp only [nestFrom, Option.some.injEq] at h
    refine ⟨fun n => by simp [closeCount, openCount], by simp [closeCount, openCount, h], ?_⟩
    intro l hl
    cases hl
  | cons l ls ih =>
    intro d e h
    rw [nestFrom] at h
    by_cases h1 : isCloseLine l = true
    · have ho : isOpenLine l = false := by simp [isOpenLine, h1]
      rw [if_pos h1] at h
      by_cases h2 : l = cl ∧ 0 < d
      · rw [if_pos h2] at h
        obtain ⟨i1, i2, i3⟩ := ih (d - 1) e h
        have hc : closeCount (l :: ls) = closeCount ls + 1 := by
          unfold closeCount
          rw [List.countP_cons_of_pos _ _ h1]
        have hoc : openCount (l :: ls) = openCount ls := by
          unfold openCount
          rw [List.countP_cons_of_neg _ _ (by simp [ho])]
        refine ⟨?_, by omega, ?_⟩
        · intro n
          cases n with
          | zero => simp [closeCount, openCount]
          | succ m =>
            have := i1 m
            have hc2 : closeCount ((l :: ls).take (m + 1)) = closeCount (ls.take m) + 1 := by
              unfold closeCount
              rw [List.take_succ_cons, List.countP_cons_of_pos _ _ h1]
            have ho2 : openCount ((l :: ls).take (m + 1)) = openCount (ls.take m) := by
              unfold openCount
              rw [List.take_succ_cons, List.countP_cons_of_neg _ _ (by simp [ho])]
            omega
        · intro x hx hxc
          rcases List.mem_cons.mp hx with hx | hx
          · rw [hx]
            exact h2.1
          · exact i3 x hx hxc
      · rw [if_neg h2] at h
        cases h
    · rw [if_neg h1] at h
      have hcn : closeCount (l :: ls) = closeCount ls := by
        unfold closeCount
        rw [List.countP_cons_of_neg _ _ h1]
      have hcn2 : ∀ m, closeCount ((l :: ls).take (m + 1)) = closeCount (ls.take m) := by
        intro m
        unfold closeCount
        rw [List.take_succ_cons, List.countP_cons_of_neg _ _ h1]
      by_cases h3 : isOpenLine l = true
      · rw [if_pos h3] at h
        obtain ⟨i1, i2, i3⟩ := ih (d + 1) e h
        have hoc : openCount (l :: ls) = openCount ls + 1 := by
          unfold openCount
          rw [List.countP_cons_of_pos _ _ h3]
        refine ⟨?_, by omega, ?_⟩
        · intro n
          cases n with
          | zero => simp [closeCount, openCount]
          | succ m =>
            have := i1 m
            have ho2 : openCount ((l :: ls).take (m + 1)) = openCount (ls.take m) + 1 := by
              unfold openCount
              rw [List.take_succ_cons, List.countP_cons_of_pos _ _ h3]
            have := hcn2 m
            omega
        · intro x hx hxc
          rcases List.mem_cons.mp hx with hx | hx
          · rw [hx] at hxc
            exact absurd hxc h1
          · exact i3 x hx hxc
      · rw [if_neg h3] at h
        obtain ⟨i1, i2, i3⟩ := ih d e h
        have hoc : openCount (l :: ls) = openCount ls := by
          unfold openCount
          rw [List.countP_cons_of_neg _ _ h3]
        refine ⟨?_, by omega, ?_⟩
        · intro n
          cases n with
          | zero => simp [closeCount, openCount]
          | succ m =>
            have := i1 m
            have ho2 : openCount ((l :: ls).take (m + 1)) = openCount (ls.take m) := by
              unfold openCount
              rw [List.take_succ_cons, List.countP_cons_of_neg _ _ h3]
            have := hcn2 m
            omega
        · intro x hx hxc
          rcases List.mem_cons.mp hx with hx | hx
          · rw [hx] at hxc
            exact absurd hxc h1
          · exact i3 x hx hxc

theorem walkGood_refl (cl : Str) (s : IndexState) (h : s.index_follow_last = false) :
    WalkGood cl s s :=
  ⟨h, [], by simp, fun _ => balanced_nil cl⟩

theorem walkGood_trans (cl : Str) (s t u : IndexState) (h1 : WalkGood cl s t)
    (ht : u.index_error = false → t.index_error = false) (h2 : WalkGood cl t u) :
    WalkGood cl s u := by
  obtain ⟨_, A, hA, bA⟩ := h1
  obtain ⟨f2, B, hB, bB⟩ := h2
  refine ⟨f2, A ++ B, by rw [hB, hA, List.append_assoc], ?_⟩
  intro hu
  exact balanced_append cl A B (bA (ht hu)) (bB hu)

theorem addFromLastUpto_nofollow (env : IndexEnv) (set : IndexSettings) (fname : Str)
    (isdir : Bool) (depth : Nat) (finish : Bool) (st : IndexState)
    (h : st.index_follow_last = false) :
    addFromLastUpto env set fname isdir depth finish st = st := by
  unfold addFromLastUpto lastListReady
  simp [h]

theorem addFromLastLiftDepth_nofollow (env : IndexEnv) (set : IndexSettings) (depth : Nat)
    (st : IndexState) (h : st.index_follow_last = false) :
    addFromLastLiftDepth env set depth st = st := by
  unfold addFromLastLiftDepth lastListReady
  simp [h]

theorem emitFile_good (cl : Str) (env : IndexEnv) (set : IndexSettings) (flags : DirFlags)
    (orig_dir dir named_path : Str) (first : Bool) (fn_filter : Str) (depth : Nat)
    (exclude_dirs : List Str) (include_dirs : List SIndexInclude) (acc : FileLoop)
    (i : Nat) (file : SFileAndHash) (hf : acc.st.index_follow_last = false) :
    (emitFile env set flags orig_dir dir named_path first fn_filter depth exclude_dirs
        include_dirs acc i file).st.index_follow_last = false ∧
    (emitFile env set flags orig_dir dir named_path first fn_filter depth exclude_dirs
        include_dirs acc i file).st.index_error = acc.st.index_error ∧
    ∃ F, (emitFile env set flags orig_dir dir named_path first fn_filter depth exclude_dirs
        include_dirs acc i file).st.outfile = acc.st.outfile ++ F ∧ Balanced cl F := by
  have hup : ∀ fname, addFromLastUpto env set fname false depth false acc.st = acc.st :=
    fun fname => addFromLastUpto_nofollow env set fname false depth false acc.st hf
  unfold emitFile
  split
  · exact ⟨hf, rfl, [], by simp, balanced_nil cl⟩
  · split
    · exact ⟨hf, rfl, [], by simp, balanced_nil cl⟩
    · split
      · exact ⟨hf, rfl, [], by simp, balanced_nil cl⟩
      · simp only [hup]
        refine ⟨hf, trivial, _, rfl, ?_⟩
        split
        · exact balanced_neutral cl _ (neutral_file_line _).1 (neutral_file_line _).2
        · exact balanced_neutral cl _ (neutral_file_line _).1 (neutral_file_line _).2

theorem emitFiles_good (cl : Str) (env : IndexEnv) (set : IndexSettings) (flags : DirFlags)
    (orig_dir dir named_path : Str) (first : Bool) (fn_filter : Str) (depth : Nat)
    (exclude_dirs : List Str) (include_dirs : List SIndexInclude) :
    ∀ (files : List SFileAndHash) (i : Nat) (acc : FileLoop),
      acc.st.index_follow_last = false →
      (emitFiles env set flags orig_dir dir named_path first fn_filter depth exclude_dirs
          include_dirs files i acc).st.index_follow_last = false ∧
      (emitFiles env set flags orig_dir dir named_path first fn_filter depth exclude_dirs
          include_dirs files i acc).st.index_error = acc.st.index_error ∧
      ∃ F, (emitFiles env set flags orig_dir dir named_path first fn_filter depth exclude_dirs
          include_dirs files i acc).st.outfile = acc.st.outfile ++ F ∧ Balanced cl F := by
  intro files
  induction files with
  | nil =>
    intro i acc hf
    exact ⟨hf, rfl, [], by simp [emitFiles], balanced_nil cl⟩
  | cons file rest ih =>
    intro i acc hf
    obtain ⟨e1, e2, F1, e3, e4⟩ := emitFile_good cl env set flags orig_dir dir named_path first
      fn_filter depth exclude_dirs include_dirs acc i file hf
    obtain ⟨r1, r2, F2, r3, r4⟩ := ih (i + 1) _ e1
    rw [emitFiles]
    refine ⟨r1, by rw [r2, e2], F1 ++ F2, by rw [r3, e3, List.append_assoc], ?_⟩
    exact balanced_append cl F1 F2 e4 r4

theorem dirBlock_good (cl : Str) (s st1 st2 : IndexState) (o : Str) (B : List Str)
    (backup : Option SLastFileList) (rb : Bool) (hcl : isCloseLine cl = true)
    (h1 : st1.outfile = s.outfile ++ [o]) (ho : isOpenLine o = true)
    (h2 : st2.outfile = st1.outfile ++ B) (hB : st2.index_error = false → Balanced cl B)
    (hf : st2.index_follow_last = false) :
    WalkGood cl s
      (if rb then
        { st2 with
          outfile := (st2.outfile ++ [cl]).take s.outfile.length
          file_id := st2.file_id + 1
          last_filelist := if st2.index_follow_last then backup else st2.last_filelist }
      else { st2 with outfile := st2.outfile ++ [cl], file_id := st2.file_id + 1 }) := by
  cases rb with
  | true =>
    simp only [if_true]
    refine ⟨hf, [], ?_, fun _ => balanced_nil cl⟩
    simp only [h2, h1, List.append_nil, List.append_assoc]
    rw [List.take_left']
    rfl
  | false =>
    simp only [Bool.false_eq_true, if_false]
    refine ⟨hf, o :: (B ++ [cl]), ?_, ?_⟩
    · simp only [h2, h1, List.append_assoc, List.singleton_append, List.cons_append,
        List.nil_append]
    · intro he
      exact balanced_block cl o B ho (hB he) hcl

set_option maxHeartbeats 4000000 in
theorem walkDirs_good (env : IndexEnv) (set : IndexSettings)
    (recurse : Str → Str → Str → IndexState → Option (Bool × IndexState))
    (orig_dir dir named_path : Str) (first : Bool) (flags : DirFlags)
    (depth : Nat) (include_exclude_dirs : Bool)
    (exclude_dirs : List Str) (include_dirs : List SIndexInclude) (fn_filter : Str)
    (hrec : ∀ od d np s r, recurse od d np s = some r → s.index_follow_last = false →
      WalkGood (closeLine set) s r.2)
    (hroot : first = true → named_path ≠ ['.', '.']) :
    ∀ (files : List SFileAndHash) (i : Nat) (acc dl : DirLoop),
      (∀ x ∈ files, x.name ≠ ['.', '.']) →
      acc.st.index_follow_last = false →
      (acc.returned.isSome = true → acc.st.index_error = true) →
      walkDirs env set recurse orig_dir dir named_path first flags depth include_exclude_dirs
        exclude_dirs include_dirs fn_filter files i acc = some dl →
      WalkGood (closeLine set) acc.st dl.st ∧
        (dl.returned.isSome = true → dl.st.index_error = true) := by
  intro files
  induction files with
  | nil =>
    intro i acc dl _ hf hr h
    rw [walkDirs] at h
    cases h
    exact ⟨walkGood_refl _ _ hf, hr⟩
  | cons file rest ih =>
    intro i acc dl hn hf hr h
    have hn1 : ∀ x ∈ rest, x.name ≠ ['.', '.'] := fun x hx => hn x (List.mem_cons_of_mem _ hx)
    have hup : ∀ fname, addFromLastUpto env set fname true depth false acc.st = acc.st :=
      fun fname => addFromLastUpto_nofollow env set fname true depth false acc.st hf
    rw [walkDirs] at h
    split at h
    · cases h
      exact ⟨walkGood_refl _ _ hf, hr⟩
    · rename_i hret
      have hr0 : acc.returned.isSome = true → acc.st.index_error = true :=
        fun hh => absurd hh hret
      split at h
      · exact ih (i + 1) acc dl hn1 hf hr0 h
      · split at h
        · exact ih (i + 1) acc dl hn1 hf hr0 h
        · split at h
          · exact ih (i + 1) acc dl hn1 hf hr0 h
          · simp only [hup, hf, Bool.false_eq_true, if_false] at h
            split at h
            · split at h
              · cases h
              · rename_i b st2 heq
                have hname : (if (first && !List.isEmpty fn_filter && i == 0) = true then named_path
                    else file.name) ≠ ['.', '.'] := by
                  split
                  · rename_i hc
                    apply hroot
                    cases hfi : first with
                    | true => rfl
                    | false => simp [hfi] at hc
                  · exact hn file (List.mem_cons_self _ _)
                obtain ⟨w1, _, o, w3, w4⟩ := writeDir_good acc.st _ set.with_orig_path
                  file.change_indicator
                  (if (file.isspecialf && set.with_proper_symlinks) = true then
                    (if (file.issym && set.with_proper_symlinks) = true then
                        "&sym_target=".toList ++ env.EscapeParamString file.output_symlink_target
                      else []) ++
                      "&special=1".toList
                  else
                    if (file.issym && set.with_proper_symlinks) = true then
                      "&sym_target=".toList ++ env.EscapeParamString file.output_symlink_target
                    else []) hname
                rw [hf] at w1
                have hg : WalkGood (closeLine set) (writeDir acc.st
                    (if (first && !List.isEmpty fn_filter && i == 0) = true then named_path
                      else file.name) set.with_orig_path file.change_indicator
                    (if (file.isspecialf && set.with_proper_symlinks) = true then
                      (if (file.issym && set.with_proper_symlinks) = true then
                          "&sym_target=".toList ++ env.EscapeParamString file.output_symlink_target
                        else []) ++
                        "&special=1".toList
                    else
                      if (file.issym && set.with_proper_symlinks) = true then
                        "&sym_target=".toList ++ env.EscapeParamString file.output_symlink_target
                      else [])) st2 := by
                  split at heq
                  · exact hrec _ _ _ _ _ heq w1
                  · cases heq
                    exact walkGood_refl _ _ w1
                obtain ⟨g1, B, g2, g3⟩ := hg
                have hlift : addFromLastLiftDepth env set depth st2 = st2 :=
                  addFromLastLiftDepth_nofollow env set depth st2 g1
                rw [hlift] at h
                have hblock := dirBlock_good (closeLine set) acc.st _ st2 o B none
                  (!b && !(!include_exclude_dirs ||
                    (isIncluded env.am include_dirs (orig_dir ++ os_file_sep ++ file.name) true).1 ||
                    (isIncluded env.am include_dirs (named_path ++ os_file_sep ++ file.name)
                      true).1))
                  (isCloseLine_closeLine set) w3 w4 g2 g3 g1
                have fin : ∀ (st5 : IndexState) (hi : Bool), WalkGood (closeLine set) acc.st st5 →
                    (if st5.index_error = true then
                      some ({ st := st5, has_include := hi, returned := some false } : DirLoop)
                    else
                      walkDirs env set recurse orig_dir dir named_path first flags depth
                        include_exclude_dirs exclude_dirs include_dirs fn_filter rest (i + 1)
                        { st := st5, has_include := hi, returned := none }) = some dl →
                    WalkGood (closeLine set) acc.st dl.st ∧
                      (dl.returned.isSome = true → dl.st.index_error = true) := by
                  intro st5 hi hw h5
                  by_cases he : st5.index_error = true
                  · rw [if_pos he] at h5
                    cases h5
                    exact ⟨hw, fun _ => he⟩
                  · rw [if_neg he] at h5
                    obtain ⟨k1, k2⟩ := ih (i + 1) _ dl hn1 hw.1 (fun hh => by cases hh) h5
                    exact ⟨walkGood_trans _ _ _ _ hw (fun _ => by simpa using he) k1, k2⟩
                exact fin _ _ hblock h
            · have key : ∀ a : DirLoop,
                  walkDirs env set recurse orig_dir dir named_path first flags depth
                    include_exclude_dirs exclude_dirs include_dirs fn_filter rest (i + 1) a
                    = some dl →
                  a.st = acc.st → a.returned = acc.returned →
                  WalkGood (closeLine set) acc.st dl.st ∧
                    (dl.returned.isSome = true → dl.st.index_error = true) := by
                intro a h4 h3 h5
                have hh := ih (i + 1) a dl hn1 (by rw [h3]; exact hf)
                  (by rw [h3, h5]; exact hr0) h4
                rw [h3] at hh
                exact hh
              exact key _ h rfl rfl

theorem perturbOpenFiles_frame (env : IndexEnv) (rng : Nat → Nat) (path_lower : Str) :
    ∀ (files : List SFileAndHash) (st : IndexState),
      (perturbOpenFiles env rng path_lower files st).2.outfile = st.outfile ∧
      (perturbOpenFiles env rng path_lower files st).2.index_follow_last
        = st.index_follow_last := by
  intro files
  induction files with
  | nil => intro st; exact ⟨rfl, rfl⟩
  | cons f rest ih =>
    intro st
    rw [perturbOpenFiles]
    dsimp only
    split
    · obtain ⟨i1, i2⟩ := ih (perturbOpenFile rng st f).2
      exact ⟨i1, i2⟩
    · exact ih st

theorem getFilesProxy_frame (env : IndexEnv) (set : IndexSettings) (rng : Nat → Nat)
    (orig_path path named_path : Str) (use_db : Bool) (fn_filter : Str) (use_db_hashes : Bool)
    (exclude_dirs : List Str) (include_dirs : List SIndexInclude) (st : IndexState) :
    (getFilesProxy env set rng orig_path path named_path use_db fn_filter use_db_hashes
        exclude_dirs include_dirs st).2.2.outfile = st.outfile ∧
    (getFilesProxy env set rng orig_path path named_path use_db fn_filter use_db_hashes
        exclude_dirs include_dirs st).2.2.index_follow_last = st.index_follow_last := by
  have hp := perturbOpenFiles_frame env rng
  have herr : ∀ (c1 c2 : Prop) [Decidable c1] [Decidable c2],
      (if c1 then (if c2 then st else { st with index_error := true }) else st).outfile
        = st.outfile ∧
      (if c1 then (if c2 then st else { st with index_error := true }) else st).index_follow_last
        = st.index_follow_last := by
    intro c1 c2 _ _
    split_ifs <;> exact ⟨rfl, rfl⟩
  have herr2 : ∀ (c1 : Prop) [Decidable c1],
      (if c1 then { st with index_error := true } else st).outfile = st.outfile ∧
      (if c1 then { st with index_error := true } else st).index_follow_last
        = st.index_follow_last := by
    intro c1 _
    split_ifs <;> exact ⟨rfl, rfl⟩
  unfold getFilesProxy
  cases hw : env.win32
  · simp only [Bool.false_eq_true, if_false, Bool.not_false, Bool.true_and, Bool.false_and,
      Bool.or_true, Bool.true_or, if_true, Bool.not_true, Bool.false_or]
    exact herr2 _
  · simp only [if_true, Bool.true_and, Bool.not_true, Bool.false_and, Bool.false_eq_true,
      if_false, Bool.true_or]
    by_cases hc : ((!if env.isDataDir (env.strlower (orig_path ++ os_file_sep)) = true then false
        else use_db) || env.dirChanged (env.strlower (orig_path ++ os_file_sep))) = true
    · rw [if_pos hc]
      dsimp only
      by_cases hd : env.dirChanged (env.strlower (orig_path ++ os_file_sep)) = true
      · simp only [hd, if_true]
        rw [(hp _ _ _).1, (hp _ _ _).2]
        exact herr _ _
      · simp only [hd, Bool.false_eq_true, if_false]
        exact herr _ _
    · rw [if_neg hc]
      cases hrow : env.cacheRow (env.strlower (orig_path ++ os_file_sep)) with
      | none =>
        dsimp only
        exact herr _ _
      | some row =>
        dsimp only
        exact ⟨rfl, rfl⟩

set_option maxHeartbeats 4000000 in
theorem initialCheckStep_good (env : IndexEnv) (set : IndexSettings)
    (listing : Str → Str → Str → Bool → Str → Bool → List Str → List SIndexInclude →
      IndexState → List SFileAndHash × Int × IndexState)
    (recurse : Str → Str → Str → Nat → IndexState → Option (Bool × IndexState))
    (orig_dir dir named_path : Str) (first : Bool) (flags : DirFlags) (use_db : Bool)
    (symlinked : Bool) (depth : Nat) (dir_recurse include_exclude_dirs : Bool)
    (exclude_dirs : List Str) (include_dirs : List SIndexInclude) (orig_path : Str)
    (st : IndexState) (r : Bool × IndexState)
    (hl : ListingKeeps listing)
    (hrec : ∀ od d np dp s r, recurse od d np dp s = some r → s.index_follow_last = false →
      WalkGood (closeLine set) s r.2)
    (hroot : first = true → named_path ≠ ['.', '.'])
    (hf : st.index_follow_last = false)
    (h : initialCheckStep env set listing recurse orig_dir dir named_path first flags use_db
      symlinked depth dir_recurse include_exclude_dirs exclude_dirs include_dirs orig_path st
      = some r) :
    WalkGood (closeLine set) st r.2 := by
  have hup : ∀ fname, addFromLastUpto env set fname true depth false st = st :=
    fun fname => addFromLastUpto_nofollow env set fname true depth false st hf
  unfold initialCheckStep at h
  split at h
  · cases h
    exact walkGood_refl _ _ hf
  · split at h
    · split at h
      · cases h
        exact ⟨hf, [], by simp, fun _ => balanced_nil _⟩
      · cases h
        exact walkGood_refl _ _ hf
    · simp only [hup] at h
      generalize hst1 : (if (first && !env.isFile dir && env.isDirectory dir) = true then
          writeDir st named_path set.with_orig_path (env.rootChange dir) _ else st) = st1 at h
      generalize hlr : listing _ _ _ _ _ _ _ _ st1 = lr at h
      generalize hfl : emitFiles env set flags _ _ _ _ _ _ _ _ lr.1 0 _ = fl at h
      generalize hst3 : (if fl.finish_phash_path = true then _ else fl.st) = st3 at h
      generalize (if (first && set.with_orig_path) = true then _ else ([] : Str)) = extra0 at hst1
      have f1 : st1.index_follow_last = false ∧ ∃ O, st1.outfile = st.outfile ++ O ∧
          ((first && !env.isFile dir && env.isDirectory dir) = true →
            ∃ o, O = [o] ∧ isOpenLine o = true) ∧
          (¬ (first && !env.isFile dir && env.isDirectory dir) = true → O = []) := by
        rw [← hst1]
        by_cases hd : (first && !env.isFile dir && env.isDirectory dir) = true
        · rw [if_pos hd]
          have hfi : first = true := by
            cases hx : first with
            | true => rfl
            | false => simp [hx] at hd
          obtain ⟨w1, _, o, w3, w4⟩ := writeDir_good st named_path set.with_orig_path
            (env.rootChange dir) extra0 (hroot hfi)
          exact ⟨by rw [w1]; exact hf, [o], w3, fun _ => ⟨o, rfl, w4⟩, fun hc => absurd hd hc⟩
        · rw [if_neg hd]
          exact ⟨hf, [], by simp, fun hc => absurd hc hd, fun _ => rfl⟩
      obtain ⟨a1, O, a2, a3, a4⟩ := f1
      have f2 : lr.2.2.outfile = st1.outfile ∧ lr.2.2.index_follow_last = st1.index_follow_last ∧
          ∀ x ∈ lr.1, x.name ≠ ['.', '.'] := by
        rw [← hlr]
        exact hl _ _ _ _ _ _ _ _ _
      obtain ⟨b1, b2, b3⟩ := f2
      rw [a1] at b2
      have f3 : fl.st.index_follow_last = false ∧ fl.st.index_error = lr.2.2.index_error ∧
          ∃ F, fl.st.outfile = lr.2.2.outfile ++ F ∧ Balanced (closeLine set) F := by
        rw [← hfl]
        exact emitFiles_good (closeLine set) env set flags _ _ _ _ _ _ _ _ lr.1 0 _ b2
      obtain ⟨c1, c2, F, c3, c4⟩ := f3
      have f4 : st3.outfile = fl.st.outfile ∧ st3.index_follow_last = fl.st.index_follow_last ∧
          st3.index_error = fl.st.index_error := by
        rw [← hst3]
        split <;> exact ⟨rfl, rfl, rfl⟩
      obtain ⟨d1, d2, d3⟩ := f4
      rw [c1] at d2
      by_cases he : lr.2.2.index_error = true
      · rw [if_pos he] at h
        cases h
        refine ⟨b2, O, by rw [b1, a2], fun hne => ?_⟩
        rw [he] at hne
        cases hne
      · rw [if_neg he] at h
        split at h
        · cases h
        · rename_i dl heq
          have f5 : WalkGood (closeLine set) st3 dl.st ∧
              (dl.returned.isSome = true → dl.st.index_error = true) := by
            by_cases hdr : dir_recurse = true
            · rw [if_pos hdr] at heq
              exact walkDirs_good env set _ _ _ _ first flags _ _ _ _ _
                (fun od d np s r hr hs => hrec od d np _ s r hr hs) hroot lr.1 0 _ dl b3 d2
                (fun hh => by cases hh) heq
            · rw [if_neg hdr] at heq
              cases heq
              exact ⟨walkGood_refl _ _ d2, fun hh => by cases hh⟩
          obtain ⟨⟨e1, W, e2, e3⟩, e4⟩ := f5
          have hout : dl.st.outfile = st.outfile ++ (O ++ (F ++ W)) := by
            rw [e2, d1, c3, b1, a2]
            simp only [List.append_assoc]
          split at h
          · rename_i r1 hret
            cases h
            refine ⟨e1, O ++ (F ++ W), hout, fun hne => ?_⟩
            have := e4 (by rw [hret]; rfl)
            rw [this] at hne
            cases hne
          · by_cases hd : (first && !env.isFile dir && env.isDirectory dir) = true
            · rw [if_pos hd, addFromLastLiftDepth_nofollow env set _ dl.st e1] at h
              cases h
              obtain ⟨o, ho1, ho2⟩ := a3 hd
              refine ⟨e1, o :: ((F ++ W) ++ [closeLine set]), ?_, fun hne => ?_⟩
              · show dl.st.outfile ++ [closeLine set] = _
                rw [hout, ho1]
                simp only [List.append_assoc, List.singleton_append, List.cons_append,
                  List.nil_append]
              · exact balanced_block _ o _ ho2 (balanced_append _ F W c4 (e3 hne))
                  (isCloseLine_closeLine set)
            · rw [if_neg hd] at h
              cases h
              refine ⟨e1, F ++ W, ?_, fun hne => balanced_append _ F W c4 (e3 hne)⟩
              rw [hout, a4 hd, List.nil_append]

theorem initialCheck_good (env : IndexEnv) (set : IndexSettings) (rng : Nat → Nat)
    (hl : ListingKeeps (getFilesProxy env set rng)) :
    ∀ (fuel : Nat) (orig_dir dir named_path : Str) (first : Bool) (flags : DirFlags)
      (use_db symlinked : Bool) (depth : Nat) (dir_recurse include_exclude_dirs : Bool)
      (exclude_dirs : List Str) (include_dirs : List SIndexInclude) (orig_path : Str)
      (st : IndexState) (r : Bool × IndexState),
      (first = true → named_path ≠ ['.', '.']) → st.index_follow_last = false →
      initialCheck env set rng fuel orig_dir dir named_path first flags use_db symlinked depth
        dir_recurse include_exclude_dirs exclude_dirs include_dirs orig_path st = some r →
      WalkGood (closeLine set) st r.2 := by
  intro fuel
  induction fuel with
  | zero =>
    intro orig_dir dir named_path first flags use_db symlinked depth dir_recurse
      include_exclude_dirs exclude_dirs include_dirs orig_path st r _ _ h
    rw [initialCheck] at h
    cases h
  | succ fuel ih =>
    intro orig_dir dir named_path first flags use_db symlinked depth dir_recurse
      include_exclude_dirs exclude_dirs include_dirs orig_path st r hroot hf h
    rw [initialCheck] at h
    exact initialCheckStep_good env set _ _ orig_dir dir named_path first flags use_db symlinked
      depth dir_recurse include_exclude_dirs exclude_dirs include_dirs orig_path st r hl
      (fun od d np dp s r1 hr hs =>
        ih od d np false flags use_db false dp dir_recurse include_exclude_dirs exclude_dirs
          include_dirs [] s r1 (fun hc => by cases hc) hs hr)
      hroot hf h

theorem treeR_names (rng : Nat → Nat) (a b c : Str) (d : Bool) (e : Str) (f : Bool)
    (g : List Str) (h : List SIndexInclude) (s : IndexState) :
    ∀ x ∈ (getFilesProxy treeR plainSettings rng a b c d e f g h s).1, x.name ≠ ['.', '.'] := by
  intro x hx
  unfold getFilesProxy at hx
  simp only [treeR, treeA, plainSettings, Bool.not_false, Bool.true_and, Bool.false_and,
    Bool.false_eq_true, if_false, Bool.or_true, if_true, Bool.true_or] at hx
  generalize (if List.isEmpty b = true then os_file_sep else b) = path at hx
  by_cases h1 : path = ['/', 'r']
  · rw [if_pos h1] at hx
    simp only [List.mem_cons, List.mem_singleton, List.not_mem_nil, or_false] at hx
    rcases hx with hx | hx <;> rw [hx] <;> decide
  · rw [if_neg h1] at hx
    by_cases h2 : path = ['/', 'r', '/', 'q']
    · rw [if_pos h2] at hx
      simp only [List.mem_singleton] at hx
      rw [hx]
      decide
    · rw [if_neg h2] at hx
      cases hx

/-- C27. With previous-list following disabled, and no listed entry and no root
named `..`, the lines that `initialCheck` appends to the file list for a backup
root (a directory root in particular) are appended only, and when the walk ends
without an index error they are well nested: every prefix of them holds at least
as many lines that open a directory as lines that close one, the whole holds
equally many, and every close line is `d".."` when `with_proper_symlinks` is
false and `u` when it is true. -/
theorem initialCheck_well_nested (env : IndexEnv) (set : IndexSettings) (rng : Nat → Nat)
    (fuel : Nat) (orig_dir dir named_path : Str) (flags : DirFlags) (use_db symlinked : Bool)
    (depth : Nat) (dir_recurse include_exclude_dirs : Bool) (exclude_dirs : List Str)
    (include_dirs : List SIndexInclude) (orig_path : Str) (st : IndexState)
    (r : Bool × IndexState)
    (hfollow : st.index_follow_last = false)
    (hroot : named_path ≠ ['.', '.'])
    (hnames : ∀ a b c d e f g h s,
      ∀ x ∈ (getFilesProxy env set rng a b c d e f g h s).1, x.name ≠ ['.', '.'])
    (h : initialCheck env set rng fuel orig_dir dir named_path true flags use_db symlinked depth
      dir_recurse include_exclude_dirs exclude_dirs include_dirs orig_path st = some r) :
    ∃ added, r.2.outfile = st.outfile ++ added ∧
      (r.2.index_error = false →
        (∀ n, closeCount (added.take n) ≤ openCount (added.take n)) ∧
        closeCount added = openCount added ∧
        ∀ line ∈ added, isCloseLine line = true →
          line = (if set.with_proper_symlinks then ['u'] else ['d', '"', '.', '.', '"'])) := by
  have hl : ListingKeeps (getFilesProxy env set rng) := by
    intro a b c d e f g h s
    obtain ⟨p1, p2⟩ := getFilesProxy_frame env set rng a b c d e f g h s
    exact ⟨p1, p2, hnames a b c d e f g h s⟩
  obtain ⟨_, added, g2, g3⟩ := initialCheck_good env set rng hl fuel orig_dir dir named_path true
    flags use_db symlinked depth dir_recurse include_exclude_dirs exclude_dirs include_dirs
    orig_path st r (fun _ => hroot) hfollow h
  refine ⟨added, g2, fun hok => ?_⟩
  obtain ⟨n1, n2, n3⟩ := nestFrom_counts (closeLine set) added 0 0 (g3 hok 0)
  refine ⟨fun n => ?_, by omega, fun line hl1 hl2 => ?_⟩
  · have := n1 n
    omega
  · rw [n3 line hl1 hl2]
    unfold closeLine
    cases set.with_proper_symlinks <;> rfl

/-- C27, applied to the root `/r` with the include setting `/r/q/*`: the two
lines of the directory `p` are rolled back, and the list that remains is well
nested. -/
theorem initialCheck_well_nested_witness :
    (initialCheck treeR plainSettings (fun _ => 0) 5 ['/', 'r'] ['/', 'r'] ['r'] true
        (rootFlags false) false false 0 true true [] includeQ [] startState).map
        (fun r => (r.1, r.2.outfile, r.2.index_error))
      = some (true, ["d\"r\"".toList, "d\"q\"".toList, "f\"f\" 10 100".toList,
          "d\"..\"".toList, "d\"..\"".toList], false) ∧
    ∃ added,
      ((initialCheck treeR plainSettings (fun _ => 0) 5 ['/', 'r'] ['/', 'r'] ['r'] true
        (rootFlags false) false false 0 true true [] includeQ [] startState).getD
          (false, startState)).2.outfile = startState.outfile ++ added ∧
      (((initialCheck treeR plainSettings (fun _ => 0) 5 ['/', 'r'] ['/', 'r'] ['r'] true
        (rootFlags false) false false 0 true true [] includeQ [] startState).getD
          (false, startState)).2.index_error = false →
        (∀ n, closeCount (added.take n) ≤ openCount (added.take n)) ∧
        closeCount added = openCount added ∧
        ∀ line ∈ added, isCloseLine line = true →
          line = (if plainSettings.with_proper_symlinks then ['u']
            else ['d', '"', '.', '.', '"'])) :=
  ⟨by decide,
    initialCheck_well_nested treeR plainSettings (fun _ => 0) 5 ['/', 'r'] ['/', 'r'] ['r']
      (rootFlags false) false false 0 true true [] includeQ [] startState _ rfl (by decide)
      (treeR_names (fun _ => 0)) (by decide)⟩

-- (end of the theorems)
end IndexThread

